import Mathlib

/-!
# QuizCompetation: the room state machine of `server.js`

A shallow embedding of the socket handlers of `server.js` and of the
timer-driven question flow, followed by theorems about them.

Conventions of the embedding.

* The plain objects `rooms`, `room.players` and `room.answers` are used by the
  program as dictionaries keyed by strings.  They are embedded as association
  lists in insertion order (`Dict`); `o[k]` is `Dict.get`, `o[k] = v` is
  `Dict.set` (an existing key keeps its position), `delete o[k]` is `Dict.del`,
  `Object.values(o)` is `Dict.values`.  Keys are socket ids and room codes;
  keys that look like array indices, which JavaScript would enumerate first,
  are not considered.  The members that `rooms` inherits from
  `Object.prototype` (such as `constructor`) are not keys, but a lookup finds
  them: the handlers treat them apart (`inherited`).
* JavaScript numbers are doubles: `NaN`, the two infinities and the finite
  values, each carried by the rational it denotes (`JSNum`); the sum of two
  numbers is the double nearest to the exact sum (`roundDouble`).  Strings are
  lists of UTF-16 code units (`JSStr`).  Values that arrive from a client or
  from `questions.json` are primitives (`JSVal`).
* A handler yields a `Step`: the state it leaves, the events it emitted in
  order, whether it stopped with an uncaught `TypeError`, and whether it
  wrote to an object outside the registry.
* `setTimeout(advance, ...)` adds the room code to `State.timers`, the pending
  callbacks; a pending callback may fire at any later moment (`timerFire`).
  `Math.random` is a list of draws handed to `createRoom`.
-/

namespace Quiz

/-! ## JavaScript values -/

/-- A JavaScript number: `NaN`, a finite value, or an infinity (`neg` tells
`-Infinity` from `Infinity`).  A finite value is carried by the rational it
denotes; the values a number can take are the rationals `IsDouble`, and
`roundDouble` maps every rational to the nearest of them.  The two zeros are
one value: the program never divides, and no other operation it uses tells
them apart. -/
inductive JSNum where
  | nan
  | fin (q : ℚ)
  | inf (neg : Bool)
  deriving DecidableEq, Repr

instance (n : Nat) : OfNat JSNum n := ⟨.fin n⟩

/-- A JavaScript string: its UTF-16 code units. -/
abbrev JSStr := List Nat

/-- The code units of one character: one unit in the basic plane, a surrogate
pair above it. -/
def charUnits (c : Char) : List Nat :=
  if c.toNat < 65536 then [c.toNat]
  else [55296 + (c.toNat - 65536) / 1024, 56320 + (c.toNat - 65536) % 1024]

/-- The JavaScript string with the text of `s`. -/
def utf16 (s : String) : JSStr := (s.data.map charUnits).flatten

/-- A primitive JavaScript value, as found in a payload or in the catalog. -/
inductive JSVal where
  | undefined
  | null
  | bool (b : Bool)
  | num (n : JSNum)
  | str (s : JSStr)
  deriving DecidableEq, Repr

/-- The loop of `ilog2`. -/
def log2Loop : Nat → Nat → Nat
  | 0, _ => 0
  | fuel + 1, n => if n < 2 then 0 else log2Loop fuel (n / 2) + 1

/-- The position of the leading bit of `n`: `2 ^ ilog2 n ≤ n < 2 ^ (ilog2 n + 1)`
for `n > 0`. -/
def ilog2 (n : Nat) : Nat := log2Loop n n

/-- The binade of `x > 0`: the `e` with `2 ^ e ≤ x < 2 ^ (e + 1)`. -/
def floorLog2 (x : ℚ) : ℤ :=
  let e0 : ℤ := (ilog2 x.num.natAbs : ℤ) - (ilog2 x.den : ℤ)
  if (2 : ℚ) ^ e0 ≤ x then e0 else e0 - 1

/-- The integer nearest to `t ≥ 0`, the even one of two at the same distance. -/
def roundHalfEven (t : ℚ) : ℕ :=
  if 1 / 2 < t - ⌊t⌋₊ ∨ (t - ⌊t⌋₊ = 1 / 2 ∧ ⌊t⌋₊ % 2 = 1) then ⌊t⌋₊ + 1 else ⌊t⌋₊

/-- The exponent of the last place of the doubles of the binade of `x > 0`:
53 significant bits, and no exponent below that of the subnormal numbers. -/
def ulpExp (x : ℚ) : ℤ := max (floorLog2 x - 52) (-1074)

/-- The double nearest to `x > 0` (round to nearest, ties to even): `Infinity`
from `2 ^ 1024` on. -/
def roundPos (x : ℚ) : JSNum :=
  if (2 : ℚ) ^ (1024 : ℤ) ≤ (roundHalfEven (x / 2 ^ ulpExp x) : ℚ) * 2 ^ ulpExp x then .inf false
  else .fin ((roundHalfEven (x / 2 ^ ulpExp x) : ℚ) * 2 ^ ulpExp x)

/-- The number `-n`. -/
def JSNum.neg : JSNum → JSNum
  | .nan => .nan
  | .fin q => .fin (-q)
  | .inf b => .inf (!b)

/-- The number that a real value `x` denotes: the double nearest to it. -/
def roundDouble (x : ℚ) : JSNum :=
  if x = 0 then .fin 0
  else if x < 0 then (roundPos (-x)).neg
  else roundPos x

/-- The operator `a + b` on two numbers. -/
def JSNum.add : JSNum → JSNum → JSNum
  | .nan, _ => .nan
  | _, .nan => .nan
  | .inf a, .inf b => if a = b then .inf a else .nan
  | .inf a, .fin _ => .inf a
  | .fin _, .inf b => .inf b
  | .fin a, .fin b => roundDouble (a + b)

/-- Truthiness of a number: `NaN` and `0` are falsy. -/
def JSNum.truthy : JSNum → Bool
  | .nan => false
  | .fin q => decide (q ≠ 0)
  | .inf _ => true

/-- Truthiness of a value: `undefined`, `null`, `false`, `0`, `NaN` and the
empty string are falsy. -/
def JSVal.truthy : JSVal → Bool
  | .undefined => false
  | .null => false
  | .bool b => b
  | .num n => n.truthy
  | .str s => decide (s ≠ [])

/-- The operator `a === b` on two numbers: `NaN` equals nothing. -/
def JSNum.strictEq : JSNum → JSNum → Bool
  | .fin a, .fin b => decide (a = b)
  | .inf a, .inf b => decide (a = b)
  | _, _ => false

/-- The comparison `n > 0` on a number: false for `NaN`. -/
def JSNum.isPos : JSNum → Bool
  | .fin q => decide (0 < q)
  | .inf neg => !neg
  | .nan => false

/-- The comparison `a <= b` on two numbers: false when one is `NaN`. -/
def JSNum.le : JSNum → JSNum → Bool
  | .nan, _ => false
  | _, .nan => false
  | .fin a, .fin b => decide (a ≤ b)
  | .fin _, .inf neg => !neg
  | .inf neg, .fin _ => neg
  | .inf a, .inf b => a || !b

/-- White space and line terminators, which `Number` strips from both ends of
a string: TAB, LF, VT, FF, CR, the space separators of Unicode, LS, PS and the
byte order mark. -/
def isJSSpace (u : Nat) : Bool :=
  u = 9 || u = 10 || u = 11 || u = 12 || u = 13 ||
  u = 32 || u = 160 || u = 5760 ||
  (8192 ≤ u && u ≤ 8202) ||
  u = 8232 || u = 8233 || u = 8239 || u = 8287 ||
  u = 12288 || u = 65279

/-- Whether a code unit is a decimal digit. -/
def isDigit (u : Nat) : Bool := 48 ≤ u && u ≤ 57

/-- The value of a run of decimal digits. -/
def digitsNat (ds : JSStr) : Nat := ds.foldl (fun acc u => 10 * acc + (u - 48)) 0

/-- The value of a hexadecimal digit. -/
def hexDigit (u : Nat) : Option Nat :=
  if 48 ≤ u ∧ u ≤ 57 then some (u - 48)
  else if 97 ≤ u ∧ u ≤ 102 then some (u - 87)
  else if 65 ≤ u ∧ u ≤ 70 then some (u - 55)
  else none

/-- The value of a run of digits of the given radix, after the digits read so
far; `none` when a unit is not such a digit. -/
def radixLoop (radix : Nat) : JSStr → Nat → Option Nat
  | [], acc => some acc
  | u :: rest, acc =>
    match hexDigit u with
    | none => none
    | some d => if d < radix then radixLoop radix rest (radix * acc + d) else none

/-- The value of a binary, octal or hexadecimal integer literal (`0b`, `0o`,
`0x`, in either case); `none` when the string is not one. -/
def nonDecimalLiteral (cs : JSStr) : Option Nat :=
  match cs with
  | 48 :: p :: d :: ds =>
    if p = 120 ∨ p = 88 then radixLoop 16 (d :: ds) 0
    else if p = 111 ∨ p = 79 then radixLoop 8 (d :: ds) 0
    else if p = 98 ∨ p = 66 then radixLoop 2 (d :: ds) 0
    else none
  | _ => none

/-- The value of a signed run of decimal digits, the integer of an exponent
part; `none` when the string is not one. -/
def signedInteger (cs : JSStr) : Option ℤ :=
  match cs with
  | 43 :: ds => if ds ≠ [] ∧ ds.all isDigit then some (digitsNat ds) else none
  | 45 :: ds => if ds ≠ [] ∧ ds.all isDigit then some (-(digitsNat ds : ℤ)) else none
  | ds => if ds ≠ [] ∧ ds.all isDigit then some (digitsNat ds) else none

/-- The exact value of an unsigned decimal literal: digits, an optional
fraction, an optional exponent part, with a digit before or after the point;
`none` when the string is not one. -/
def unsignedDecimal (cs : JSStr) : Option ℚ :=
  let ip := cs.takeWhile isDigit
  let r1 := cs.dropWhile isDigit
  let fp := match r1 with
    | 46 :: r => r.takeWhile isDigit
    | _ => []
  let r2 := match r1 with
    | 46 :: r => r.dropWhile isDigit
    | _ => r1
  let mant : ℚ := (digitsNat ip : ℚ) + (digitsNat fp : ℚ) / (10 : ℚ) ^ fp.length
  if ip = [] ∧ fp = [] then none
  else
    match r2 with
    | [] => some mant
    | c :: r =>
      if c = 101 ∨ c = 69 then (signedInteger r).map (fun e => mant * (10 : ℚ) ^ e)
      else none

/-- The number an unsigned decimal literal or `Infinity` denotes. -/
def unsignedNumber (cs : JSStr) : JSNum :=
  if cs = utf16 "Infinity" then .inf false
  else
    match unsignedDecimal cs with
    | some q => roundDouble q
    | none => .nan

/-- The string without the white space at its two ends. -/
def trim (s : JSStr) : JSStr :=
  ((s.dropWhile isJSSpace).reverse.dropWhile isJSSpace).reverse

/-- `Number(s)` for a string: the trimmed string is empty (value 0), a binary,
octal or hexadecimal integer literal, or a decimal literal with an optional
sign; every other string is read as `NaN`. -/
def strToNumber (s : JSStr) : JSNum :=
  if trim s = [] then .fin 0
  else
    match nonDecimalLiteral (trim s) with
    | some n => roundDouble n
    | none =>
      match trim s with
      | 45 :: r => (unsignedNumber r).neg
      | 43 :: r => unsignedNumber r
      | cs => unsignedNumber cs

/-- The coercion `Number(v)`. -/
def Number : JSVal → JSNum
  | .undefined => .nan
  | .null => .fin 0
  | .bool b => if b then .fin 1 else .fin 0
  | .num n => n
  | .str s => strToNumber s

/-- The decimal exponent of `x > 0`: the `n` with `10 ^ (n - 1) ≤ x < 10 ^ n`,
looked for in a range that holds every double. -/
def decimalExponent (x : ℚ) : ℤ :=
  match (List.range 700).find? (fun i => decide (x < (10 : ℚ) ^ ((i : ℤ) - 340))) with
  | some i => (i : ℤ) - 340
  | none => 360

/-- The decimal with `k` digits that denotes the double `x > 0` and is nearest
to it, as its digits `s` and its exponent `n` (the value is
`s * 10 ^ (n - k)`); `none` when no decimal with `k` digits denotes `x`. -/
def digitsFor (x : ℚ) (k : Nat) : Option (Nat × ℤ) :=
  let n := decimalExponent x
  let scale : ℚ := (10 : ℚ) ^ (n - k)
  let lo := ⌊x / scale⌋₊
  let hi := lo + 1
  let okLo := decide (roundDouble (lo * scale) = .fin x)
  let okHi := decide (roundDouble (hi * scale) = .fin x)
  let pick : Option Nat :=
    if okLo && okHi then
      (if x - lo * scale < hi * scale - x then some lo
       else if hi * scale - x < x - lo * scale then some hi
       else if lo % 2 = 0 then some lo else some hi)
    else if okLo then some lo
    else if okHi then some hi
    else none
  pick.map (fun s => if s = 10 ^ k then (10 ^ (k - 1), n + 1) else (s, n))

/-- The shortest decimal that denotes the double `x > 0`: its number of digits
`k`, its digits `s` and its exponent `n`.  Seventeen digits denote any double. -/
def shortestDigits (x : ℚ) : Nat × Nat × ℤ :=
  match (List.range 17).findSome? (fun i => (digitsFor x (i + 1)).map (fun r => (i + 1, r))) with
  | some r => r
  | none => (17, ⌊x / (10 : ℚ) ^ (decimalExponent x - 17)⌋₊, decimalExponent x)

/-- The code units of the decimal digits of a natural number. -/
def natUnits (n : Nat) : JSStr := (Nat.toDigits 10 n).map Char.toNat

/-- The string of a finite number `x > 0`, laid out from its shortest digits:
plain digits up to 21 places, a leading `0.` down to six zeros, the exponent
form beyond. -/
def posToString (x : ℚ) : JSStr :=
  let k := (shortestDigits x).1
  let ds := natUnits (shortestDigits x).2.1
  let n := (shortestDigits x).2.2
  if (k : ℤ) ≤ n ∧ n ≤ 21 then ds ++ List.replicate (n.toNat - k) 48
  else if 0 < n ∧ n ≤ 21 then ds.take n.toNat ++ [46] ++ ds.drop n.toNat
  else if -6 < n ∧ n ≤ 0 then [48, 46] ++ List.replicate (-n).toNat 48 ++ ds
  else
    let e := n - 1
    let tail := [101, if e < 0 then 45 else 43] ++ natUnits e.natAbs
    if k = 1 then ds ++ tail else ds.take 1 ++ [46] ++ ds.drop 1 ++ tail

/-- The string of a number. -/
def numToString : JSNum → JSStr
  | .nan => utf16 "NaN"
  | .inf neg => if neg then utf16 "-Infinity" else utf16 "Infinity"
  | .fin q =>
    if q = 0 then [48]
    else if q < 0 then 45 :: posToString (-q)
    else posToString q

/-- The coercion `String(v)`. -/
def toJSString : JSVal → JSStr
  | .undefined => utf16 "undefined"
  | .null => utf16 "null"
  | .bool b => if b then utf16 "true" else utf16 "false"
  | .num n => numToString n
  | .str s => s

/-- The expression `v || null`. -/
def orNull (v : JSVal) : JSVal := if v.truthy then v else .null

/-- The values a finite JavaScript number can take: `m * 2 ^ E` in either
sign, with a significand below `2 ^ 53` and an exponent in the range of the
binary64 format. -/
def IsDouble (q : ℚ) : Prop :=
  ∃ (m : ℕ) (E : ℤ), m < 2 ^ 53 ∧ -1074 ≤ E ∧ E ≤ 971 ∧ |q| = (m : ℚ) * 2 ^ E

/-- A number value: `NaN`, an infinity, or a finite double. -/
def JSNum.IsValue : JSNum → Prop
  | .fin q => IsDouble q
  | _ => True

/-! ## Dictionaries -/

/-- A plain object used as a dictionary: its own properties in insertion
order. -/
abbrev Dict (α : Type) := List (String × α)

/-- The lookup `o[k]`; `none` stands for `undefined`. -/
def Dict.get {α : Type} : Dict α → String → Option α
  | [], _ => none
  | (k, v) :: rest, key => if k = key then some v else Dict.get rest key

/-- The assignment `o[k] = v`: replaces the value of an existing key in place,
otherwise appends the key. -/
def Dict.set {α : Type} : Dict α → String → α → Dict α
  | [], key, v => [(key, v)]
  | (k, w) :: rest, key, v =>
    if k = key then (k, v) :: rest else (k, w) :: Dict.set rest key v

/-- The statement `delete o[k]`. -/
def Dict.del {α : Type} : Dict α → String → Dict α
  | [], _ => []
  | (k, v) :: rest, key => if k = key then Dict.del rest key else (k, v) :: Dict.del rest key

/-- The keys, as enumerated by `for (const k in o)`. -/
def Dict.keys {α : Type} (d : Dict α) : List String := d.map Prod.fst

/-- The values, `Object.values(o)`. -/
def Dict.values {α : Type} (d : Dict α) : List α := d.map Prod.snd

/-! ## Data model -/

/-- A record of the question catalog; only `correct` and `points` are read by
the server. -/
structure Question where
  correct : JSVal
  points : JSVal
  deriving DecidableEq, Repr

/-- An entry of `room.players`. -/
structure Player where
  id : String
  name : JSStr
  avatar : JSVal
  score : JSNum
  deriving DecidableEq, Repr

/-- An entry of the `perPlayer` object returned by `evaluateAnswers`. -/
structure PerPlayer where
  id : String
  name : JSStr
  avatar : JSVal
  correct : Bool
  deriving DecidableEq, Repr

/-- An entry of a leaderboard snapshot. -/
structure LeaderEntry where
  name : JSStr
  score : JSNum
  avatar : JSVal
  deriving DecidableEq, Repr

/-- The object stored under `rooms[code]`. -/
structure Room where
  hostId : Option String
  players : Dict Player
  currentQuestionIndex : Int
  roundActive : Bool
  answers : Dict JSVal
  autoLeaderboard : Bool
  autoQuestionTimer : JSNum
  deriving DecidableEq, Repr

/-- The catalog `QUESTIONS`. -/
abbrev Catalog := List Question

/-- The read `QUESTIONS[i]`; `none` stands for `undefined`. -/
def Catalog.at (qs : Catalog) (i : Int) : Option Question :=
  if i < 0 then none else qs.get? i.toNat

/-- The expression `p.score || 0`. -/
def scoreOrZero (score : JSNum) : JSNum := if score.truthy then score else 0

/-- The expression `Number(q.points) || 100`. -/
def pointsOf (q : Question) : JSNum :=
  if (Number q.points).truthy then Number q.points else 100

/-- The body of the loop `for (const sid in room.answers)` of
`evaluateAnswers`, over the entries still to visit. -/
def evalLoop (q : Question) :
    List (String × JSVal) → Dict Player → Dict PerPlayer → Dict Player × Dict PerPlayer
  | [], players, per => (players, per)
  | (sid, raw) :: rest, players, per =>
    let ans := Number raw
    match players.get sid with
    | none => evalLoop q rest players per
    | some p =>
      let got := ans.strictEq (Number q.correct)
      let per' := per.set sid { id := sid, name := p.name, avatar := orNull p.avatar, correct := got }
      if got then
        evalLoop q rest (players.set sid { p with score := (scoreOrZero p.score).add (pointsOf q) }) per'
      else
        evalLoop q rest players per'

/-- The function `evaluateAnswers` on the room it found: the room it leaves
and the `perPlayer` object it returns. -/
def evaluateRoom (qs : Catalog) (room : Room) : Room × Dict PerPlayer :=
  match qs.at room.currentQuestionIndex with
  | none => (room, [])
  | some q =>
    let r := evalLoop q room.answers room.players []
    ({ room with players := r.1, answers := [] }, r.2)

/-! ## Events and state -/

/-- An outbound event with its payload.  `stateOther` is a `state` event whose
payload is not a room (see `inherited`). -/
inductive Event where
  | roomCreated (code : String)
  | hostAccepted (code : String)
  | joinedAck (id : String) (code : String)
  | joinRejected
  | errorRoom
  | answerRejected
  | state (room : Room)
  | stateOther
  | playSound (name : String)
  | roundStarted (idx : Int)
  | playerAnsweredLive (playerId : String) (name : JSStr)
  | answerResults (perPlayer : Dict PerPlayer)
  | scoresUpdated (players : List Player)
  | leaderboard (lb : List LeaderEntry)
  | questionShown (idx : Int) (question : Option Question) (timer : JSNum)
  | questionChanged (idx : Int) (question : Option Question) (timer : JSNum)
  | roundEnded
  | hostLeft
  deriving DecidableEq, Repr

/-- Where an event goes: `socket.emit` reaches the caller only,
`io.to(code).emit` reaches the sockets joined to the room code. -/
inductive Target where
  | caller (sid : String)
  | room (code : String)
  deriving DecidableEq, Repr

/-- One call of `emit`. -/
structure Emit where
  dest : Target
  event : Event
  deriving DecidableEq, Repr

/-- The mutable state of the process: the registry `rooms` and the callbacks
armed with `setTimeout` and not fired yet, each named by the room code its
closure holds. -/
structure State where
  rooms : Dict Room
  timers : List String
  deriving DecidableEq, Repr

/-- What a handler did: the state it left, the events it emitted in order,
whether it stopped with an uncaught `TypeError`, and whether it wrote to an
object that is not a room (see `inherited`): such a step leaves the registry as
it was, and what the process does after it is not described by a `State`. -/
structure Step where
  state : State
  emits : List Emit
  fault : Bool
  escaped : Bool := false
  deriving DecidableEq, Repr

/-- The state of a process that has just started. -/
def State.init : State := { rooms := [], timers := [] }

/-- A handler that returns without doing anything. -/
def Step.skip (s : State) : Step := { state := s, emits := [], fault := false }

/-- The room stored under `code` that the guard `if(!code || !rooms[code])` of
the handlers lets through: `code` is not empty and is a key of the registry. -/
def lookupRoom (s : State) (code : String) : Option Room :=
  if code = "" then none else s.rooms.get code

/-- The names of the members that the plain object `rooms` inherits from
`Object.prototype`: for each of them `rooms[name]` is a function, or
`Object.prototype` itself for `__proto__`, and so is truthy. -/
def inheritedNames : List String :=
  ["constructor", "__defineGetter__", "__defineSetter__", "hasOwnProperty",
   "__lookupGetter__", "__lookupSetter__", "isPrototypeOf", "propertyIsEnumerable",
   "toString", "valueOf", "__proto__", "toLocaleString"]

/-- Whether `rooms[code]` is an inherited member: the guard
`if(!code || !rooms[code])` lets such a code through although no room is stored
under it.  The object found has none of the fields of a room: its `hostId`,
`players`, `roundActive` and `currentQuestionIndex` read as `undefined`, as
long as no handler has written to it; `hostJoin` is the one handler that
writes to such an object, and its step is marked `escaped`. -/
def inherited (s : State) (code : String) : Bool :=
  (s.rooms.get code).isNone && decide (code ∈ inheritedNames)

/-- The snapshot `Object.values(room.players).map(p => ({name, score, avatar}))`. -/
def leaderboardOf (room : Room) : List LeaderEntry :=
  room.players.values.map
    (fun p => { name := p.name, score := p.score, avatar := orNull p.avatar })

/-! ## Room registry -/

/-- The alphabet of `makeCode`. -/
def letters : List Char := "ABCDEFGHJKMNPQRSTUVWXYZ".data

/-- The character `letters.charAt(k)` for a draw `k = Math.floor(Math.random()*23)`;
a draw is below 23, so the default is never taken. -/
def letterAt (k : Fin 23) : Char := letters.getD k.val 'A'

/-- The characters of `makeCode(len)`, taking one draw per character, and the
draws left over; `none` when the draws run out. -/
def makeCodeChars : Nat → List (Fin 23) → Option (List Char × List (Fin 23))
  | 0, ds => some ([], ds)
  | _ + 1, [] => none
  | n + 1, d :: ds =>
    match makeCodeChars n ds with
    | none => none
    | some (cs, rest) => some (letterAt d :: cs, rest)

/-- The function `makeCode(len)`. -/
def makeCode (len : Nat) (draws : List (Fin 23)) : Option (String × List (Fin 23)) :=
  match makeCodeChars len draws with
  | none => none
  | some (cs, rest) => some (String.mk cs, rest)

/-- The loop `do { code = makeCode(4); } while(rooms[code])`, with one unit of
fuel per round; `none` when the loop has not ended within the given draws. -/
def freshCode (rooms : Dict Room) : Nat → List (Fin 23) → Option (String × List (Fin 23))
  | 0, _ => none
  | fuel + 1, draws =>
    match makeCode 4 draws with
    | none => none
    | some (code, rest) =>
      if (rooms.get code).isSome then freshCode rooms fuel rest else some (code, rest)

/-- The room literal of `createRoom`. -/
def Room.fresh : Room :=
  { hostId := none, players := [], currentQuestionIndex := -1, roundActive := false,
    answers := [], autoLeaderboard := false, autoQuestionTimer := 5 }

/-- The function `createRoom`: the code it returns, the registry it leaves and
the draws left over; `none` when it does not return within the given draws.
Every round of the loop takes four draws, so `draws.length` rounds of fuel
never run out before the draws do. -/
def createRoom (rooms : Dict Room) (draws : List (Fin 23)) :
    Option (String × Dict Room × List (Fin 23)) :=
  match freshCode rooms draws.length draws with
  | none => none
  | some (code, rest) => some (code, rooms.set code Room.fresh, rest)

/-- The function `evaluateAnswers(roomCode)` on the registry. -/
def evaluateAnswers (qs : Catalog) (s : State) (roomCode : String) : State × Dict PerPlayer :=
  match s.rooms.get roomCode with
  | none => (s, [])
  | some room =>
    let r := evaluateRoom qs room
    ({ s with rooms := s.rooms.set roomCode r.1 }, r.2)

/-! ## Socket handlers

Every handler takes the catalog where it reads it, the caller's `socket.id`,
the fields of its payload and the state. -/

/-- The handler of `createRoom`, with the draws left over; `none` when
`createRoom` does not return within the given draws. -/
def onCreateRoom (sid : String) (draws : List (Fin 23)) (s : State) :
    Option (Step × List (Fin 23)) :=
  match createRoom s.rooms draws with
  | none => none
  | some (code, rooms, rest) =>
    let room : Room := { Room.fresh with hostId := some sid }
    some ({ state := { s with rooms := rooms.set code room },
            emits := [⟨.caller sid, .roomCreated code⟩, ⟨.room code, .state room⟩],
            fault := false }, rest)

/-- The handler of `hostJoin`.  On an inherited member it writes `hostId` to
that object and emits it as the `state`. -/
def hostJoin (sid code : String) (s : State) : Step :=
  match lookupRoom s code with
  | none =>
    if inherited s code then
      { state := s, emits := [⟨.caller sid, .hostAccepted code⟩, ⟨.room code, .stateOther⟩],
        fault := false, escaped := true }
    else { state := s, emits := [⟨.caller sid, .errorRoom⟩], fault := false }
  | some room =>
    let room1 : Room := { room with hostId := some sid }
    { state := { s with rooms := s.rooms.set code room1 },
      emits := [⟨.caller sid, .hostAccepted code⟩, ⟨.room code, .state room1⟩],
      fault := false }

/-- The expression `String(name||'Player').slice(0,40)`: the first 40 code
units. -/
def playerName (name : JSVal) : JSStr :=
  (toJSString (if name.truthy then name else .str (utf16 "Player"))).take 40

/-- The handler of `playerJoin`.  On an inherited member the write
`rooms[code].players[socket.id] = ...` throws, since `players` is `undefined`. -/
def playerJoin (sid code : String) (name avatar : JSVal) (s : State) : Step :=
  match lookupRoom s code with
  | none =>
    if inherited s code then { state := s, emits := [], fault := true }
    else { state := s, emits := [⟨.caller sid, .joinRejected⟩], fault := false }
  | some room =>
    let p : Player := { id := sid, name := playerName name, avatar := orNull avatar, score := 0 }
    let room1 : Room := { room with players := room.players.set sid p }
    { state := { s with rooms := s.rooms.set code room1 },
      emits := [⟨.room code, .state room1⟩, ⟨.caller sid, .joinedAck sid code⟩,
                ⟨.room code, .playSound "join"⟩],
      fault := false }

/-- The function `scheduleQuestionFlow(code)` up to and including its call of
`setTimeout`: the events it emits and the timers it leaves.  The callback it
arms is `advance` below. -/
def scheduleQuestionFlow (qs : Catalog) (code : String) (s : State) : List Emit × List String :=
  match s.rooms.get code with
  | none => ([], s.timers)
  | some room =>
    if qs.length = 0 then ([], s.timers)
    else
      ([⟨.room code, .questionShown room.currentQuestionIndex
            (qs.at room.currentQuestionIndex) room.autoQuestionTimer⟩],
       s.timers ++ [code])

/-- The handler of `startQuiz`.  On an inherited member `hostId` is
`undefined`, which is not the caller, and the handler returns as it does for an
unknown code. -/
def startQuiz (qs : Catalog) (sid code : String) (s : State) : Step :=
  match lookupRoom s code with
  | none => Step.skip s
  | some room =>
    if room.hostId ≠ some sid then Step.skip s
    else
      let room1 : Room := { room with currentQuestionIndex := 0, roundActive := true, answers := [] }
      let s1 : State := { s with rooms := s.rooms.set code room1 }
      let sched := scheduleQuestionFlow qs code s1
      { state := { s1 with timers := sched.2 },
        emits := [⟨.room code, .roundStarted room1.currentQuestionIndex⟩,
                  ⟨.room code, .state room1⟩] ++ sched.1,
        fault := false }

/-- The handler of `submitAnswer`.  The read `room.players[socket.id].name`
throws when the caller has no entry in `room.players`: the answer is recorded
by then and nothing is emitted.  On an inherited member `roundActive` is
`undefined` and the answer is rejected. -/
def submitAnswer (sid code : String) (answer : JSVal) (s : State) : Step :=
  match lookupRoom s code with
  | none =>
    if inherited s code then
      { state := s, emits := [⟨.caller sid, .answerRejected⟩], fault := false }
    else Step.skip s
  | some room =>
    if !room.roundActive then
      { state := s, emits := [⟨.caller sid, .answerRejected⟩], fault := false }
    else
      let room1 : Room := { room with answers := room.answers.set sid answer }
      let s1 : State := { s with rooms := s.rooms.set code room1 }
      match room1.players.get sid with
      | none => { state := s1, emits := [], fault := true }
      | some p =>
        { state := s1, emits := [⟨.room code, .playerAnsweredLive sid p.name⟩], fault := false }

/-- The events `answerResults`, `scoresUpdated` and the optional `leaderboard`
that both advance paths emit right after `evaluateAnswers`. -/
def resultEmits (code : String) (room : Room) (per : Dict PerPlayer) : List Emit :=
  [⟨.room code, .answerResults per⟩, ⟨.room code, .scoresUpdated room.players.values⟩] ++
  (if room.autoLeaderboard then [⟨.room code, .leaderboard (leaderboardOf room)⟩] else [])

/-- The handler of `nextQuestion`.  `evaluateAnswers(code)` works on the very
room the handler holds, so it is applied to that room.  On an inherited member
`evaluateAnswers` finds no question and returns the empty object, which is
emitted, and `Object.values(room.players)` throws. -/
def nextQuestion (qs : Catalog) (_sid code : String) (s : State) : Step :=
  match lookupRoom s code with
  | none =>
    if inherited s code then
      { state := s, emits := [⟨.room code, .answerResults []⟩], fault := true }
    else Step.skip s
  | some room =>
    let ev := evaluateRoom qs room
    let room1 := ev.1
    let out := resultEmits code room1 ev.2
    if room1.currentQuestionIndex < (qs.length : Int) - 1 then
      let room2 : Room :=
        { room1 with currentQuestionIndex := room1.currentQuestionIndex + 1, answers := [] }
      { state := { s with rooms := s.rooms.set code room2 },
        emits := out ++
          [⟨.room code, .questionChanged room2.currentQuestionIndex
              (qs.at room2.currentQuestionIndex) room2.autoQuestionTimer⟩,
           ⟨.room code, .state room2⟩],
        fault := false }
    else
      let room2 : Room := { room1 with roundActive := false }
      { state := { s with rooms := s.rooms.set code room2 },
        emits := out ++ [⟨.room code, .roundEnded⟩, ⟨.room code, .state room2⟩],
        fault := false }

/-- The handler of `showLeaderboard`.  On an inherited member
`Object.values(room.players)` throws. -/
def showLeaderboard (_sid code : String) (s : State) : Step :=
  match lookupRoom s code with
  | none =>
    if inherited s code then { state := s, emits := [], fault := true }
    else Step.skip s
  | some room =>
    { state := s, emits := [⟨.room code, .leaderboard (leaderboardOf room)⟩], fault := false }

/-- The two assignments of `hostSetPrefs`:
`if(timer && Number(timer)>0) room.autoQuestionTimer = Number(timer)` and
`if(typeof autoLeaderboard === 'boolean') room.autoLeaderboard = autoLeaderboard`. -/
def applyPrefs (timer autoLeaderboard : JSVal) (room : Room) : Room :=
  let room1 : Room :=
    if timer.truthy && (Number timer).isPos then { room with autoQuestionTimer := Number timer }
    else room
  match autoLeaderboard with
  | .bool b => { room1 with autoLeaderboard := b }
  | _ => room1

/-- The handler of `hostSetPrefs`.  On an inherited member `hostId` is
`undefined`, which is not the caller, and the handler returns. -/
def hostSetPrefs (sid code : String) (timer autoLeaderboard : JSVal) (s : State) : Step :=
  match lookupRoom s code with
  | none => Step.skip s
  | some room =>
    if room.hostId ≠ some sid then Step.skip s
    else
      let room2 := applyPrefs timer autoLeaderboard room
      { state := { s with rooms := s.rooms.set code room2 },
        emits := [⟨.room code, .state room2⟩], fault := false }

/-- One round of the loop `for(const code in rooms)` of the `disconnect`
handler: the room it leaves and the events it emits. -/
def disconnectRoom (sid code : String) (room : Room) : Room × List Emit :=
  let r1 : Room × List Emit :=
    if (room.players.get sid).isSome then
      let room1 : Room := { room with players := room.players.del sid }
      (room1, [⟨.room code, .state room1⟩])
    else (room, [])
  let r2 : Room × List Emit :=
    if r1.1.hostId = some sid then ({ r1.1 with hostId := none }, [⟨.room code, .hostLeft⟩])
    else (r1.1, [])
  (r2.1, r1.2 ++ r2.2)

/-- The handler of `disconnect`. -/
def disconnect (sid : String) (s : State) : Step :=
  { state := { s with rooms := s.rooms.map (fun e => (e.1, (disconnectRoom sid e.1 e.2).1)) },
    emits := (s.rooms.map (fun e => (disconnectRoom sid e.1 e.2).2)).flatten,
    fault := false }

/-- The callback `advance` that `scheduleQuestionFlow(code)` arms, run on the
room its closure holds, which is the room stored under `code`: rooms are never
removed or replaced.  When a question follows, the callback arms itself again. -/
def advance (qs : Catalog) (code : String) (s : State) : Step :=
  match s.rooms.get code with
  | none => Step.skip s
  | some room =>
    let ev := evaluateRoom qs room
    let room1 := ev.1
    let out := resultEmits code room1 ev.2
    if room1.currentQuestionIndex < (qs.length : Int) - 1 then
      let room2 : Room :=
        { room1 with currentQuestionIndex := room1.currentQuestionIndex + 1, answers := [] }
      { state := { rooms := s.rooms.set code room2, timers := s.timers ++ [code] },
        emits := out ++
          [⟨.room code, .questionChanged room2.currentQuestionIndex
              (qs.at room2.currentQuestionIndex) room2.autoQuestionTimer⟩,
           ⟨.room code, .state room2⟩],
        fault := false }
    else
      let room2 : Room := { room1 with roundActive := false }
      { state := { s with rooms := s.rooms.set code room2 },
        emits := out ++ [⟨.room code, .roundEnded⟩, ⟨.room code, .state room2⟩,
                         ⟨.room code, .state room2⟩],
        fault := false }

/-- The firing of a pending timer of room `code`: the timer leaves the pending
ones and its callback runs; `none` when no timer of that room is pending. -/
def timerFire (qs : Catalog) (code : String) (s : State) : Option Step :=
  if code ∈ s.timers then
    some (advance qs code { s with timers := s.timers.erase code })
  else none

/-! ## The process as a transition system -/

/-- An inbound action with the identity of its caller, or the firing of a
pending timer. -/
inductive Action where
  | createRoom (sid : String) (draws : List (Fin 23))
  | hostJoin (sid code : String)
  | playerJoin (sid code : String) (name avatar : JSVal)
  | startQuiz (sid code : String)
  | submitAnswer (sid code : String) (answer : JSVal)
  | nextQuestion (sid code : String)
  | showLeaderboard (sid code : String)
  | hostSetPrefs (sid code : String) (timer autoLeaderboard : JSVal)
  | disconnect (sid : String)
  | timer (code : String)
  deriving DecidableEq, Repr

/-- The step an action takes from a state; `none` when the action cannot take
place there (`createRoom` that does not return within its draws, a timer that
is not pending). -/
def perform (qs : Catalog) : Action → State → Option Step
  | .createRoom sid draws, s => (onCreateRoom sid draws s).map Prod.fst
  | .hostJoin sid code, s => some (hostJoin sid code s)
  | .playerJoin sid code name avatar, s => some (playerJoin sid code name avatar s)
  | .startQuiz sid code, s => some (startQuiz qs sid code s)
  | .submitAnswer sid code answer, s => some (submitAnswer sid code answer s)
  | .nextQuestion sid code, s => some (nextQuestion qs sid code s)
  | .showLeaderboard sid code, s => some (showLeaderboard sid code s)
  | .hostSetPrefs sid code timer autoLb, s => some (hostSetPrefs sid code timer autoLb s)
  | .disconnect sid, s => some (disconnect sid s)
  | .timer code, s => timerFire qs code s

/-- The states the process can be in: the initial one and every state left by
an action or a timer firing.  The state left by a handler that threw is kept,
which covers a process that survives the exception.  A step that is marked
`escaped` is not followed: it leaves the registry as it was, and the process
after it is no longer described by a `State`. -/
inductive Reachable (qs : Catalog) : State → Prop where
  | init : Reachable qs State.init
  | step {s : State} {a : Action} {st : Step} :
      Reachable qs s → perform qs a s = some st → st.escaped = false → Reachable qs st.state

/-- The state after a list of actions, skipping those that cannot take place;
the run ends before a step that is marked `escaped`. -/
def run (qs : Catalog) : List Action → State → State
  | [], s => s
  | a :: rest, s =>
    match perform qs a s with
    | none => run qs rest s
    | some st => if st.escaped then s else run qs rest st.state

/-! ## Notions used by the statements, and sample data -/

/-- What one evaluated answer does to the player who gave it. -/
def scored (q : Question) (a : JSVal) (p : Player) : Player :=
  if (Number a).strictEq (Number q.correct) then
    { p with score := (scoreOrZero p.score).add (pointsOf q) }
  else p

/-- A catalog whose only question is worth 0 points. -/
def zeroPointCatalog : Catalog := [{ correct := .num (.fin 1), points := .num (.fin 0) }]

/-- A room on question 0 in which player `A` has answered 1. -/
def oneAnswerRoom : Room :=
  { Room.fresh with
    players := [("A", { id := "A", name := utf16 "Amy", avatar := .null, score := 0 })],
    currentQuestionIndex := 0, roundActive := true,
    answers := [("A", .num (.fin 1))] }

/-- A catalog of two questions worth 100 and 200 points, with correct indices
1 and 0. -/
def demoCatalog : Catalog :=
  [{ correct := .num (.fin 1), points := .num (.fin 100) },
   { correct := .num (.fin 0), points := .num (.fin 200) }]

/-- A process with one room `ABCD`, hosted by `H`, in which player `A` has
answered question 0 and the timer armed by `startQuiz` is pending. -/
def demoState : State :=
  { rooms := [("ABCD", { oneAnswerRoom with hostId := some "H" })], timers := ["ABCD"] }

/-- The room both advance paths leave: the room after `evaluateAnswers`, moved
to the next question when there is one and marked ended otherwise. -/
def advanced (qs : Catalog) (room : Room) : Room :=
  let room1 := (evaluateRoom qs room).1
  if room1.currentQuestionIndex < (qs.length : Int) - 1 then
    { room1 with currentQuestionIndex := room1.currentQuestionIndex + 1, answers := [] }
  else { room1 with roundActive := false }

/-- The catalog `demoCatalog` followed by a third question. -/
def threeCatalog : Catalog :=
  demoCatalog ++ [{ correct := .num (.fin 2), points := .undefined }]

/-- How one step may move the index of the room stored under `code`: not at
all, to the next question when one is left, or to 0 by a `startQuiz` of the
host of that room. -/
def IndexMove (qs : Catalog) (a : Action) (code : String) (room room1 : Room) : Prop :=
  room1.currentQuestionIndex = room.currentQuestionIndex ∨
  (room1.currentQuestionIndex = room.currentQuestionIndex + 1 ∧
    room.currentQuestionIndex < (qs.length : Int) - 1) ∨
  (∃ sid, a = .startQuiz sid code ∧ room.hostId = some sid ∧ room1.currentQuestionIndex = 0)

/-- A session on `demoCatalog`: `H` creates the room (the four draws give the
code `AAAA`), `A` joins as Amy, `H` starts the quiz, `A` answers 1 and `H`
advances to question 1. -/
def quizTrace : List Action :=
  [.createRoom "H" [0, 0, 0, 0],
   .playerJoin "A" "AAAA" (.str (utf16 "Amy")) .undefined,
   .startQuiz "H" "AAAA",
   .submitAnswer "A" "AAAA" (.num (.fin 1)),
   .nextQuestion "H" "AAAA"]

/-- The room `AAAA` after `quizTrace`. -/
def quizRoom : Room :=
  { hostId := some "H",
    players := [("A", { id := "A", name := utf16 "Amy", avatar := .null, score := 100 })],
    currentQuestionIndex := 1, roundActive := true, answers := [],
    autoLeaderboard := false, autoQuestionTimer := 5 }

/-- A session on the empty catalog: `H` creates the room `AAAA`, `A` joins,
`H` starts the quiz and `A` submits an answer. -/
def emptyCatalogTrace : List Action :=
  [.createRoom "H" [0, 0, 0, 0],
   .playerJoin "A" "AAAA" (.str (utf16 "Amy")) .undefined,
   .startQuiz "H" "AAAA",
   .submitAnswer "A" "AAAA" (.num (.fin 1))]

/-- The state after `createRoom` by `H`, `playerJoin` by `A` named Amy and
`startQuiz` by `H`, on `demoCatalog`. -/
def scenarioStarted : State :=
  run demoCatalog
    [.createRoom "H" [0, 0, 0, 0],
     .playerJoin "A" "AAAA" (.str (utf16 "Amy")) .undefined,
     .startQuiz "H" "AAAA"] State.init

/-- The step of `nextQuestion` by `H` after `A` has submitted 1. -/
def scenarioFirstAdvance : Step :=
  nextQuestion demoCatalog "H" "AAAA"
    (submitAnswer "A" "AAAA" (.num (.fin 1)) scenarioStarted).state

/-- The state after `A` has then submitted 0. -/
def scenarioSecondAnswer : State :=
  (submitAnswer "A" "AAAA" (.num (.fin 0)) scenarioFirstAdvance.state).state

/-- A run of `n` consecutive calls of `createRoom`, each on the registry and
the draws left by the one before: the codes returned in order, the final
registry and the draws left over; `none` when one of the calls does not
return within the draws. -/
def createRooms : Nat → Dict Room → List (Fin 23) →
    Option (List String × Dict Room × List (Fin 23))
  | 0, rooms, draws => some ([], rooms, draws)
  | n + 1, rooms, draws =>
    match createRoom rooms draws with
    | none => none
    | some (code, rooms1, rest) =>
      match createRooms n rooms1 rest with
      | none => none
      | some (codes, rooms2, rest2) => some (code :: codes, rooms2, rest2)

/-- What one step may do to the room stored under `code`: nothing, or the
rewriting done by the handler of the action when the action is addressed to
that room (for `disconnect`, to every room). -/
inductive RoomStep (qs : Catalog) (a : Action) (code : String) (room : Room) : Room → Prop where
  | same : RoomStep qs a code room room
  | hostJoin (sid : String) : a = .hostJoin sid code →
      RoomStep qs a code room { room with hostId := some sid }
  | playerJoin (sid : String) (name avatar : JSVal) : a = .playerJoin sid code name avatar →
      RoomStep qs a code room
        { room with players := room.players.set sid ⟨sid, playerName name, orNull avatar, 0⟩ }
  | startQuiz (sid : String) : a = .startQuiz sid code → room.hostId = some sid →
      RoomStep qs a code room
        { room with currentQuestionIndex := 0, roundActive := true, answers := [] }
  | submitAnswer (sid : String) (answer : JSVal) : a = .submitAnswer sid code answer →
      room.roundActive = true →
      RoomStep qs a code room { room with answers := room.answers.set sid answer }
  | advance : (∃ sid, a = .nextQuestion sid code) ∨ a = .timer code →
      RoomStep qs a code room (advanced qs room)
  | prefs (sid : String) (timer autoLb : JSVal) : a = .hostSetPrefs sid code timer autoLb →
      room.hostId = some sid → RoomStep qs a code room (applyPrefs timer autoLb room)
  | disconnect (sid : String) : a = .disconnect sid →
      RoomStep qs a code room (disconnectRoom sid code room).1

/-- The state after `createRoom` by `H` and `playerJoin` by `A` named Amy: the
room `AAAA` is in the lobby. -/
def lobbyState : State :=
  run demoCatalog
    [.createRoom "H" [0, 0, 0, 0],
     .playerJoin "A" "AAAA" (.str (utf16 "Amy")) .undefined] State.init

/-- The room `AAAA` of `lobbyState`. -/
def lobbyRoom : Room :=
  { hostId := some "H",
    players := [("A", { id := "A", name := utf16 "Amy", avatar := .null, score := 0 })],
    currentQuestionIndex := -1, roundActive := false, answers := [],
    autoLeaderboard := false, autoQuestionTimer := 5 }

/-- Whether an event is a `state` snapshot. -/
def Event.isState : Event → Bool
  | .state _ => true
  | .stateOther => true
  | _ => false

/-- The emitted events other than the `state` snapshots, in order. -/
def withoutState (es : List Emit) : List Emit :=
  es.filter (fun e => !e.event.isState)

/-- A catalog whose only question takes 50 points away. -/
def penaltyCatalog : Catalog := [{ correct := .num (.fin 1), points := .num (.fin (-50)) }]

/-- The room code an action is addressed to: the `code` of the payload of a
room-scoped handler, or the room of a timer; `createRoom` and `disconnect`
carry none. -/
def Action.roomCode : Action → Option String
  | .createRoom _ _ => none
  | .hostJoin _ code => some code
  | .playerJoin _ code _ _ => some code
  | .startQuiz _ code => some code
  | .submitAnswer _ code _ => some code
  | .nextQuestion _ code => some code
  | .showLeaderboard _ code => some code
  | .hostSetPrefs _ code _ _ => some code
  | .disconnect _ => none
  | .timer code => some code

/-- A process with two rooms: `AAAA`, created by `H`, joined by `A`, started,
with one answer recorded; and `BBBB`, created by `G` and still in the lobby. -/
def twoRoomState : State :=
  run demoCatalog
    [.createRoom "H" [0, 0, 0, 0],
     .createRoom "G" [1, 1, 1, 1],
     .playerJoin "A" "AAAA" (.str (utf16 "Amy")) .undefined,
     .startQuiz "H" "AAAA",
     .submitAnswer "A" "AAAA" (.num (.fin 1))] State.init

/-! ## Lemmas on numbers -/

theorem log2Loop_spec (fuel n : Nat) (h0 : 0 < n) (hf : n ≤ fuel) :
    2 ^ log2Loop fuel n ≤ n ∧ n < 2 ^ (log2Loop fuel n + 1) := by
  induction fuel generalizing n with
  | zero => omega
  | succ f ih =>
    unfold log2Loop
    split
    · simp; omega
    · have h := ih (n / 2) (by omega) (by omega)
      rw [pow_succ, pow_succ]
      rw [pow_succ] at h
      omega

theorem ilog2_spec (n : Nat) (h0 : 0 < n) :
    2 ^ ilog2 n ≤ n ∧ n < 2 ^ (ilog2 n + 1) :=
  log2Loop_spec n n h0 (le_refl n)

theorem two_zpow_pos (e : ℤ) : (0 : ℚ) < 2 ^ e := zpow_pos (by norm_num) e

theorem two_zpow_le {a b : ℤ} (h : a ≤ b) : (2 : ℚ) ^ a ≤ 2 ^ b :=
  zpow_le_zpow_right₀ (by norm_num) h

theorem two_zpow_lt_iff {a b : ℤ} : (2 : ℚ) ^ a < 2 ^ b ↔ a < b :=
  zpow_lt_zpow_iff_right₀ (by norm_num)

theorem floorLog2_spec (x : ℚ) (hx : 0 < x) :
    (2 : ℚ) ^ floorLog2 x ≤ x ∧ x < 2 ^ (floorLog2 x + 1) := by
  have hnum : 0 < x.num := Rat.num_pos.mpr hx
  have hn : 0 < x.num.natAbs := Int.natAbs_pos.mpr (ne_of_gt hnum)
  have hd : 0 < x.den := x.den_pos
  obtain ⟨hn1, hn2⟩ := ilog2_spec _ hn
  obtain ⟨hd1, hd2⟩ := ilog2_spec _ hd
  have hxq : (x.num.natAbs : ℚ) / (x.den : ℚ) = x := by
    have h1 := congrArg (Int.cast : ℤ → ℚ) (Int.natAbs_of_nonneg (le_of_lt hnum))
    rw [Int.cast_natCast] at h1
    rw [h1]; exact Rat.num_div_den x
  have hn1q : (2 : ℚ) ^ (ilog2 x.num.natAbs) ≤ (x.num.natAbs : ℚ) := by exact_mod_cast hn1
  have hn2q : (x.num.natAbs : ℚ) < (2 : ℚ) ^ (ilog2 x.num.natAbs + 1) := by exact_mod_cast hn2
  have hd1q : (2 : ℚ) ^ (ilog2 x.den) ≤ (x.den : ℚ) := by exact_mod_cast hd1
  have hd2q : (x.den : ℚ) < (2 : ℚ) ^ (ilog2 x.den + 1) := by exact_mod_cast hd2
  have hdq : (0 : ℚ) < (x.den : ℚ) := by exact_mod_cast hd
  have two_ne : (2 : ℚ) ≠ 0 := by norm_num
  have lower : (2 : ℚ) ^ ((ilog2 x.num.natAbs : ℤ) - (ilog2 x.den : ℤ) - 1)
      ≤ (x.num.natAbs : ℚ) / (x.den : ℚ) := by
    have e1 : (2 : ℚ) ^ ((ilog2 x.num.natAbs : ℤ) - (ilog2 x.den : ℤ) - 1)
        = (2 : ℚ) ^ (ilog2 x.num.natAbs) / (2 : ℚ) ^ (ilog2 x.den + 1) := by
      rw [show ((ilog2 x.num.natAbs : ℤ) - (ilog2 x.den : ℤ) - 1)
          = (ilog2 x.num.natAbs : ℤ) - ((ilog2 x.den + 1 : ℕ) : ℤ) by push_cast; ring]
      rw [zpow_sub₀ two_ne, zpow_natCast, zpow_natCast]
    rw [e1, div_le_div_iff₀ (by positivity) hdq]
    calc (2 : ℚ) ^ (ilog2 x.num.natAbs) * (x.den : ℚ)
        ≤ (x.num.natAbs : ℚ) * (x.den : ℚ) := by
          exact mul_le_mul_of_nonneg_right hn1q (le_of_lt hdq)
      _ ≤ (x.num.natAbs : ℚ) * (2 : ℚ) ^ (ilog2 x.den + 1) := by
          exact mul_le_mul_of_nonneg_left (le_of_lt hd2q) (by positivity)
  have upper : (x.num.natAbs : ℚ) / (x.den : ℚ)
      < (2 : ℚ) ^ ((ilog2 x.num.natAbs : ℤ) - (ilog2 x.den : ℤ) + 1) := by
    have e1 : (2 : ℚ) ^ ((ilog2 x.num.natAbs : ℤ) - (ilog2 x.den : ℤ) + 1)
        = (2 : ℚ) ^ (ilog2 x.num.natAbs + 1) / (2 : ℚ) ^ (ilog2 x.den) := by
      rw [show ((ilog2 x.num.natAbs : ℤ) - (ilog2 x.den : ℤ) + 1)
          = ((ilog2 x.num.natAbs + 1 : ℕ) : ℤ) - ((ilog2 x.den : ℕ) : ℤ) by push_cast; ring]
      rw [zpow_sub₀ two_ne, zpow_natCast, zpow_natCast]
    rw [e1]
    rw [div_lt_div_iff₀ hdq (by positivity)]
    calc (x.num.natAbs : ℚ) * (2 : ℚ) ^ (ilog2 x.den)
        ≤ (x.num.natAbs : ℚ) * (x.den : ℚ) := by
          exact mul_le_mul_of_nonneg_left hd1q (by positivity)
      _ < (2 : ℚ) ^ (ilog2 x.num.natAbs + 1) * (x.den : ℚ) := by
          exact mul_lt_mul_of_pos_right hn2q hdq
  rw [hxq] at lower upper
  unfold floorLog2
  simp only
  split
  · rename_i h
    exact ⟨h, upper⟩
  · rename_i h
    refine ⟨lower, ?_⟩
    rw [sub_add_cancel]
    exact lt_of_not_le h

theorem floorLog2_unique (x : ℚ) (hx : 0 < x) (e : ℤ) (h1 : (2 : ℚ) ^ e ≤ x)
    (h2 : x < 2 ^ (e + 1)) : floorLog2 x = e := by
  obtain ⟨s1, s2⟩ := floorLog2_spec x hx
  have a : floorLog2 x < e + 1 := two_zpow_lt_iff.mp (lt_of_le_of_lt s1 h2)
  have b : e < floorLog2 x + 1 := two_zpow_lt_iff.mp (lt_of_le_of_lt h1 s2)
  omega

theorem floorLog2_mono (d x : ℚ) (hd : 0 < d) (h : d ≤ x) : floorLog2 d ≤ floorLog2 x := by
  obtain ⟨s1, _⟩ := floorLog2_spec d hd
  obtain ⟨_, t2⟩ := floorLog2_spec x (lt_of_lt_of_le hd h)
  have a : floorLog2 d < floorLog2 x + 1 :=
    two_zpow_lt_iff.mp (lt_of_le_of_lt (le_trans s1 h) t2)
  omega

theorem roundHalfEven_ge (t : ℚ) (k : ℕ) (h : (k : ℚ) ≤ t) : k ≤ roundHalfEven t := by
  have h1 : k ≤ ⌊t⌋₊ := Nat.le_floor h
  unfold roundHalfEven
  split <;> omega

theorem roundHalfEven_le (t : ℚ) (ht : 0 ≤ t) (k : ℕ) (h : t ≤ (k : ℚ)) :
    roundHalfEven t ≤ k := by
  have hfl : (⌊t⌋₊ : ℚ) ≤ t := Nat.floor_le ht
  have h1 : ⌊t⌋₊ ≤ k := by exact_mod_cast le_trans hfl h
  unfold roundHalfEven
  split
  · rename_i hc
    have hlt : (⌊t⌋₊ : ℚ) < t := by
      rcases hc with hc | ⟨hc, _⟩ <;> linarith
    have : (⌊t⌋₊ : ℚ) < (k : ℚ) := lt_of_lt_of_le hlt h
    have : ⌊t⌋₊ < k := by exact_mod_cast this
    omega
  · exact h1

theorem roundHalfEven_natCast (k : ℕ) : roundHalfEven (k : ℚ) = k :=
  le_antisymm (roundHalfEven_le _ (by positivity) k (le_refl _))
    (roundHalfEven_ge _ k (le_refl _))

theorem ulpExp_ge (x : ℚ) : -1074 ≤ ulpExp x := le_max_right _ _

theorem ulpExp_ge_binade (x : ℚ) : floorLog2 x - 52 ≤ ulpExp x := le_max_left _ _

theorem natCast_lt_two_pow53 (m : ℕ) (h : m < 2 ^ 53) : (m : ℚ) < 2 ^ (53 : ℤ) := by
  have h1 : (m : ℚ) < ((2 ^ 53 : ℕ) : ℚ) := by exact_mod_cast h
  have h2 : ((2 ^ 53 : ℕ) : ℚ) = (2 : ℚ) ^ (53 : ℤ) := by norm_num
  rw [h2] at h1; exact h1

theorem two_pow52_cast : ((2 ^ 52 : ℕ) : ℚ) = (2 : ℚ) ^ (52 : ℤ) := by norm_num

theorem two_pow53_cast : ((2 ^ 53 : ℕ) : ℚ) = (2 : ℚ) ^ (53 : ℤ) := by norm_num

/-- A positive double is a whole number of units of the last place of its
binade. -/
theorem IsDouble.units {x : ℚ} (h : IsDouble x) (hx : 0 < x) :
    ∃ k : ℕ, x / 2 ^ ulpExp x = (k : ℚ) := by
  obtain ⟨m, g, hm, hg1, _, hxe⟩ := h
  rw [abs_of_pos hx] at hxe
  obtain ⟨s1, _⟩ := floorLog2_spec x hx
  have hmq : (m : ℚ) < 2 ^ (53 : ℤ) := natCast_lt_two_pow53 m hm
  have hlt : (2 : ℚ) ^ floorLog2 x < 2 ^ (53 + g) := by
    calc (2 : ℚ) ^ floorLog2 x ≤ x := s1
      _ = (m : ℚ) * 2 ^ g := hxe
      _ < 2 ^ (53 : ℤ) * 2 ^ g := mul_lt_mul_of_pos_right hmq (two_zpow_pos g)
      _ = 2 ^ (53 + g) := by rw [zpow_add₀ (by norm_num)]
  have he : floorLog2 x < 53 + g := two_zpow_lt_iff.mp hlt
  have hE : ulpExp x ≤ g := max_le (by omega) hg1
  refine ⟨m * 2 ^ (g - ulpExp x).toNat, ?_⟩
  have hpow : (2 : ℚ) ^ g = 2 ^ (g - ulpExp x).toNat * 2 ^ ulpExp x := by
    rw [← zpow_natCast, ← zpow_add₀ (by norm_num)]
    congr 1
    rw [Int.toNat_of_nonneg (by omega)]
    ring
  rw [div_eq_iff (ne_of_gt (two_zpow_pos _))]
  calc x = (m : ℚ) * 2 ^ g := hxe
    _ = (m : ℚ) * (2 ^ (g - ulpExp x).toNat * 2 ^ ulpExp x) := by rw [hpow]
    _ = ((m * 2 ^ (g - ulpExp x).toNat : ℕ) : ℚ) * 2 ^ ulpExp x := by push_cast; ring

theorem roundPos_of_units (x : ℚ) (k : ℕ) (h : x / 2 ^ ulpExp x = (k : ℚ))
    (hlt : x < 2 ^ (1024 : ℤ)) : roundPos x = .fin x := by
  have hx : (k : ℚ) * 2 ^ ulpExp x = x := by
    rw [← h]; field_simp
  unfold roundPos
  rw [h, roundHalfEven_natCast, hx, if_neg (not_le.mpr hlt)]

theorem IsDouble.lt_max {x : ℚ} (h : IsDouble x) : |x| < 2 ^ (1024 : ℤ) := by
  obtain ⟨m, g, hm, _, hg2, hxe⟩ := h
  have hmq : (m : ℚ) < 2 ^ (53 : ℤ) := natCast_lt_two_pow53 m hm
  calc |x| = (m : ℚ) * 2 ^ g := hxe
    _ < 2 ^ (53 : ℤ) * 2 ^ g := mul_lt_mul_of_pos_right hmq (two_zpow_pos g)
    _ = 2 ^ (53 + g) := by rw [zpow_add₀ (by norm_num)]
    _ ≤ 2 ^ (1024 : ℤ) := two_zpow_le (by omega)

/-- Rounding leaves a positive double as it is. -/
theorem roundPos_of_isDouble {x : ℚ} (h : IsDouble x) (hx : 0 < x) : roundPos x = .fin x := by
  obtain ⟨k, hk⟩ := h.units hx
  have := h.lt_max
  rw [abs_of_pos hx] at this
  exact roundPos_of_units x k hk this

theorem units_lt (x : ℚ) (hx : 0 < x) : x / 2 ^ ulpExp x < 2 ^ (53 : ℤ) := by
  obtain ⟨_, s2⟩ := floorLog2_spec x hx
  rw [div_lt_iff₀ (two_zpow_pos _), ← zpow_add₀ (by norm_num)]
  exact lt_of_lt_of_le s2 (two_zpow_le (by have := ulpExp_ge_binade x; omega))

theorem units_ge (x : ℚ) (hx : 0 < x) (h : ulpExp x = floorLog2 x - 52) :
    (2 : ℚ) ^ (52 : ℤ) ≤ x / 2 ^ ulpExp x := by
  obtain ⟨s1, _⟩ := floorLog2_spec x hx
  rw [le_div_iff₀ (two_zpow_pos _), ← zpow_add₀ (by norm_num), h]
  rw [show (52 : ℤ) + (floorLog2 x - 52) = floorLog2 x by ring]
  exact s1

/-- The finite results of rounding are doubles. -/
theorem roundPos_isDouble (x : ℚ) (hx : 0 < x) (v : ℚ) (h : roundPos x = .fin v) :
    IsDouble v := by
  unfold roundPos at h
  split at h
  · cases h
  · rename_i hov
    injection h with h
    have hov : (roundHalfEven (x / 2 ^ ulpExp x) : ℚ) * 2 ^ ulpExp x < 2 ^ (1024 : ℤ) :=
      not_le.mp hov
    have hxE : 0 ≤ x / 2 ^ ulpExp x := le_of_lt (div_pos hx (two_zpow_pos _))
    have hr : roundHalfEven (x / 2 ^ ulpExp x) ≤ 2 ^ 53 := by
      apply roundHalfEven_le _ hxE
      rw [two_pow53_cast]
      exact le_of_lt (units_lt x hx)
    have hv0 : 0 ≤ v := by rw [← h]; exact mul_nonneg (by positivity) (le_of_lt (two_zpow_pos _))
    rcases Nat.lt_or_eq_of_le hr with hr | hr
    · refine ⟨roundHalfEven (x / 2 ^ ulpExp x), ulpExp x, hr, ulpExp_ge x, ?_, ?_⟩
      · by_contra hc
        have hE : ulpExp x = floorLog2 x - 52 := by
          unfold ulpExp at hc ⊢
          rcases max_cases (floorLog2 x - 52) (-1074) with ⟨h1, _⟩ | ⟨h1, _⟩
          · exact h1
          · rw [h1] at hc; omega
        have h52 : 2 ^ 52 ≤ roundHalfEven (x / 2 ^ ulpExp x) := by
          apply roundHalfEven_ge
          rw [two_pow52_cast]
          exact units_ge x hx hE
        have h52q : (2 : ℚ) ^ (52 : ℤ) ≤ (roundHalfEven (x / 2 ^ ulpExp x) : ℚ) := by
          rw [← two_pow52_cast]; exact_mod_cast h52
        have : (2 : ℚ) ^ (1024 : ℤ) ≤ (roundHalfEven (x / 2 ^ ulpExp x) : ℚ) * 2 ^ ulpExp x := by
          calc (2 : ℚ) ^ (1024 : ℤ) = 2 ^ (52 : ℤ) * 2 ^ (972 : ℤ) := by
                rw [← zpow_add₀ (by norm_num)]; norm_num
            _ ≤ 2 ^ (52 : ℤ) * 2 ^ ulpExp x :=
                mul_le_mul_of_nonneg_left (two_zpow_le (by omega)) (le_of_lt (two_zpow_pos _))
            _ ≤ _ := mul_le_mul_of_nonneg_right h52q (le_of_lt (two_zpow_pos _))
        exact absurd hov (not_lt.mpr this)
      · rw [abs_of_nonneg hv0, h]
    · have hv : v = 2 ^ (53 + ulpExp x) := by
        rw [← h, hr, two_pow53_cast, zpow_add₀ (by norm_num)]
      have hlt : (53 : ℤ) + ulpExp x < 1024 := by
        apply two_zpow_lt_iff.mp
        rw [← hv, ← h]; exact hov
      refine ⟨2 ^ 52, ulpExp x + 1, by norm_num, by have := ulpExp_ge x; omega, by omega, ?_⟩
      rw [abs_of_nonneg hv0, hv, two_pow52_cast, ← zpow_add₀ (by norm_num)]
      congr 1
      ring

/-- Rounding never takes a value below a double that the value is not below. -/
theorem roundPos_ge (d x : ℚ) (hd : IsDouble d) (hd0 : 0 < d) (h : d ≤ x) :
    d ≤ (roundHalfEven (x / 2 ^ ulpExp x) : ℚ) * 2 ^ ulpExp x := by
  have hx : 0 < x := lt_of_lt_of_le hd0 h
  have hmono := floorLog2_mono d x hd0 h
  by_cases hE : ulpExp d = ulpExp x
  · obtain ⟨k, hk⟩ := hd.units hd0
    rw [hE] at hk
    have hkx : (k : ℚ) ≤ x / 2 ^ ulpExp x := by
      rw [← hk]; exact div_le_div_of_nonneg_right h (le_of_lt (two_zpow_pos _))
    have hkr : (k : ℚ) ≤ (roundHalfEven (x / 2 ^ ulpExp x) : ℚ) := by
      exact_mod_cast roundHalfEven_ge _ k hkx
    have hdk : d = (k : ℚ) * 2 ^ ulpExp x := by
      rw [← hk]; field_simp
    rw [hdk]
    exact mul_le_mul_of_nonneg_right hkr (le_of_lt (two_zpow_pos _))
  · have hlt : floorLog2 d < floorLog2 x := by
      rcases lt_or_eq_of_le hmono with h1 | h1
      · exact h1
      · exact absurd (by unfold ulpExp; rw [h1]) hE
    have hEx : ulpExp x = floorLog2 x - 52 := by
      unfold ulpExp at hE ⊢
      rcases max_cases (floorLog2 x - 52) (-1074) with ⟨h1, _⟩ | ⟨h1, h2⟩
      · exact h1
      · exfalso
        apply hE
        rw [h1]
        exact max_eq_right (by omega)
    obtain ⟨_, d2⟩ := floorLog2_spec d hd0
    have h52 : 2 ^ 52 ≤ roundHalfEven (x / 2 ^ ulpExp x) := by
      apply roundHalfEven_ge
      rw [two_pow52_cast]
      exact units_ge x hx hEx
    have h52q : (2 : ℚ) ^ (52 : ℤ) ≤ (roundHalfEven (x / 2 ^ ulpExp x) : ℚ) := by
      rw [← two_pow52_cast]; exact_mod_cast h52
    calc d ≤ 2 ^ (floorLog2 d + 1) := le_of_lt d2
      _ ≤ 2 ^ floorLog2 x := two_zpow_le (by omega)
      _ = 2 ^ (52 : ℤ) * 2 ^ ulpExp x := by
          rw [← zpow_add₀ (by norm_num), hEx]; congr 1; ring
      _ ≤ _ := mul_le_mul_of_nonneg_right h52q (le_of_lt (two_zpow_pos _))

theorem JSNum.ofNat_eq (n : ℕ) : (OfNat.ofNat n : JSNum) = .fin (n : ℚ) := rfl

theorem JSNum.zero_eq : (0 : JSNum) = .fin 0 := by
  rw [JSNum.ofNat_eq]; norm_num

theorem JSNum.hundred_eq : (100 : JSNum) = .fin 100 := by
  rw [JSNum.ofNat_eq]; norm_num

theorem JSNum.strictEq_iff (a b : JSNum) : a.strictEq b = true ↔ a = b ∧ a ≠ .nan := by
  cases a <;> cases b <;> simp [JSNum.strictEq]

theorem JSNum.isPos_iff (n : JSNum) :
    n.isPos = true ↔ (∃ q : ℚ, 0 < q ∧ n = .fin q) ∨ n = .inf false := by
  cases n <;> simp [JSNum.isPos]

theorem JSNum.zero_le_iff (n : JSNum) :
    JSNum.le 0 n = true ↔ (∃ q : ℚ, 0 ≤ q ∧ n = .fin q) ∨ n = .inf false := by
  rw [JSNum.zero_eq]
  cases n <;> simp [JSNum.le]

theorem JSNum.truthy_iff (n : JSNum) : n.truthy = true ↔ n ≠ .nan ∧ n ≠ .fin 0 := by
  cases n <;> simp [JSNum.truthy]

theorem isDouble_neg {x : ℚ} (h : IsDouble x) : IsDouble (-x) := by
  obtain ⟨m, g, h1, h2, h3, h4⟩ := h
  exact ⟨m, g, h1, h2, h3, by rw [abs_neg]; exact h4⟩

theorem isDouble_zero : IsDouble 0 := ⟨0, 0, by norm_num, by norm_num, by norm_num, by simp⟩

/-- Rounding leaves a double as it is. -/
theorem roundDouble_of_isDouble {x : ℚ} (h : IsDouble x) : roundDouble x = .fin x := by
  unfold roundDouble
  split
  · rename_i h0; rw [h0]
  · split
    · rename_i h0 h1
      rw [roundPos_of_isDouble (isDouble_neg h) (by linarith)]
      simp [JSNum.neg]
    · rename_i h0 h1
      exact roundPos_of_isDouble h (lt_of_le_of_ne (not_lt.mp h1) (Ne.symm h0))

/-- The whole numbers up to `2 ^ 53` in either sign are doubles. -/
theorem isDouble_intCast (z : ℤ) (h : |z| ≤ 2 ^ 53) : IsDouble (z : ℚ) := by
  have habs : |(z : ℚ)| = (z.natAbs : ℚ) := by
    rw [Nat.cast_natAbs, Int.cast_abs]
  have hn : z.natAbs ≤ 2 ^ 53 := by
    have : (z.natAbs : ℤ) ≤ 2 ^ 53 := by rw [← Int.abs_eq_natAbs]; exact h
    exact_mod_cast this
  rcases Nat.lt_or_eq_of_le hn with h1 | h1
  · exact ⟨z.natAbs, 0, h1, by norm_num, by norm_num, by rw [habs]; simp⟩
  · refine ⟨2 ^ 52, 1, by norm_num, by norm_num, by norm_num, ?_⟩
    rw [habs, h1]; norm_num

/-- The sum of two whole numbers is exact as long as it stays within
`2 ^ 53` in either sign. -/
theorem roundDouble_intCast (z : ℤ) (h : |z| ≤ 2 ^ 53) : roundDouble (z : ℚ) = .fin (z : ℚ) :=
  roundDouble_of_isDouble (isDouble_intCast z h)

theorem roundPos_isValue (x : ℚ) (hx : 0 < x) : (roundPos x).IsValue := by
  cases h : roundPos x with
  | nan => trivial
  | inf b => trivial
  | fin v => exact roundPos_isDouble x hx v h

theorem isValue_neg {n : JSNum} (h : n.IsValue) : n.neg.IsValue := by
  cases n with
  | nan => trivial
  | inf b => trivial
  | fin v => exact isDouble_neg h

/-- Every result of rounding is a number value. -/
theorem roundDouble_isValue (x : ℚ) : (roundDouble x).IsValue := by
  unfold roundDouble
  split
  · exact isDouble_zero
  · split
    · rename_i h0 h1
      exact isValue_neg (roundPos_isValue (-x) (by linarith))
    · rename_i h0 h1
      exact roundPos_isValue x (lt_of_le_of_ne (not_lt.mp h1) (Ne.symm h0))

theorem JSNum.add_isValue (a b : JSNum) : (a.add b).IsValue := by
  cases a <;> cases b <;> simp only [JSNum.add] <;> try trivial
  · exact roundDouble_isValue _
  · split <;> trivial

theorem roundPos_nonneg (x : ℚ) : JSNum.le 0 (roundPos x) = true := by
  rw [JSNum.zero_le_iff]
  unfold roundPos
  split
  · exact Or.inr rfl
  · exact Or.inl ⟨_, mul_nonneg (by positivity) (le_of_lt (two_zpow_pos _)), rfl⟩

/-- The sum of two numbers that are not below 0 is not below 0. -/
theorem JSNum.add_nonneg (a b : JSNum) (ha : JSNum.le 0 a = true) (hb : JSNum.le 0 b = true) :
    JSNum.le 0 (a.add b) = true := by
  rw [JSNum.zero_le_iff] at ha hb
  rcases ha with ⟨x, hx, rfl⟩ | rfl <;> rcases hb with ⟨y, hy, rfl⟩ | rfl
  · simp only [JSNum.add]
    unfold roundDouble
    split
    · rw [JSNum.zero_le_iff]; exact Or.inl ⟨0, le_refl _, rfl⟩
    · rw [if_neg (by linarith)]
      exact roundPos_nonneg _
  · rw [JSNum.zero_le_iff]; exact Or.inr rfl
  · rw [JSNum.zero_le_iff]; exact Or.inr rfl
  · rw [JSNum.zero_le_iff]; exact Or.inr (by simp [JSNum.add])

/-- Adding a number that is not below 0 to a number value that is not below 0
does not give less. -/
theorem JSNum.le_add (a b : JSNum) (hv : a.IsValue) (ha : JSNum.le 0 a = true)
    (hb : JSNum.le 0 b = true) : a.le (a.add b) = true := by
  rw [JSNum.zero_le_iff] at ha hb
  rcases ha with ⟨x, hx, rfl⟩ | rfl <;> rcases hb with ⟨y, hy, rfl⟩ | rfl
  · simp only [JSNum.add]
    unfold roundDouble
    split
    · rename_i h0
      have : x = 0 := by linarith
      simp [JSNum.le, this]
    · rename_i h0
      rw [if_neg (by linarith)]
      rcases eq_or_lt_of_le hx with hx0 | hx0
      · subst hx0
        have h := roundPos_nonneg (0 + y)
        rw [JSNum.zero_eq] at h
        exact h
      · have hge := roundPos_ge x (x + y) hv hx0 (by linarith)
        unfold roundPos
        split
        · rfl
        · simp only [JSNum.le]; exact decide_eq_true hge
  · rfl
  · rfl
  · simp [JSNum.add, JSNum.le]

theorem roundHalfEven_nearest (t : ℚ) (ht : 0 ≤ t) (k : ℕ) :
    |(roundHalfEven t : ℚ) - t| ≤ |(k : ℚ) - t| := by
  have h1 : (⌊t⌋₊ : ℚ) ≤ t := Nat.floor_le ht
  have h2 : t < (⌊t⌋₊ : ℚ) + 1 := Nat.lt_floor_add_one t
  have hk : (k : ℚ) ≤ (⌊t⌋₊ : ℚ) ∨ (⌊t⌋₊ : ℚ) + 1 ≤ (k : ℚ) := by
    rcases Nat.lt_or_ge ⌊t⌋₊ k with h | h
    · right; exact_mod_cast h
    · left; exact_mod_cast h
  have hlow : ∀ c : ℚ, c - t ≤ |(k : ℚ) - t| → t - c ≤ |(k : ℚ) - t| → |c - t| ≤ |(k : ℚ) - t| :=
    fun c a b => abs_le.mpr ⟨by linarith, a⟩
  unfold roundHalfEven
  split
  · rename_i hc
    have hhalf : (1 : ℚ) / 2 ≤ t - ⌊t⌋₊ := by
      rcases hc with hc | ⟨hc, _⟩ <;> linarith
    push_cast
    rcases hk with hk | hk
    · have : |(k : ℚ) - t| = t - k := by rw [abs_sub_comm]; exact abs_of_nonneg (by linarith)
      rw [this]
      exact abs_le.mpr ⟨by linarith, by linarith⟩
    · have : |(k : ℚ) - t| = k - t := abs_of_nonneg (by linarith)
      rw [this]
      exact abs_le.mpr ⟨by linarith, by linarith⟩
  · rename_i hc
    have hhalf : t - ⌊t⌋₊ ≤ (1 : ℚ) / 2 := by
      by_contra hlt
      exact hc (Or.inl (lt_of_not_le hlt))
    rcases hk with hk | hk
    · have : |(k : ℚ) - t| = t - k := by rw [abs_sub_comm]; exact abs_of_nonneg (by linarith)
      rw [this]
      exact abs_le.mpr ⟨by linarith, by linarith⟩
    · have : |(k : ℚ) - t| = k - t := abs_of_nonneg (by linarith)
      rw [this]
      exact abs_le.mpr ⟨by linarith, by linarith⟩

/-- The multiple of the unit of the last place that rounding picks is one
nearest to the value. -/
theorem roundPos_nearest_unit (x : ℚ) (hx : 0 < x) (k : ℕ) :
    |(roundHalfEven (x / 2 ^ ulpExp x) : ℚ) * 2 ^ ulpExp x - x|
      ≤ |(k : ℚ) * 2 ^ ulpExp x - x| := by
  have hE := two_zpow_pos (ulpExp x)
  have ht : 0 ≤ x / 2 ^ ulpExp x := le_of_lt (div_pos hx hE)
  have key : ∀ c : ℚ, |c * 2 ^ ulpExp x - x| = |c - x / 2 ^ ulpExp x| * 2 ^ ulpExp x := by
    intro c
    have : c * 2 ^ ulpExp x - x = (c - x / 2 ^ ulpExp x) * 2 ^ ulpExp x := by
      field_simp
    rw [this, abs_mul, abs_of_pos hE]
  rw [key, key]
  exact mul_le_mul_of_nonneg_right (roundHalfEven_nearest _ ht k) (le_of_lt hE)

/-- The finite result of rounding a positive value is a double nearest to it. -/
theorem roundPos_nearest (x : ℚ) (hx : 0 < x) (v : ℚ) (h : roundPos x = .fin v)
    (d : ℚ) (hd : IsDouble d) : |v - x| ≤ |d - x| := by
  have hv : v = (roundHalfEven (x / 2 ^ ulpExp x) : ℚ) * 2 ^ ulpExp x := by
    unfold roundPos at h
    split at h
    · cases h
    · injection h with h; exact h.symm
  rw [hv]
  have hE := two_zpow_pos (ulpExp x)
  rcases le_or_lt d 0 with hd0 | hd0
  · have h0 := roundPos_nearest_unit x hx 0
    simp only [Nat.cast_zero, zero_mul, zero_sub, abs_neg] at h0
    have : |x| ≤ |d - x| := by
      rw [abs_of_pos hx, abs_sub_comm, abs_of_nonneg (by linarith)]
      linarith
    exact le_trans h0 this
  · obtain ⟨k, hk⟩ := hd.units hd0
    have hdk : d = (k : ℚ) * 2 ^ ulpExp d := by rw [← hk]; field_simp
    rcases le_or_lt (ulpExp x) (ulpExp d) with hle | hlt
    · have hpow : (2 : ℚ) ^ ulpExp d = 2 ^ (ulpExp d - ulpExp x).toNat * 2 ^ ulpExp x := by
        rw [← zpow_natCast, ← zpow_add₀ (by norm_num)]
        congr 1
        rw [Int.toNat_of_nonneg (by omega)]
        ring
      have hgrid : d = ((k * 2 ^ (ulpExp d - ulpExp x).toNat : ℕ) : ℚ) * 2 ^ ulpExp x := by
        calc d = (k : ℚ) * 2 ^ ulpExp d := hdk
          _ = (k : ℚ) * (2 ^ (ulpExp d - ulpExp x).toNat * 2 ^ ulpExp x) := by rw [hpow]
          _ = _ := by push_cast; ring
      rw [hgrid]
      exact roundPos_nearest_unit x hx _
    · have hEx : ulpExp x = floorLog2 x - 52 := by
        have h1 := ulpExp_ge d
        unfold ulpExp at hlt ⊢
        rcases max_cases (floorLog2 x - 52) (-1074) with ⟨h2, _⟩ | ⟨h2, _⟩
        · exact h2
        · rw [h2] at hlt
          have := le_max_right (floorLog2 d - 52) (-1074)
          omega
      have hbin : floorLog2 d < floorLog2 x := by
        have h1 := ulpExp_ge_binade d
        omega
      obtain ⟨_, d2⟩ := floorLog2_spec d hd0
      obtain ⟨x1, _⟩ := floorLog2_spec x hx
      have hdlt : d ≤ 2 ^ floorLog2 x :=
        le_trans (le_of_lt d2) (two_zpow_le (by omega))
      have hgrid : (2 : ℚ) ^ floorLog2 x = ((2 ^ 52 : ℕ) : ℚ) * 2 ^ ulpExp x := by
        rw [two_pow52_cast, ← zpow_add₀ (by norm_num), hEx]
        congr 1
        ring
      have h52 := roundPos_nearest_unit x hx (2 ^ 52)
      rw [← hgrid] at h52
      have e1 : |(2 : ℚ) ^ floorLog2 x - x| = x - 2 ^ floorLog2 x := by
        rw [abs_sub_comm]; exact abs_of_nonneg (by linarith)
      have e2 : |d - x| = x - d := by
        rw [abs_sub_comm]; exact abs_of_nonneg (by linarith)
      rw [e1] at h52
      rw [e2]
      linarith

/-- The finite result of rounding is a double nearest to the value: no double
is closer. -/
theorem roundDouble_nearest (x v d : ℚ) (h : roundDouble x = .fin v) (hd : IsDouble d) :
    |v - x| ≤ |d - x| := by
  unfold roundDouble at h
  split at h
  · rename_i h0
    injection h with h
    rw [← h, h0]
    simp
  · split at h
    · rename_i h0 h1
      cases hr : roundPos (-x) with
      | nan => rw [hr] at h; cases h
      | inf b => rw [hr] at h; cases h
      | fin w =>
        rw [hr] at h
        simp only [JSNum.neg] at h
        injection h with h
        have := roundPos_nearest (-x) (by linarith) w hr (-d) (isDouble_neg hd)
        rw [← h]
        have e1 : |-w - x| = |w - -x| := by rw [← abs_neg]; congr 1; ring
        have e2 : |d - x| = |-d - -x| := by rw [← abs_neg]; congr 1; ring
        rw [e1, e2]
        exact this
    · rename_i h0 h1
      exact roundPos_nearest x (lt_of_le_of_ne (not_lt.mp h1) (Ne.symm h0)) v h d hd

/-- Sums in the arithmetic of doubles: a sum that is not a double is rounded
to the nearest one, a tie goes to the even significand, and a sum beyond the
largest double is `Infinity`. -/
theorem add_examples :
    (roundDouble (1 / 10)).add (roundDouble (2 / 10))
      = .fin (1351079888211149 / 4503599627370496) ∧
    (JSNum.fin 9007199254740992).add (.fin 3) = .fin 9007199254740996 ∧
    (JSNum.fin 100).add (.fin 200) = .fin 300 ∧
    (JSNum.fin (5 / 2)).add (.fin (-3)) = .fin (-1 / 2) ∧
    (roundDouble (10 ^ 308)).add (roundDouble (10 ^ 308)) = .inf false ∧
    (JSNum.inf false).add (.inf true) = .nan ∧
    (JSNum.inf false).add (.fin 1) = .inf false ∧
    JSNum.nan.add (.fin 1) = .nan := by
  decide!

/-! ## Lemmas on dictionaries -/

theorem Dict.get_set_self {α : Type} (d : Dict α) (k : String) (v : α) :
    (d.set k v).get k = some v := by
  induction d with
  | nil => simp [Dict.set, Dict.get]
  | cons e rest ih =>
    obtain ⟨k0, w⟩ := e
    by_cases h : k0 = k
    · simp [Dict.set, Dict.get, h]
    · simp [Dict.set, Dict.get, h, ih]

theorem Dict.get_set_other {α : Type} (d : Dict α) (k k1 : String) (v : α) (h : k1 ≠ k) :
    (d.set k v).get k1 = d.get k1 := by
  induction d with
  | nil => simp [Dict.set, Dict.get, Ne.symm h]
  | cons e rest ih =>
    obtain ⟨k0, w⟩ := e
    by_cases h0 : k0 = k
    · subst h0
      simp [Dict.set, Dict.get, Ne.symm h]
    · by_cases h1 : k0 = k1
      · subst h1
        simp [Dict.set, Dict.get, h0]
      · simp [Dict.set, Dict.get, h0, h1, ih]

theorem Dict.mem_of_get {α : Type} (d : Dict α) (k : String) (v : α) (h : d.get k = some v) :
    (k, v) ∈ d := by
  induction d with
  | nil => simp [Dict.get] at h
  | cons e rest ih =>
    obtain ⟨k0, w⟩ := e
    by_cases h0 : k0 = k
    · simp [Dict.get, h0] at h
      simp [h0, h]
    · simp [Dict.get, h0] at h
      exact List.mem_cons_of_mem _ (ih h)

theorem Dict.not_mem_keys_of_get {α : Type} (d : Dict α) (k : String) (h : d.get k = none) :
    k ∉ d.keys := by
  induction d with
  | nil => simp [Dict.keys]
  | cons e rest ih =>
    obtain ⟨k0, w⟩ := e
    by_cases h0 : k0 = k
    · simp [Dict.get, h0] at h
    · simp [Dict.get, h0] at h
      have := ih h
      simp [Dict.keys] at this ⊢
      exact ⟨Ne.symm h0, this⟩

theorem Dict.get_isSome_iff {α : Type} (d : Dict α) (k : String) :
    (d.get k).isSome = true ↔ k ∈ d.keys := by
  induction d with
  | nil => simp [Dict.get, Dict.keys]
  | cons e rest ih =>
    obtain ⟨k0, w⟩ := e
    by_cases h0 : k0 = k
    · simp [Dict.get, Dict.keys, h0]
    · simp [Dict.keys] at ih
      simp [Dict.get, Dict.keys, h0, ih, Ne.symm h0]

/-! ## Lemmas on `evaluateAnswers` -/

theorem evalLoop_get_of_not_mem (q : Question) (ans : List (String × JSVal)) :
    ∀ (players : Dict Player) (per : Dict PerPlayer) (sid : String),
      sid ∉ Dict.keys ans → (evalLoop q ans players per).1.get sid = players.get sid := by
  induction ans with
  | nil => intro players per sid _; rfl
  | cons e rest ih =>
    obtain ⟨k, raw⟩ := e
    intro players per sid hn
    have hk : sid ≠ k := by
      intro h; apply hn; simp [Dict.keys, h]
    have hr : sid ∉ Dict.keys rest := by
      intro h; apply hn; simp [Dict.keys] at h ⊢; exact Or.inr h
    unfold evalLoop
    cases hp : players.get k with
    | none => simp only []; exact ih _ _ _ hr
    | some p =>
      simp only []
      split
      · rw [ih _ _ _ hr, Dict.get_set_other _ _ _ _ hk]
      · exact ih _ _ _ hr

theorem evalLoop_get_of_mem (q : Question) (ans : List (String × JSVal)) :
    ∀ (players : Dict Player) (per : Dict PerPlayer) (sid : String) (a : JSVal),
      (Dict.keys ans).Nodup → (sid, a) ∈ ans →
      (evalLoop q ans players per).1.get sid = (players.get sid).map (scored q a) := by
  induction ans with
  | nil => intro players per sid a _ h; simp at h
  | cons e rest ih =>
    obtain ⟨k, raw⟩ := e
    intro players per sid a hnd hmem
    have hnd1 : k ∉ Dict.keys rest ∧ (Dict.keys rest).Nodup := by
      simpa [Dict.keys] using hnd
    rcases List.mem_cons.mp hmem with heq | hin
    · -- the entry of `sid` is the one visited now
      obtain ⟨rfl, rfl⟩ := Prod.mk.inj heq
      unfold evalLoop
      cases hp : players.get sid with
      | none => simp only []; rw [evalLoop_get_of_not_mem q rest _ _ _ hnd1.1, hp]; rfl
      | some p =>
        simp only []
        by_cases hg : (Number a).strictEq (Number q.correct) = true
        · simp only [hg, if_true]
          rw [evalLoop_get_of_not_mem q rest _ _ _ hnd1.1, Dict.get_set_self]
          simp [scored, hg]
        · simp only [hg]
          rw [if_neg (by simp), evalLoop_get_of_not_mem q rest _ _ _ hnd1.1, hp]
          simp [scored, hg]
    · have hk : sid ≠ k := by
        rintro rfl
        exact hnd1.1 (by simpa [Dict.keys] using ⟨a, hin⟩)
      unfold evalLoop
      cases hp : players.get k with
      | none => simp only []; exact ih _ _ _ _ hnd1.2 hin
      | some p =>
        simp only []
        split
        · rw [ih _ _ _ _ hnd1.2 hin, Dict.get_set_other _ _ _ _ hk]
        · exact ih _ _ _ _ hnd1.2 hin

/-! ## Scoring (C1) -/

theorem scoreOrZero_eq (score : JSNum) (h : score ≠ .nan) : scoreOrZero score = score := by
  unfold scoreOrZero
  cases score with
  | nan => exact absurd rfl h
  | inf b => rfl
  | fin v =>
    by_cases hv : v = 0
    · subst hv; simp [JSNum.truthy, JSNum.zero_eq]
    · simp [JSNum.truthy, hv]

theorem pointsOf_fin (q : Question) (v : ℚ) (h : Number q.points = .fin v) (hv : v ≠ 0) :
    pointsOf q = .fin v := by
  simp [pointsOf, h, JSNum.truthy, hv]

theorem pointsOf_inf (q : Question) (b : Bool) (h : Number q.points = .inf b) :
    pointsOf q = .inf b := by
  simp [pointsOf, h, JSNum.truthy]

theorem pointsOf_default (q : Question) (h : Number q.points = .fin 0 ∨ Number q.points = .nan) :
    pointsOf q = .fin 100 := by
  rcases h with h | h <;> simp [pointsOf, h, JSNum.truthy, JSNum.hundred_eq]

/-- A sum of two whole numbers beyond `2 ^ 53` is rounded: a score of `2 ^ 53`
stays as it is when 1 is added. -/
theorem score_rounding_example :
    (JSNum.fin 9007199254740992).add (.fin 1) = .fin 9007199254740992 := by
  decide!

/-- C1, as stated, fails: on a question whose points value is 0 a correct
answer raises the score by 100, not by the points value. -/
theorem C1_zero_points_counterexample :
    zeroPointCatalog.at oneAnswerRoom.currentQuestionIndex
        = some { correct := .num (.fin 1), points := .num (.fin 0) } ∧
    oneAnswerRoom.players.get "A" = some { id := "A", name := utf16 "Amy", avatar := .null, score := 0 } ∧
    oneAnswerRoom.answers.get "A" = some (.num (.fin 1)) ∧
    Number (.num (.fin 1)) = Number (.num (.fin 1)) ∧ Number (.num (.fin 1)) ≠ .nan ∧
    (evaluateRoom zeroPointCatalog oneAnswerRoom).1.players.get "A"
        = some { id := "A", name := utf16 "Amy", avatar := .null, score := 100 } := by
  decide!

/-- C1, amended: at a valid question index, `evaluateAnswers` sets the score of
a player whose recorded answer is numerically equal to the correct index (the
two coerce to the same number, which is not `NaN`) to the sum, in the
arithmetic of JavaScript numbers, of `score || 0` and `Number(points) || 100`.
The first is the score unless that is `NaN`; the second is `Number(points)`
when that is a non-zero number or an infinity, and 100 when points is unset,
zero or not a number.  For two finite values the sum is the double nearest to
the exact sum, and it is the exact sum for whole numbers as long as it stays
within `2 ^ 53`.  The score (and the whole entry) of a player whose recorded
answer is incorrect, or who has no recorded answer, is unchanged. -/
theorem C1_evaluate_score (qs : Catalog) (room : Room) (q : Question) (sid : String) (p : Player)
    (hq : qs.at room.currentQuestionIndex = some q)
    (hnd : (Dict.keys room.answers).Nodup)
    (hp : room.players.get sid = some p) :
    (∀ a, room.answers.get sid = some a → Number a = Number q.correct → Number a ≠ .nan →
      (evaluateRoom qs room).1.players.get sid
          = some { p with score := (scoreOrZero p.score).add (pointsOf q) } ∧
      (p.score ≠ .nan → scoreOrZero p.score = p.score) ∧
      (∀ v : ℚ, Number q.points = .fin v → v ≠ 0 → pointsOf q = .fin v) ∧
      (∀ b, Number q.points = .inf b → pointsOf q = .inf b) ∧
      (Number q.points = .fin 0 ∨ Number q.points = .nan → pointsOf q = .fin 100) ∧
      (q.points = .undefined → pointsOf q = .fin 100) ∧
      (∀ x y : ℚ, scoreOrZero p.score = .fin x → pointsOf q = .fin y →
        (evaluateRoom qs room).1.players.get sid
          = some { p with score := roundDouble (x + y) }) ∧
      (∀ m n : ℤ, p.score = .fin m → pointsOf q = .fin n → |m + n| ≤ 2 ^ 53 →
        (evaluateRoom qs room).1.players.get sid
          = some { p with score := .fin ((m + n : ℤ) : ℚ) })) ∧
    ((∀ a, room.answers.get sid = some a → ¬ (Number a = Number q.correct ∧ Number a ≠ .nan)) →
      (evaluateRoom qs room).1.players.get sid = some p) := by
  refine ⟨?_, ?_⟩
  · intro a ha he hn
    have hg : (Number a).strictEq (Number q.correct) = true :=
      (JSNum.strictEq_iff _ _).mpr ⟨he, hn⟩
    have hmem := Dict.mem_of_get _ _ _ ha
    have key : (evaluateRoom qs room).1.players.get sid
        = some { p with score := (scoreOrZero p.score).add (pointsOf q) } := by
      simp only [evaluateRoom, hq]
      rw [evalLoop_get_of_mem q _ _ _ _ _ hnd hmem, hp]
      simp [scored, hg]
    refine ⟨key, scoreOrZero_eq _, pointsOf_fin q, pointsOf_inf q, pointsOf_default q, ?_, ?_, ?_⟩
    · intro h
      exact pointsOf_default q (Or.inr (by rw [h]; rfl))
    · intro x y hx hy
      rw [key, hx, hy]; rfl
    · intro m n hm hn2 hb
      rw [key, scoreOrZero_eq _ (by rw [hm]; simp), hm, hn2]
      show some { p with score := roundDouble ((m : ℚ) + (n : ℚ)) } = _
      rw [← Int.cast_add, roundDouble_intCast _ hb]
  · intro hall
    cases ha : room.answers.get sid with
    | none =>
      simp only [evaluateRoom, hq]
      rw [evalLoop_get_of_not_mem q _ _ _ _ (Dict.not_mem_keys_of_get _ _ ha), hp]
    | some a =>
      have hg : (Number a).strictEq (Number q.correct) = false := by
        cases h : (Number a).strictEq (Number q.correct) with
        | false => rfl
        | true => exact absurd ((JSNum.strictEq_iff _ _).mp h) (hall a ha)
      simp only [evaluateRoom, hq]
      rw [evalLoop_get_of_mem q _ _ _ _ _ hnd (Dict.mem_of_get _ _ _ ha), hp]
      simp [scored, hg]

/-- C1 at a concrete room: `A` answered question 0 of `demoCatalog` correctly
and gains its 100 points. -/
theorem C1_evaluate_score_witness :
    demoCatalog.at oneAnswerRoom.currentQuestionIndex
        = some { correct := .num (.fin 1), points := .num (.fin 100) } ∧
    (Dict.keys oneAnswerRoom.answers).Nodup ∧
    oneAnswerRoom.players.get "A" = some { id := "A", name := utf16 "Amy", avatar := .null, score := 0 } ∧
    (evaluateRoom demoCatalog oneAnswerRoom).1.players.get "A"
        = some { id := "A", name := utf16 "Amy", avatar := .null, score := .fin ((0 + 100 : ℤ) : ℚ) } :=
  ⟨by decide!, by decide!, by decide!,
   ((C1_evaluate_score demoCatalog oneAnswerRoom
      { correct := .num (.fin 1), points := .num (.fin 100) } "A"
      { id := "A", name := utf16 "Amy", avatar := .null, score := 0 }
      (by decide!) (by decide!) (by decide!)).1 (.num (.fin 1)) (by decide!) (by decide!)
      (by decide!)).2.2.2.2.2.2.2 0 100 (by decide!) (by decide!) (by decide)⟩

/-! ## Host-only actions (C2) -/

/-- The handler of `startQuiz` returns at its guard for a caller that is not
the host of the room. -/
theorem startQuiz_not_host (qs : Catalog) (sid code : String) (s : State) (room : Room)
    (hr : lookupRoom s code = some room) (hh : room.hostId ≠ some sid) :
    startQuiz qs sid code s = Step.skip s := by
  simp [startQuiz, hr, hh]

/-- The handler of `hostSetPrefs` returns at its guard for a caller that is not
the host of the room. -/
theorem hostSetPrefs_not_host (sid code : String) (timer autoLb : JSVal) (s : State) (room : Room)
    (hr : lookupRoom s code = some room) (hh : room.hostId ≠ some sid) :
    hostSetPrefs sid code timer autoLb s = Step.skip s := by
  simp [hostSetPrefs, hr, hh]

/-- C2 fails for `nextQuestion`, which has no host guard: in `demoState` the
room `ABCD` is hosted by `H`, and `nextQuestion` issued by the player `A`
evaluates the answers and moves the room from question 0 to question 1. -/
theorem C2_nextQuestion_by_non_host :
    (demoState.rooms.get "ABCD").map Room.hostId = some (some "H") ∧
    (demoState.rooms.get "ABCD").map Room.currentQuestionIndex = some 0 ∧
    (demoState.rooms.get "ABCD").map Room.answers = some [("A", .num (.fin 1))] ∧
    (demoState.rooms.get "ABCD").map (fun r => r.players.values.map Player.score) = some [0] ∧
    ((nextQuestion demoCatalog "A" "ABCD" demoState).state.rooms.get "ABCD").map
        Room.currentQuestionIndex = some 1 ∧
    ((nextQuestion demoCatalog "A" "ABCD" demoState).state.rooms.get "ABCD").map
        Room.answers = some [] ∧
    ((nextQuestion demoCatalog "A" "ABCD" demoState).state.rooms.get "ABCD").map
        (fun r => r.players.values.map Player.score) = some [100] := by
  decide!

/-! ## A manual advance and a pending timer (C3) -/

theorem Dict.set_set {α : Type} (d : Dict α) (k : String) (v w : α) :
    (d.set k v).set k w = d.set k w := by
  induction d with
  | nil => simp [Dict.set]
  | cons e rest ih =>
    obtain ⟨k0, u⟩ := e
    by_cases h : k0 = k
    · simp [Dict.set, h]
    · simp [Dict.set, h, ih]

/-- With no recorded answer `evaluateAnswers` leaves the room as it is. -/
theorem evaluateRoom_no_answers (qs : Catalog) (room : Room) (h : room.answers = []) :
    evaluateRoom qs room = (room, []) := by
  unfold evaluateRoom
  cases hq : qs.at room.currentQuestionIndex with
  | none => rfl
  | some q =>
    simp only [h, evalLoop]
    cases room
    simp_all

theorem evaluateRoom_index (qs : Catalog) (room : Room) :
    (evaluateRoom qs room).1.currentQuestionIndex = room.currentQuestionIndex ∧
    (evaluateRoom qs room).1.roundActive = room.roundActive ∧
    (evaluateRoom qs room).1.hostId = room.hostId ∧
    (evaluateRoom qs room).1.autoLeaderboard = room.autoLeaderboard ∧
    (evaluateRoom qs room).1.autoQuestionTimer = room.autoQuestionTimer := by
  unfold evaluateRoom
  cases qs.at room.currentQuestionIndex <;> simp

theorem lookupRoom_some (s : State) (code : String) (room : Room)
    (h : lookupRoom s code = some room) : code ≠ "" ∧ s.rooms.get code = some room := by
  unfold lookupRoom at h
  by_cases hc : code = ""
  · simp [hc] at h
  · simp [hc] at h
    exact ⟨hc, h⟩

theorem nextQuestion_rooms (qs : Catalog) (sid code : String) (s : State) (room : Room)
    (hr : lookupRoom s code = some room) :
    (nextQuestion qs sid code s).state.rooms = s.rooms.set code (advanced qs room) ∧
    (nextQuestion qs sid code s).state.timers = s.timers ∧
    (nextQuestion qs sid code s).fault = false := by
  simp only [nextQuestion, hr, advanced]
  split <;> simp

/-- The handler of `nextQuestion` leaves the registry that the call
`evaluateAnswers(code)` leaves, with the room of `code` advanced. -/
theorem nextQuestion_via_evaluateAnswers (qs : Catalog) (sid code : String) (s : State)
    (room : Room) (hr : lookupRoom s code = some room) :
    (evaluateAnswers qs s code).1.rooms.get code = some (evaluateRoom qs room).1 ∧
    (evaluateAnswers qs s code).2 = (evaluateRoom qs room).2 ∧
    (nextQuestion qs sid code s).state.rooms
      = (evaluateAnswers qs s code).1.rooms.set code (advanced qs room) := by
  have hg := (lookupRoom_some s code room hr).2
  have he : evaluateAnswers qs s code
      = ({ s with rooms := s.rooms.set code (evaluateRoom qs room).1 },
         (evaluateRoom qs room).2) := by
    simp only [evaluateAnswers, hg]
  rw [he]
  refine ⟨Dict.get_set_self _ _ _, rfl, ?_⟩
  show _ = (s.rooms.set code (evaluateRoom qs room).1).set code (advanced qs room)
  rw [Dict.set_set]
  exact (nextQuestion_rooms qs sid code s room hr).1

theorem advance_rooms (qs : Catalog) (code : String) (s : State) (room : Room)
    (hr : s.rooms.get code = some room) :
    (advance qs code s).state.rooms = s.rooms.set code (advanced qs room) ∧
    (advance qs code s).fault = false := by
  simp only [advance, hr, advanced]
  split <;> simp

theorem lookupRoom_eq_get (s : State) (code : String) (hc : code ≠ "") :
    lookupRoom s code = s.rooms.get code := by
  simp [lookupRoom, hc]

theorem Catalog.at_isSome (qs : Catalog) (i : Int) (h0 : 0 ≤ i) (h1 : i < qs.length) :
    ∃ q, qs.at i = some q := by
  have hlt : i.toNat < qs.length := by omega
  refine ⟨qs.get ⟨i.toNat, hlt⟩, ?_⟩
  unfold Catalog.at
  rw [if_neg (by omega)]
  exact List.get?_eq_get hlt

theorem evaluateRoom_valid (qs : Catalog) (room : Room) (q : Question)
    (hq : qs.at room.currentQuestionIndex = some q) :
    (evaluateRoom qs room).1 =
      { room with players := (evaluateRoom qs room).1.players, answers := [] } := by
  simp [evaluateRoom, hq]

/-- Advancing twice from a valid question `i`: the second advance finds no
recorded answer, so the players are those left by one evaluation of question
`i`, while the index moves a second time when a question is left. -/
theorem advanced_twice (qs : Catalog) (room : Room)
    (h0 : 0 ≤ room.currentQuestionIndex) (h1 : room.currentQuestionIndex < qs.length)
    (ha : room.roundActive = true) :
    advanced qs (advanced qs room) =
      { room with
        players := (evaluateRoom qs room).1.players,
        answers := [],
        currentQuestionIndex := min (room.currentQuestionIndex + 2) ((qs.length : Int) - 1),
        roundActive := decide (room.currentQuestionIndex + 2 ≤ (qs.length : Int) - 1) } := by
  obtain ⟨q, hq⟩ := Catalog.at_isSome qs _ h0 h1
  have hv := evaluateRoom_valid qs room q hq
  have hi := evaluateRoom_index qs room
  by_cases hlt : room.currentQuestionIndex < (qs.length : Int) - 1
  · have e1 : advanced qs room =
        { room with players := (evaluateRoom qs room).1.players, answers := [],
                    currentQuestionIndex := room.currentQuestionIndex + 1 } := by
      unfold advanced
      simp only [hi.1, hlt, if_true]
      rw [hv]
    rw [e1]
    unfold advanced
    rw [evaluateRoom_no_answers qs _ rfl]
    by_cases hlt2 : room.currentQuestionIndex + 1 < (qs.length : Int) - 1
    · simp only [hlt2, if_true]
      have hm : min (room.currentQuestionIndex + 2) ((qs.length : Int) - 1)
          = room.currentQuestionIndex + 1 + 1 := by
        rw [min_eq_left (by omega)]; omega
      have hd : decide (room.currentQuestionIndex + 2 ≤ (qs.length : Int) - 1) = true := by
        simp; omega
      rw [hm, hd, ← ha]
    · simp only [hlt2, if_false]
      have hm : min (room.currentQuestionIndex + 2) ((qs.length : Int) - 1)
          = room.currentQuestionIndex + 1 := by
        rw [min_eq_right (by omega)]; omega
      have hd : decide (room.currentQuestionIndex + 2 ≤ (qs.length : Int) - 1) = false := by
        simp; omega
      rw [hm, hd]
  · have e1 : advanced qs room =
        { room with players := (evaluateRoom qs room).1.players, answers := [],
                    roundActive := false } := by
      unfold advanced
      simp only [hi.1, hlt, if_false]
      rw [hv]
    rw [e1]
    unfold advanced
    rw [evaluateRoom_no_answers qs _ rfl]
    simp only [hlt, if_false]
    have hm : min (room.currentQuestionIndex + 2) ((qs.length : Int) - 1)
        = room.currentQuestionIndex := by
      rw [min_eq_right (by omega)]; omega
    have hd : decide (room.currentQuestionIndex + 2 ≤ (qs.length : Int) - 1) = false := by
      simp; omega
    rw [hm, hd]

/-- C3, as stated, fails: with three questions, in `demoState` (room `ABCD`
active on question 0, its timer pending) a manual `nextQuestion` and the
firing of the pending timer, in either order, leave the room on question 2:
the second trigger is not a no-op and the index advances twice. -/
theorem C3_double_advance_counterexample :
    (demoState.rooms.get "ABCD").map Room.currentQuestionIndex = some 0 ∧
    (demoState.rooms.get "ABCD").map Room.roundActive = some true ∧
    "ABCD" ∈ demoState.timers ∧
    (timerFire threeCatalog "ABCD" (nextQuestion threeCatalog "H" "ABCD" demoState).state).map
        (fun st => (st.state.rooms.get "ABCD").map Room.currentQuestionIndex) = some (some 2) ∧
    (timerFire threeCatalog "ABCD" demoState).map
        (fun st => ((nextQuestion threeCatalog "H" "ABCD" st.state).state.rooms.get "ABCD").map
          Room.currentQuestionIndex) = some (some 2) := by
  decide

/-- C3, amended: for a room in an active round on a valid question `i` with a
timer pending, a manual `nextQuestion` and the firing of that timer, in either
order, both complete; the players and their scores are those left by exactly
one evaluation of question `i` (the second trigger finds no recorded answer
and changes no score); the second trigger is not a no-op on the index: the
room ends on index `min (i+2) (length-1)`, still active exactly when
`i + 2 ≤ length - 1`. -/
theorem C3_one_evaluation_two_advances (qs : Catalog) (s : State) (sid code : String)
    (room : Room) (hc : code ≠ "") (hr : s.rooms.get code = some room)
    (ht : code ∈ s.timers)
    (h0 : 0 ≤ room.currentQuestionIndex) (h1 : room.currentQuestionIndex < qs.length)
    (ha : room.roundActive = true) :
    ∃ st1 st2 : Step,
      timerFire qs code (nextQuestion qs sid code s).state = some st1 ∧
      (timerFire qs code s).map (fun st => nextQuestion qs sid code st.state) = some st2 ∧
      st1.fault = false ∧ st2.fault = false ∧
      st1.state.rooms.get code = st2.state.rooms.get code ∧
      st1.state.rooms.get code = some
        { room with
          players := (evaluateRoom qs room).1.players,
          answers := [],
          currentQuestionIndex := min (room.currentQuestionIndex + 2) ((qs.length : Int) - 1),
          roundActive := decide (room.currentQuestionIndex + 2 ≤ (qs.length : Int) - 1) } := by
  have hl : lookupRoom s code = some room := by rw [lookupRoom_eq_get s code hc, hr]
  obtain ⟨hn1, hn2, hn3⟩ := nextQuestion_rooms qs sid code s room hl
  -- manual advance first, then the timer
  have ht1 : code ∈ (nextQuestion qs sid code s).state.timers := by rw [hn2]; exact ht
  have hg1 : (nextQuestion qs sid code s).state.rooms.get code = some (advanced qs room) := by
    rw [hn1, Dict.get_set_self]
  have ha1 := advance_rooms qs code
    { (nextQuestion qs sid code s).state with
      timers := (nextQuestion qs sid code s).state.timers.erase code } (advanced qs room) hg1
  -- timer first, then the manual advance
  have ha2 := advance_rooms qs code { s with timers := s.timers.erase code } room hr
  have hg2 : (advance qs code { s with timers := s.timers.erase code }).state.rooms.get code
      = some (advanced qs room) := by
    rw [ha2.1, Dict.get_set_self]
  have hl2 : lookupRoom (advance qs code { s with timers := s.timers.erase code }).state code
      = some (advanced qs room) := by
    rw [lookupRoom_eq_get _ code hc, hg2]
  have hn := nextQuestion_rooms qs sid code _ (advanced qs room) hl2
  refine ⟨_, _, by simp only [timerFire, ht1, if_true], by simp only [timerFire, ht, if_true, Option.map_some'],
    ha1.2, hn.2.2, ?_, ?_⟩
  · rw [ha1.1, hn.1, Dict.get_set_self, Dict.get_set_self]
  · rw [ha1.1, Dict.get_set_self, advanced_twice qs room h0 h1 ha]

/-- C3 at `demoState` with three questions: the two triggers leave `A` with
the 100 points of question 0 and the room on question 2. -/
theorem C3_one_evaluation_two_advances_witness :
    "ABCD" ≠ "" ∧
    demoState.rooms.get "ABCD" = some { oneAnswerRoom with hostId := some "H" } ∧
    "ABCD" ∈ demoState.timers ∧
    (∃ st1 st2 : Step,
      timerFire threeCatalog "ABCD" (nextQuestion threeCatalog "H" "ABCD" demoState).state
        = some st1 ∧
      (timerFire threeCatalog "ABCD" demoState).map
        (fun st => nextQuestion threeCatalog "H" "ABCD" st.state) = some st2 ∧
      st1.fault = false ∧ st2.fault = false ∧
      st1.state.rooms.get "ABCD" = st2.state.rooms.get "ABCD" ∧
      st1.state.rooms.get "ABCD" = some
        { hostId := some "H",
          players := [("A", { id := "A", name := utf16 "Amy", avatar := .null, score := 100 })],
          currentQuestionIndex := 2, roundActive := true, answers := [],
          autoLeaderboard := false, autoQuestionTimer := 5 }) :=
  ⟨by decide, by decide, by decide, by
    obtain ⟨st1, st2, h1, h2, h3, h4, h5, h6⟩ :=
      C3_one_evaluation_two_advances threeCatalog demoState "H" "ABCD"
        { oneAnswerRoom with hostId := some "H" } (by decide) (by decide) (by decide)
        (by decide) (by decide) (by decide)
    exact ⟨st1, st2, h1, h2, h3, h4, h5, h6.trans (by decide!)⟩⟩

/-! ## Lemmas on the registry -/

theorem makeCodeChars_spec (n : Nat) :
    ∀ (draws : List (Fin 23)) (cs : List Char) (rest : List (Fin 23)),
      makeCodeChars n draws = some (cs, rest) →
      cs.length = n ∧ (∀ c ∈ cs, c ∈ letters) ∧ rest.length + n = draws.length := by
  induction n with
  | zero =>
    intro draws cs rest h
    simp [makeCodeChars] at h
    obtain ⟨rfl, rfl⟩ := h
    simp
  | succ n ih =>
    intro draws cs rest h
    cases draws with
    | nil => simp [makeCodeChars] at h
    | cons d ds =>
      simp only [makeCodeChars] at h
      cases hm : makeCodeChars n ds with
      | none => simp [hm] at h
      | some r =>
        obtain ⟨cs1, rest1⟩ := r
        simp [hm] at h
        obtain ⟨rfl, rfl⟩ := h
        obtain ⟨h1, h2, h3⟩ := ih ds cs1 rest1 hm
        refine ⟨by simp [h1], ?_, by simp; omega⟩
        intro c hc
        rcases List.mem_cons.mp hc with rfl | hc
        · have : ∀ k : Fin 23, letterAt k ∈ letters := by decide
          exact this d
        · exact h2 c hc

theorem makeCode_spec (n : Nat) (draws : List (Fin 23)) (code : String) (rest : List (Fin 23))
    (h : makeCode n draws = some (code, rest)) :
    code.length = n ∧ (∀ c ∈ code.data, c ∈ letters) ∧ rest.length + n = draws.length := by
  unfold makeCode at h
  cases hm : makeCodeChars n draws with
  | none => simp [hm] at h
  | some r =>
    obtain ⟨cs, rest1⟩ := r
    simp [hm] at h
    obtain ⟨rfl, rfl⟩ := h
    exact makeCodeChars_spec n draws cs rest1 hm

theorem freshCode_spec (rooms : Dict Room) (fuel : Nat) :
    ∀ (draws : List (Fin 23)) (code : String) (rest : List (Fin 23)),
      freshCode rooms fuel draws = some (code, rest) →
      rooms.get code = none ∧ code.length = 4 ∧ (∀ c ∈ code.data, c ∈ letters) := by
  induction fuel with
  | zero => intro draws code rest h; simp [freshCode] at h
  | succ fuel ih =>
    intro draws code rest h
    simp only [freshCode] at h
    cases hm : makeCode 4 draws with
    | none => simp [hm] at h
    | some r =>
      obtain ⟨c1, rest1⟩ := r
      simp only [hm] at h
      by_cases hu : (rooms.get c1).isSome = true
      · simp only [hu, if_true] at h
        exact ih rest1 code rest h
      · simp only [hu] at h
        simp at h
        obtain ⟨rfl, rfl⟩ := h
        obtain ⟨h1, h2, _⟩ := makeCode_spec 4 draws c1 rest1 hm
        refine ⟨?_, h1, h2⟩
        cases hg : rooms.get c1 with
        | none => rfl
        | some r => simp [hg] at hu

theorem createRoom_spec (rooms : Dict Room) (draws : List (Fin 23)) (code : String)
    (rooms1 : Dict Room) (rest : List (Fin 23))
    (h : createRoom rooms draws = some (code, rooms1, rest)) :
    rooms.get code = none ∧ code.length = 4 ∧ (∀ c ∈ code.data, c ∈ letters) ∧
    rooms1 = rooms.set code Room.fresh := by
  unfold createRoom at h
  cases hf : freshCode rooms draws.length draws with
  | none => simp [hf] at h
  | some r =>
    obtain ⟨c1, rest1⟩ := r
    simp [hf] at h
    obtain ⟨rfl, rfl, rfl⟩ := h
    obtain ⟨h1, h2, h3⟩ := freshCode_spec rooms _ draws c1 rest1 hf
    exact ⟨h1, h2, h3, rfl⟩

theorem onCreateRoom_spec (sid : String) (draws : List (Fin 23)) (s : State) (st : Step)
    (rest : List (Fin 23)) (h : onCreateRoom sid draws s = some (st, rest)) :
    ∃ code, s.rooms.get code = none ∧ code.length = 4 ∧ (∀ c ∈ code.data, c ∈ letters) ∧
      st.state.rooms = s.rooms.set code { Room.fresh with hostId := some sid } ∧
      st.state.timers = s.timers ∧ st.fault = false ∧
      st.emits = [⟨.caller sid, .roomCreated code⟩,
                  ⟨.room code, .state { Room.fresh with hostId := some sid }⟩] := by
  unfold onCreateRoom at h
  cases hc : createRoom s.rooms draws with
  | none => simp [hc] at h
  | some r =>
    obtain ⟨code, rooms1, rest1⟩ := r
    simp [hc] at h
    obtain ⟨rfl, rfl⟩ := h
    obtain ⟨h1, h2, h3, rfl⟩ := createRoom_spec s.rooms draws code rooms1 rest1 hc
    exact ⟨code, h1, h2, h3, by simp [Dict.set_set], rfl, rfl, rfl⟩

/-- Reading the registry after one room was written. -/
theorem Dict.get_set_rel {d : Dict Room} {k code : String} {room room2 : Room}
    (hr : d.get code = some room) (P : Room → Prop) (hsame : P room)
    (hP : code = k → P room2) :
    ∃ room1, (d.set k room2).get code = some room1 ∧ P room1 := by
  by_cases h : code = k
  · subst h
    exact ⟨room2, Dict.get_set_self _ _ _, hP rfl⟩
  · exact ⟨room, by rw [Dict.get_set_other _ _ _ _ h, hr], hsame⟩

theorem Dict.get_map_snd {α : Type} (d : Dict α) (f : String → α → α) (k : String) :
    Dict.get (d.map (fun e => (e.1, f e.1 e.2))) k = (d.get k).map (f k) := by
  induction d with
  | nil => simp [Dict.get]
  | cons e rest ih =>
    obtain ⟨k0, w⟩ := e
    by_cases h0 : k0 = k
    · subst h0
      simp [Dict.get]
    · simp [Dict.get, h0]
      simpa using ih

theorem submitAnswer_rooms (sid code : String) (answer : JSVal) (s : State) (room : Room)
    (hl : lookupRoom s code = some room) (ha : room.roundActive = true) :
    (submitAnswer sid code answer s).state.rooms
      = s.rooms.set code { room with answers := room.answers.set sid answer } ∧
    (submitAnswer sid code answer s).state.timers = s.timers := by
  simp only [submitAnswer, hl, ha]
  cases room.players.get sid <;> simp

theorem submitAnswer_inactive (sid code : String) (answer : JSVal) (s : State) (room : Room)
    (hl : lookupRoom s code = some room) (ha : room.roundActive = false) :
    submitAnswer sid code answer s
      = { state := s, emits := [⟨.caller sid, .answerRejected⟩], fault := false } := by
  simp [submitAnswer, hl, ha]

/-- The assignments of `hostSetPrefs` touch the two preferences only. -/
theorem applyPrefs_fields (timer autoLb : JSVal) (room : Room) :
    (applyPrefs timer autoLb room).hostId = room.hostId ∧
    (applyPrefs timer autoLb room).players = room.players ∧
    (applyPrefs timer autoLb room).answers = room.answers ∧
    (applyPrefs timer autoLb room).roundActive = room.roundActive ∧
    (applyPrefs timer autoLb room).currentQuestionIndex = room.currentQuestionIndex := by
  unfold applyPrefs
  split <;> split <;> simp

/-! ## The question index along a run (C4) -/

theorem advanced_index (qs : Catalog) (room : Room) :
    (advanced qs room).currentQuestionIndex = room.currentQuestionIndex ∨
    ((advanced qs room).currentQuestionIndex = room.currentQuestionIndex + 1 ∧
      room.currentQuestionIndex < (qs.length : Int) - 1) := by
  have hi := (evaluateRoom_index qs room).1
  unfold advanced
  by_cases h : (evaluateRoom qs room).1.currentQuestionIndex < (qs.length : Int) - 1
  · right
    simp only [h, if_true]
    rw [hi] at h
    exact ⟨by rw [hi], h⟩
  · left
    simp only [h, if_false]
    exact hi

theorem step_index (qs : Catalog) (s : State) (a : Action) (st : Step) (code : String)
    (room : Room) (hp : perform qs a s = some st) (hr : s.rooms.get code = some room) :
    ∃ room1, st.state.rooms.get code = some room1 ∧ IndexMove qs a code room room1 := by
  have same : ∀ r : Room, r.currentQuestionIndex = room.currentQuestionIndex →
      IndexMove qs a code room r := fun r h => Or.inl h
  cases a with
  | createRoom sid draws =>
    simp only [perform] at hp
    cases hc : onCreateRoom sid draws s with
    | none => simp [hc] at hp
    | some r =>
      obtain ⟨st1, rest⟩ := r
      simp [hc] at hp
      subst hp
      obtain ⟨c, h1, _, _, h4, _⟩ := onCreateRoom_spec sid draws s st1 rest hc
      rw [h4]
      refine Dict.get_set_rel hr _ (same room rfl) ?_
      rintro rfl
      rw [h1] at hr
      cases hr
  | hostJoin sid c =>
    simp only [perform, Option.some.injEq] at hp
    subst hp
    unfold hostJoin
    cases hl : lookupRoom s c with
    | none => simp only []; split <;> exact ⟨room, hr, same room rfl⟩
    | some room0 =>
      refine Dict.get_set_rel hr _ (same room rfl) ?_
      rintro rfl
      have := (lookupRoom_some s code room0 hl).2
      rw [hr] at this
      cases this
      exact same _ rfl
  | playerJoin sid c name avatar =>
    simp only [perform, Option.some.injEq] at hp
    subst hp
    unfold playerJoin
    cases hl : lookupRoom s c with
    | none => simp only []; split <;> exact ⟨room, hr, same room rfl⟩
    | some room0 =>
      refine Dict.get_set_rel hr _ (same room rfl) ?_
      rintro rfl
      have := (lookupRoom_some s code room0 hl).2
      rw [hr] at this
      cases this
      exact same _ rfl
  | startQuiz sid c =>
    simp only [perform, Option.some.injEq] at hp
    subst hp
    unfold startQuiz
    cases hl : lookupRoom s c with
    | none => exact ⟨room, hr, same room rfl⟩
    | some room0 =>
      by_cases hh : room0.hostId = some sid
      · simp only [hh, ne_eq, not_true_eq_false, if_false]
        refine Dict.get_set_rel hr _ (same room rfl) ?_
        rintro rfl
        have := (lookupRoom_some s code room0 hl).2
        rw [hr] at this
        cases this
        exact Or.inr (Or.inr ⟨sid, rfl, hh, rfl⟩)
      · simp only [ne_eq, hh, not_false_eq_true, if_true]
        exact ⟨room, hr, same room rfl⟩
  | submitAnswer sid c answer =>
    simp only [perform, Option.some.injEq] at hp
    subst hp
    cases hl : lookupRoom s c with
    | none =>
      simp only [submitAnswer, hl]
      split <;> exact ⟨room, hr, same room rfl⟩
    | some room0 =>
      by_cases ha : room0.roundActive = true
      · rw [(submitAnswer_rooms sid c answer s room0 hl ha).1]
        refine Dict.get_set_rel hr _ (same room rfl) ?_
        rintro rfl
        have := (lookupRoom_some s code room0 hl).2
        rw [hr] at this
        cases this
        exact same _ rfl
      · rw [submitAnswer_inactive sid c answer s room0 hl (by simpa using ha)]
        exact ⟨room, hr, same room rfl⟩
  | nextQuestion sid c =>
    simp only [perform, Option.some.injEq] at hp
    subst hp
    cases hl : lookupRoom s c with
    | none =>
      simp only [nextQuestion, hl]
      split <;> exact ⟨room, hr, same room rfl⟩
    | some room0 =>
      rw [(nextQuestion_rooms qs sid c s room0 hl).1]
      refine Dict.get_set_rel hr _ (same room rfl) ?_
      rintro rfl
      have := (lookupRoom_some s code room0 hl).2
      rw [hr] at this
      cases this
      rcases advanced_index qs room with h | h
      · exact Or.inl h
      · exact Or.inr (Or.inl h)
  | showLeaderboard sid c =>
    simp only [perform, Option.some.injEq] at hp
    subst hp
    unfold showLeaderboard
    cases hl : lookupRoom s c with
    | none => simp only []; split <;> exact ⟨room, hr, same room rfl⟩
    | some room0 => exact ⟨room, hr, same room rfl⟩
  | hostSetPrefs sid c timer autoLb =>
    simp only [perform, Option.some.injEq] at hp
    subst hp
    unfold hostSetPrefs
    cases hl : lookupRoom s c with
    | none => exact ⟨room, hr, same room rfl⟩
    | some room0 =>
      by_cases hh : room0.hostId = some sid
      · simp only [hh, ne_eq, not_true_eq_false, if_false]
        refine Dict.get_set_rel hr _ (same room rfl) ?_
        rintro rfl
        have := (lookupRoom_some s code room0 hl).2
        rw [hr] at this
        cases this
        exact same _ (applyPrefs_fields timer autoLb room).2.2.2.2
      · simp only [ne_eq, hh, not_false_eq_true, if_true]
        exact ⟨room, hr, same room rfl⟩
  | disconnect sid =>
    simp only [perform, Option.some.injEq] at hp
    subst hp
    refine ⟨(disconnectRoom sid code room).1, ?_, ?_⟩
    · simp only [disconnect]
      rw [Dict.get_map_snd s.rooms (fun c r => (disconnectRoom sid c r).1) code, hr]
      rfl
    · apply same
      unfold disconnectRoom
      by_cases h1 : (room.players.get sid).isSome = true <;>
        by_cases h2 : room.hostId = some sid <;> simp [h1, h2]
  | timer c =>
    simp only [perform, timerFire] at hp
    by_cases ht : c ∈ s.timers
    · simp only [ht, if_true, Option.some.injEq] at hp
      subst hp
      cases hl : s.rooms.get c with
      | none =>
        simp only [advance, hl]
        exact ⟨room, hr, same room rfl⟩
      | some room0 =>
        rw [(advance_rooms qs c { s with timers := s.timers.erase c } room0 hl).1]
        refine Dict.get_set_rel hr _ (same room rfl) ?_
        rintro rfl
        rw [hr] at hl
        cases hl
        rcases advanced_index qs room with h | h
        · exact Or.inl h
        · exact Or.inr (Or.inl h)
    · simp [ht] at hp

/-- The registry after a step has one of four shapes: untouched; one existing
room rewritten; one room added under a new code by `createRoom`; every room
passed through the loop of `disconnect`. -/
theorem perform_rooms_shape (qs : Catalog) (s : State) (a : Action) (st : Step)
    (hp : perform qs a s = some st) :
    st.state.rooms = s.rooms ∨
    (∃ c room0 room2, s.rooms.get c = some room0 ∧ st.state.rooms = s.rooms.set c room2) ∨
    (∃ c sid, s.rooms.get c = none ∧
      st.state.rooms = s.rooms.set c { Room.fresh with hostId := some sid }) ∨
    (∃ sid, st.state.rooms = s.rooms.map (fun e => (e.1, (disconnectRoom sid e.1 e.2).1))) := by
  cases a with
  | createRoom sid draws =>
    simp only [perform] at hp
    cases hc : onCreateRoom sid draws s with
    | none => simp [hc] at hp
    | some r =>
      obtain ⟨st1, rest⟩ := r
      simp [hc] at hp
      subst hp
      obtain ⟨c, h1, _, _, h4, _⟩ := onCreateRoom_spec sid draws s st1 rest hc
      exact Or.inr (Or.inr (Or.inl ⟨c, sid, h1, h4⟩))
  | hostJoin sid c =>
    simp only [perform, Option.some.injEq] at hp
    subst hp
    unfold hostJoin
    cases hl : lookupRoom s c with
    | none => simp only []; split <;> exact Or.inl rfl
    | some room0 => exact Or.inr (Or.inl ⟨c, room0, _, (lookupRoom_some s c room0 hl).2, rfl⟩)
  | playerJoin sid c name avatar =>
    simp only [perform, Option.some.injEq] at hp
    subst hp
    unfold playerJoin
    cases hl : lookupRoom s c with
    | none => simp only []; split <;> exact Or.inl rfl
    | some room0 => exact Or.inr (Or.inl ⟨c, room0, _, (lookupRoom_some s c room0 hl).2, rfl⟩)
  | startQuiz sid c =>
    simp only [perform, Option.some.injEq] at hp
    subst hp
    unfold startQuiz
    cases hl : lookupRoom s c with
    | none => exact Or.inl rfl
    | some room0 =>
      by_cases hh : room0.hostId = some sid
      · simp only [hh, ne_eq, not_true_eq_false, if_false]
        exact Or.inr (Or.inl ⟨c, room0, _, (lookupRoom_some s c room0 hl).2, rfl⟩)
      · simp only [ne_eq, hh, not_false_eq_true, if_true]
        exact Or.inl rfl
  | submitAnswer sid c answer =>
    simp only [perform, Option.some.injEq] at hp
    subst hp
    cases hl : lookupRoom s c with
    | none =>
      simp only [submitAnswer, hl]
      split <;> exact Or.inl rfl
    | some room0 =>
      by_cases ha : room0.roundActive = true
      · exact Or.inr (Or.inl ⟨c, room0, _, (lookupRoom_some s c room0 hl).2,
          (submitAnswer_rooms sid c answer s room0 hl ha).1⟩)
      · rw [submitAnswer_inactive sid c answer s room0 hl (by simpa using ha)]
        exact Or.inl rfl
  | nextQuestion sid c =>
    simp only [perform, Option.some.injEq] at hp
    subst hp
    cases hl : lookupRoom s c with
    | none =>
      simp only [nextQuestion, hl]
      split <;> exact Or.inl rfl
    | some room0 =>
      exact Or.inr (Or.inl ⟨c, room0, _, (lookupRoom_some s c room0 hl).2,
        (nextQuestion_rooms qs sid c s room0 hl).1⟩)
  | showLeaderboard sid c =>
    simp only [perform, Option.some.injEq] at hp
    subst hp
    unfold showLeaderboard
    cases hl : lookupRoom s c with
    | none => simp only []; split <;> exact Or.inl rfl
    | some room0 => exact Or.inl rfl
  | hostSetPrefs sid c timer autoLb =>
    simp only [perform, Option.some.injEq] at hp
    subst hp
    unfold hostSetPrefs
    cases hl : lookupRoom s c with
    | none => exact Or.inl rfl
    | some room0 =>
      by_cases hh : room0.hostId = some sid
      · simp only [hh, ne_eq, not_true_eq_false, if_false]
        exact Or.inr (Or.inl ⟨c, room0, _, (lookupRoom_some s c room0 hl).2, rfl⟩)
      · simp only [ne_eq, hh, not_false_eq_true, if_true]
        exact Or.inl rfl
  | disconnect sid =>
    simp only [perform, Option.some.injEq] at hp
    subst hp
    exact Or.inr (Or.inr (Or.inr ⟨sid, rfl⟩))
  | timer c =>
    simp only [perform, timerFire] at hp
    by_cases ht : c ∈ s.timers
    · simp only [ht, if_true, Option.some.injEq] at hp
      subst hp
      cases hl : s.rooms.get c with
      | none =>
        simp only [advance, hl]
        exact Or.inl rfl
      | some room0 =>
        exact Or.inr (Or.inl ⟨c, room0, _, hl,
          (advance_rooms qs c { s with timers := s.timers.erase c } room0 hl).1⟩)
    · simp [ht] at hp

/-- A room that appears under a code unused before the step is the room left
by the handler of `createRoom`: it is in the lobby, on index -1. -/
theorem step_new_room (qs : Catalog) (s : State) (a : Action) (st : Step) (code : String)
    (room1 : Room) (hp : perform qs a s = some st) (hn : s.rooms.get code = none)
    (h1 : st.state.rooms.get code = some room1) :
    ∃ sid, room1 = { Room.fresh with hostId := some sid } := by
  rcases perform_rooms_shape qs s a st hp with h | ⟨c, room0, room2, hc, h⟩ | ⟨c, sid, hc, h⟩ | ⟨sid, h⟩
  · rw [h, hn] at h1
    cases h1
  · have hne : code ≠ c := by
      rintro rfl
      rw [hn] at hc
      cases hc
    rw [h, Dict.get_set_other _ _ _ _ hne, hn] at h1
    cases h1
  · by_cases hne : code = c
    · subst hne
      rw [h, Dict.get_set_self] at h1
      exact ⟨sid, (Option.some.inj h1).symm⟩
    · rw [h, Dict.get_set_other _ _ _ _ hne, hn] at h1
      cases h1
  · rw [h, Dict.get_map_snd s.rooms (fun c r => (disconnectRoom sid c r).1) code, hn] at h1
    cases h1

/-- In every reachable state the index of a room is at least -1 and, when the
catalog is not empty, at most the last catalog index. -/
theorem reachable_index_bounds (qs : Catalog) (s : State) (hs : Reachable qs s) :
    ∀ (code : String) (room : Room), s.rooms.get code = some room →
      -1 ≤ room.currentQuestionIndex ∧
      (qs ≠ [] → room.currentQuestionIndex ≤ (qs.length : Int) - 1) := by
  induction hs with
  | init => intro code room h; simp [State.init, Dict.get] at h
  | @step s0 a st _ hp _ ih =>
    intro code room1 h1
    have hlen : qs ≠ [] → (1 : Int) ≤ qs.length := by
      intro h
      have := List.length_pos.mpr h
      omega
    cases h0 : s0.rooms.get code with
    | none =>
      obtain ⟨sid, rfl⟩ := step_new_room qs s0 a st code room1 hp h0 h1
      refine ⟨by simp [Room.fresh], fun h => ?_⟩
      have := hlen h
      simp only [Room.fresh]
      omega
    | some room0 =>
      obtain ⟨r, hr, hm⟩ := step_index qs s0 a st code room0 hp h0
      rw [h1] at hr
      cases hr
      obtain ⟨hb1, hb2⟩ := ih code room0 h0
      rcases hm with h | ⟨h, hlt⟩ | ⟨sid, _, _, h⟩
      · rw [h]; exact ⟨hb1, hb2⟩
      · rw [h]; exact ⟨by omega, fun _ => by omega⟩
      · rw [h]; exact ⟨by omega, fun hq => by have := hlen hq; omega⟩

theorem reachable_run (qs : Catalog) (as : List Action) :
    ∀ s, Reachable qs s → Reachable qs (run qs as s) := by
  induction as with
  | nil => intro s hs; exact hs
  | cons a rest ih =>
    intro s hs
    simp only [run]
    cases hp : perform qs a s with
    | none => exact ih s hs
    | some st =>
      simp only []
      split
      · exact hs
      · rename_i he
        exact ih _ (Reachable.step hs hp ((Bool.not_eq_true _).mp he))

/-- C4, as stated, fails twice.  After `quizTrace` the room is on index 1 and a
second `startQuiz` of the host puts it back on index 0: the index decreases.
With the empty catalog, `createRoom` then `startQuiz` leave the index on 0,
above catalog length - 1 = -1. -/
theorem C4_restart_counterexample :
    ((run demoCatalog quizTrace State.init).rooms.get "AAAA").map Room.currentQuestionIndex
      = some 1 ∧
    ((run demoCatalog (quizTrace ++ [.startQuiz "H" "AAAA"]) State.init).rooms.get "AAAA").map
      Room.currentQuestionIndex = some 0 ∧
    ((run [] [.createRoom "H" [0, 0, 0, 0], .startQuiz "H" "AAAA"] State.init).rooms.get
      "AAAA").map Room.currentQuestionIndex = some 0 ∧
    ((([] : Catalog).length : Int) - 1 = -1) := by
  decide

/-- C4, amended: in every reachable state and for every room of it, a step
(inbound action or timer firing) leaves currentQuestionIndex unchanged or
increases it by exactly 1, except that `startQuiz` issued by the host of the
room sets it to 0 whatever it was; and when the catalog is not empty
currentQuestionIndex never exceeds catalog length - 1. -/
theorem C4_index_steps (qs : Catalog) (s : State) (hs : Reachable qs s) (code : String)
    (room : Room) (hr : s.rooms.get code = some room) :
    (qs ≠ [] → room.currentQuestionIndex ≤ (qs.length : Int) - 1) ∧
    ∀ (a : Action) (st : Step), perform qs a s = some st →
      ∃ room1, st.state.rooms.get code = some room1 ∧
        (room1.currentQuestionIndex = room.currentQuestionIndex ∨
         room1.currentQuestionIndex = room.currentQuestionIndex + 1 ∨
         (∃ sid, a = .startQuiz sid code ∧ room.hostId = some sid ∧
            room1.currentQuestionIndex = 0)) := by
  refine ⟨(reachable_index_bounds qs s hs code room hr).2, ?_⟩
  intro a st hp
  obtain ⟨room1, h1, hm⟩ := step_index qs s a st code room hp hr
  refine ⟨room1, h1, ?_⟩
  rcases hm with h | ⟨h, _⟩ | h
  · exact Or.inl h
  · exact Or.inr (Or.inl h)
  · exact Or.inr (Or.inr h)

/-- C4 at the state after `quizTrace`: the room is on index 1, the last index
of `demoCatalog`, and a further `nextQuestion` leaves it there. -/
theorem C4_index_steps_witness :
    Reachable demoCatalog (run demoCatalog quizTrace State.init) ∧
    (run demoCatalog quizTrace State.init).rooms.get "AAAA" = some quizRoom ∧
    quizRoom.currentQuestionIndex ≤ (demoCatalog.length : Int) - 1 ∧
    (∃ room1,
      (nextQuestion demoCatalog "H" "AAAA" (run demoCatalog quizTrace State.init)).state.rooms.get
          "AAAA" = some room1 ∧
        (room1.currentQuestionIndex = quizRoom.currentQuestionIndex ∨
         room1.currentQuestionIndex = quizRoom.currentQuestionIndex + 1 ∨
         (∃ sid, Action.nextQuestion "H" "AAAA" = .startQuiz sid "AAAA" ∧
            quizRoom.hostId = some sid ∧ room1.currentQuestionIndex = 0))) :=
  ⟨reachable_run demoCatalog quizTrace State.init Reachable.init, by decide!,
   (C4_index_steps demoCatalog (run demoCatalog quizTrace State.init)
      (reachable_run demoCatalog quizTrace State.init Reachable.init) "AAAA" quizRoom
      (by decide!)).1 (by decide),
   (C4_index_steps demoCatalog (run demoCatalog quizTrace State.init)
      (reachable_run demoCatalog quizTrace State.init Reachable.init) "AAAA" quizRoom
      (by decide!)).2 (.nextQuestion "H" "AAAA") _ rfl⟩

/-! ## Clearing of the answers (C5) -/

/-- C5, as stated, fails on the empty catalog: after `emptyCatalogTrace` the
room holds the answer of `A`, and it still holds it after `evaluateAnswers`
and after the `nextQuestion` handler, which find no current question. -/
theorem C5_empty_catalog_counterexample :
    ((run [] emptyCatalogTrace State.init).rooms.get "AAAA").map Room.answers
      = some [("A", .num (.fin 1))] ∧
    ((evaluateAnswers [] (run [] emptyCatalogTrace State.init) "AAAA").1.rooms.get "AAAA").map
      Room.answers = some [("A", .num (.fin 1))] ∧
    ((nextQuestion [] "H" "AAAA" (run [] emptyCatalogTrace State.init)).state.rooms.get
      "AAAA").map Room.answers = some [("A", .num (.fin 1))] := by
  decide

theorem evaluateRoom_answers (qs : Catalog) (room : Room) :
    (evaluateRoom qs room).1.answers
      = if (qs.at room.currentQuestionIndex).isSome then [] else room.answers := by
  unfold evaluateRoom
  cases qs.at room.currentQuestionIndex <;> simp

theorem advanced_answers (qs : Catalog) (room : Room) :
    (advanced qs room).answers
      = if (qs.at room.currentQuestionIndex).isSome ∨
            room.currentQuestionIndex < (qs.length : Int) - 1 then []
        else room.answers := by
  have hi := (evaluateRoom_index qs room).1
  have ha := evaluateRoom_answers qs room
  unfold advanced
  by_cases h : room.currentQuestionIndex < (qs.length : Int) - 1
  · simp only [hi, h, if_true, or_true]
  · simp only [hi, h, if_false, or_false]
    exact ha

/-- C5, amended: for every catalog and every room whose currentQuestionIndex
is a valid catalog index, the answers mapping is empty after `evaluateAnswers`;
after the manual `nextQuestion` advance and after a timer-driven advance it is
empty whenever the index was a valid catalog index or a further question is
left (index < catalog length - 1).  With no current question `evaluateAnswers`
leaves the answers as they were. -/
theorem C5_answers_cleared (qs : Catalog) (s : State) (sid code : String) (room : Room)
    (hc : code ≠ "") (hr : s.rooms.get code = some room) :
    ((qs.at room.currentQuestionIndex).isSome = true →
      ((evaluateAnswers qs s code).1.rooms.get code).map Room.answers = some []) ∧
    ((qs.at room.currentQuestionIndex).isSome = true ∨
        room.currentQuestionIndex < (qs.length : Int) - 1 →
      ((nextQuestion qs sid code s).state.rooms.get code).map Room.answers = some [] ∧
      ∀ st, timerFire qs code s = some st →
        (st.state.rooms.get code).map Room.answers = some []) ∧
    (qs.at room.currentQuestionIndex = none →
      ((evaluateAnswers qs s code).1.rooms.get code).map Room.answers = some room.answers) := by
  have hl : lookupRoom s code = some room := by rw [lookupRoom_eq_get s code hc, hr]
  refine ⟨?_, ?_, ?_⟩
  · intro hv
    simp only [evaluateAnswers, hr]
    rw [Dict.get_set_self]
    simp [evaluateRoom_answers, hv]
  · intro hv
    have hadv : (advanced qs room).answers = [] := by
      rw [advanced_answers]; simp only [hv, if_true]
    refine ⟨?_, ?_⟩
    · rw [(nextQuestion_rooms qs sid code s room hl).1, Dict.get_set_self]
      simp [hadv]
    · intro st hst
      unfold timerFire at hst
      by_cases ht : code ∈ s.timers
      · simp only [ht, if_true, Option.some.injEq] at hst
        subst hst
        rw [(advance_rooms qs code { s with timers := s.timers.erase code } room hr).1,
          Dict.get_set_self]
        simp [hadv]
      · simp [ht] at hst
  · intro hn
    simp only [evaluateAnswers, hr]
    rw [Dict.get_set_self]
    simp [evaluateRoom_answers, hn]

/-- C5 at `demoState`: the room is on question 0 of `demoCatalog` with one
recorded answer; each of the three evaluations leaves no answer. -/
theorem C5_answers_cleared_witness :
    "ABCD" ≠ "" ∧
    demoState.rooms.get "ABCD" = some { oneAnswerRoom with hostId := some "H" } ∧
    ((evaluateAnswers demoCatalog demoState "ABCD").1.rooms.get "ABCD").map Room.answers
      = some [] ∧
    ((nextQuestion demoCatalog "H" "ABCD" demoState).state.rooms.get "ABCD").map Room.answers
      = some [] ∧
    ((advance demoCatalog "ABCD" { demoState with timers := demoState.timers.erase "ABCD" }
        ).state.rooms.get "ABCD").map Room.answers = some [] :=
  ⟨by decide, by decide,
   (C5_answers_cleared demoCatalog demoState "H" "ABCD"
      { oneAnswerRoom with hostId := some "H" } (by decide) (by decide)).1 (by decide),
   ((C5_answers_cleared demoCatalog demoState "H" "ABCD"
      { oneAnswerRoom with hostId := some "H" } (by decide) (by decide)).2.1
      (Or.inl (by decide))).1,
   ((C5_answers_cleared demoCatalog demoState "H" "ABCD"
      { oneAnswerRoom with hostId := some "H" } (by decide) (by decide)).2.1
      (Or.inl (by decide))).2 _ (by decide!)⟩

/-! ## The two-question scenario (C6) -/

/-- C6: the scenario trace on the catalog of two questions (points 100 and
200, correct indices 1 and 0).  After createRoom, playerJoin and startQuiz the
room has index 0 and is active; after `A` submits 1 and `H` calls nextQuestion,
`A` has 100 points, the answers are empty, the index is 1 and questionChanged
for index 1 is emitted; after `A` submits 0 and one further advance, manual or
by the pending timer, `A` has 300 points and the round has ended with the
index still 1. -/
theorem C6_scenario :
    (scenarioStarted.rooms.get "AAAA").map Room.currentQuestionIndex = some 0 ∧
    (scenarioStarted.rooms.get "AAAA").map Room.roundActive = some true ∧
    (scenarioFirstAdvance.state.rooms.get "AAAA").map
        (fun r => r.players.values.map (fun p => (p.name, p.score))) = some [(utf16 "Amy", 100)] ∧
    (scenarioFirstAdvance.state.rooms.get "AAAA").map Room.answers = some [] ∧
    (scenarioFirstAdvance.state.rooms.get "AAAA").map Room.currentQuestionIndex = some 1 ∧
    (⟨.room "AAAA",
      .questionChanged 1 (some { correct := .num (.fin 0), points := .num (.fin 200) }) 5⟩
        : Emit) ∈ scenarioFirstAdvance.emits ∧
    -- the further advance is a manual `nextQuestion`
    ((nextQuestion demoCatalog "H" "AAAA" scenarioSecondAnswer).state.rooms.get "AAAA").map
        (fun r => r.players.values.map (fun p => (p.name, p.score))) = some [(utf16 "Amy", 300)] ∧
    ((nextQuestion demoCatalog "H" "AAAA" scenarioSecondAnswer).state.rooms.get "AAAA").map
        Room.roundActive = some false ∧
    ((nextQuestion demoCatalog "H" "AAAA" scenarioSecondAnswer).state.rooms.get "AAAA").map
        Room.currentQuestionIndex = some 1 ∧
    -- the further advance is the firing of the timer armed by `startQuiz`
    (timerFire demoCatalog "AAAA" scenarioSecondAnswer).map
        (fun st => (st.state.rooms.get "AAAA").map
          (fun r => r.players.values.map (fun p => (p.name, p.score))))
      = some (some [(utf16 "Amy", 300)]) ∧
    (timerFire demoCatalog "AAAA" scenarioSecondAnswer).map
        (fun st => (st.state.rooms.get "AAAA").map Room.roundActive) = some (some false) ∧
    (timerFire demoCatalog "AAAA" scenarioSecondAnswer).map
        (fun st => (st.state.rooms.get "AAAA").map Room.currentQuestionIndex)
      = some (some 1) := by
  decide!

/-! ## Disconnect (C7) -/

theorem Dict.get_del_self {α : Type} (d : Dict α) (k : String) : (d.del k).get k = none := by
  induction d with
  | nil => simp [Dict.del, Dict.get]
  | cons e rest ih =>
    obtain ⟨k0, w⟩ := e
    by_cases h : k0 = k
    · simp [Dict.del, h, ih]
    · simp [Dict.del, h, Dict.get, ih]

theorem Dict.get_del_other {α : Type} (d : Dict α) (k k1 : String) (h : k1 ≠ k) :
    (d.del k).get k1 = d.get k1 := by
  induction d with
  | nil => simp [Dict.del, Dict.get]
  | cons e rest ih =>
    obtain ⟨k0, w⟩ := e
    by_cases h0 : k0 = k
    · subst h0
      simp [Dict.del, Dict.get, ih, Ne.symm h]
    · by_cases h1 : k0 = k1
      · subst h1
        simp [Dict.del, h0, Dict.get]
      · simp [Dict.del, h0, Dict.get, h1, ih]

theorem Dict.del_of_get_none {α : Type} (d : Dict α) (k : String) (h : d.get k = none) :
    d.del k = d := by
  induction d with
  | nil => rfl
  | cons e rest ih =>
    obtain ⟨k0, w⟩ := e
    by_cases h0 : k0 = k
    · simp [Dict.get, h0] at h
    · simp [Dict.get, h0] at h
      simp [Dict.del, h0, ih h]

/-- One round of the loop of `disconnect` deletes the entry of the caller and
clears `hostId` when it is the caller. -/
theorem disconnectRoom_eq (sid code : String) (room : Room) :
    (disconnectRoom sid code room).1 =
      { room with
        players := room.players.del sid,
        hostId := if room.hostId = some sid then none else room.hostId } := by
  unfold disconnectRoom
  cases hg : room.players.get sid with
  | none =>
    have hd := Dict.del_of_get_none _ _ hg
    by_cases hh : room.hostId = some sid <;> simp [hh, hd]
  | some p =>
    by_cases hh : room.hostId = some sid <;> simp [hh]

/-- C7: `disconnect(s)` runs to completion, keeps the same room codes and, in
every room, removes exactly the entry of `s` from the players (every other
entry, with its name, avatar and score, is unchanged, in the same order), sets
hostId to none exactly when it was `s` and leaves it unchanged otherwise, and
leaves roundActive and currentQuestionIndex unchanged; the pending timers are
left as they are. -/
theorem C7_disconnect (s : State) (sid code : String) (room : Room)
    (hr : s.rooms.get code = some room) :
    (disconnect sid s).fault = false ∧
    Dict.keys (disconnect sid s).state.rooms = Dict.keys s.rooms ∧
    (disconnect sid s).state.timers = s.timers ∧
    ∃ room1, (disconnect sid s).state.rooms.get code = some room1 ∧
      room1.players = room.players.del sid ∧
      room1.players.get sid = none ∧
      (∀ k, k ≠ sid → room1.players.get k = room.players.get k) ∧
      room1.hostId = (if room.hostId = some sid then none else room.hostId) ∧
      room1.roundActive = room.roundActive ∧
      room1.currentQuestionIndex = room.currentQuestionIndex := by
  refine ⟨rfl, ?_, rfl, (disconnectRoom sid code room).1, ?_, ?_⟩
  · simp [disconnect, Dict.keys, List.map_map, Function.comp_def]
  · simp only [disconnect]
    rw [Dict.get_map_snd s.rooms (fun c r => (disconnectRoom sid c r).1) code, hr]
    rfl
  · rw [disconnectRoom_eq]
    exact ⟨rfl, Dict.get_del_self _ _, fun k hk => Dict.get_del_other _ _ _ hk, rfl, rfl, rfl⟩

/-- C7 at `demoState`: when the player `A` disconnects, the room `ABCD` keeps
its host `H`, its index and its active round, and has no player left. -/
theorem C7_disconnect_witness :
    demoState.rooms.get "ABCD" = some { oneAnswerRoom with hostId := some "H" } ∧
    (disconnect "A" demoState).fault = false ∧
    Dict.keys (disconnect "A" demoState).state.rooms = Dict.keys demoState.rooms ∧
    (disconnect "A" demoState).state.timers = demoState.timers ∧
    ∃ room1, (disconnect "A" demoState).state.rooms.get "ABCD" = some room1 ∧
      room1.players = Dict.del [("A", { id := "A", name := utf16 "Amy", avatar := .null, score := 0 })] "A" ∧
      room1.players.get "A" = none ∧
      (∀ k, k ≠ "A" → room1.players.get k
        = Dict.get [("A", { id := "A", name := utf16 "Amy", avatar := .null, score := 0 })] k) ∧
      room1.hostId = (if some "H" = some "A" then none else some "H") ∧
      room1.roundActive = true ∧
      room1.currentQuestionIndex = 0 :=
  ⟨by decide, C7_disconnect demoState "A" "ABCD" { oneAnswerRoom with hostId := some "H" }
    (by decide)⟩

/-! ## Room codes (C8) -/

theorem createRoom_keeps (rooms : Dict Room) (draws : List (Fin 23)) (code : String)
    (rooms1 : Dict Room) (rest : List (Fin 23))
    (h : createRoom rooms draws = some (code, rooms1, rest)) :
    rooms1.get code = some Room.fresh ∧
    (∀ k r, rooms.get k = some r → rooms1.get k = some r) ∧
    (∀ k, k ≠ code → rooms1.get k = rooms.get k) := by
  obtain ⟨h1, _, _, rfl⟩ := createRoom_spec rooms draws code rooms1 rest h
  refine ⟨Dict.get_set_self _ _ _, ?_, fun k hk => Dict.get_set_other _ _ _ _ hk⟩
  intro k r hk
  have hne : k ≠ code := by
    rintro rfl
    rw [h1] at hk
    cases hk
  rw [Dict.get_set_other _ _ _ _ hne, hk]

theorem createRooms_spec (n : Nat) :
    ∀ (rooms : Dict Room) (draws : List (Fin 23)) (codes : List String) (rooms2 : Dict Room)
      (rest2 : List (Fin 23)),
      createRooms n rooms draws = some (codes, rooms2, rest2) →
      codes.length = n ∧ codes.Nodup ∧
      (∀ c ∈ codes, rooms.get c = none ∧ (rooms2.get c).isSome = true) ∧
      (∀ k r, rooms.get k = some r → rooms2.get k = some r) := by
  induction n with
  | zero =>
    intro rooms draws codes rooms2 rest2 h
    simp [createRooms] at h
    obtain ⟨rfl, rfl, rfl⟩ := h
    simp
  | succ n ih =>
    intro rooms draws codes rooms2 rest2 h
    simp only [createRooms] at h
    cases hc : createRoom rooms draws with
    | none => simp [hc] at h
    | some r =>
      obtain ⟨code, rooms1, rest⟩ := r
      simp only [hc] at h
      cases hm : createRooms n rooms1 rest with
      | none => simp [hm] at h
      | some r2 =>
        obtain ⟨codes1, rooms3, rest3⟩ := r2
        simp [hm] at h
        obtain ⟨rfl, rfl, rfl⟩ := h
        obtain ⟨hfresh, _, _, _⟩ := createRoom_spec rooms draws code rooms1 rest hc
        obtain ⟨hk1, hk2, hk3⟩ := createRoom_keeps rooms draws code rooms1 rest hc
        obtain ⟨hl, hnd, hall, hmono⟩ := ih rooms1 rest codes1 rooms3 rest3 hm
        have hnot : code ∉ codes1 := by
          intro hin
          have := (hall code hin).1
          rw [hk1] at this
          cases this
        refine ⟨by simp [hl], List.nodup_cons.mpr ⟨hnot, hnd⟩, ?_, ?_⟩
        · intro c hcm
          rcases List.mem_cons.mp hcm with rfl | hin
          · exact ⟨hfresh, by rw [hmono _ _ hk1]; rfl⟩
          · have hne : c ≠ code := by
              rintro rfl
              exact hnot hin
            exact ⟨by rw [← hk3 c hne]; exact (hall c hin).1, (hall c hin).2⟩
        · intro k r hk
          exact hmono k r (hk2 k r hk)

/-- C8: whenever `createRoom` returns, on any registry and any draws, the code
is a string of 4 characters of the alphabet ABCDEFGHJKMNPQRSTUVWXYZ, it was
not a key of the registry before the call, it resolves to a (new) room right
after the call, and every room present before is still present and unchanged;
hence the codes returned by any `n` consecutive calls are pairwise distinct,
all new, and all resolve in the final registry. -/
theorem C8_createRoom_fresh (rooms : Dict Room) (draws : List (Fin 23)) (code : String)
    (rooms1 : Dict Room) (rest : List (Fin 23))
    (h : createRoom rooms draws = some (code, rooms1, rest)) :
    code.length = 4 ∧
    (∀ c ∈ code.data, c ∈ "ABCDEFGHJKMNPQRSTUVWXYZ".data) ∧
    rooms.get code = none ∧
    rooms1.get code = some Room.fresh ∧
    (∀ timers, lookupRoom { rooms := rooms1, timers := timers } code = some Room.fresh) ∧
    (∀ k r, rooms.get k = some r → rooms1.get k = some r) ∧
    (∀ (n : Nat) (codes : List String) (rooms2 : Dict Room) (rest2 : List (Fin 23)),
      createRooms n rooms draws = some (codes, rooms2, rest2) →
      codes.length = n ∧ codes.Nodup ∧
      ∀ c ∈ codes, rooms.get c = none ∧ (rooms2.get c).isSome = true) := by
  obtain ⟨h1, h2, h3, _⟩ := createRoom_spec rooms draws code rooms1 rest h
  obtain ⟨hk1, hk2, _⟩ := createRoom_keeps rooms draws code rooms1 rest h
  have hne : code ≠ "" := by
    rintro rfl
    simp at h2
  refine ⟨h2, h3, h1, hk1, ?_, hk2, ?_⟩
  · intro timers
    rw [lookupRoom_eq_get _ code hne]
    exact hk1
  · intro n codes rooms2 rest2 hn
    obtain ⟨a, b, c, _⟩ := createRooms_spec n rooms draws codes rooms2 rest2 hn
    exact ⟨a, b, c⟩

/-- C8 on the empty registry with twelve draws: the first call returns `AAAA`;
of three calls the second draws `AAAA` again, retries and returns `AAAB`, and
the third returns `BBBB`. -/
theorem C8_createRoom_fresh_witness :
    createRoom [] [0, 0, 0, 0, 0, 0, 0, 0, 0, 0, 0, 1, 1, 1, 1, 1]
      = some ("AAAA", [("AAAA", Room.fresh)], [0, 0, 0, 0, 0, 0, 0, 1, 1, 1, 1, 1]) ∧
    createRooms 3 [] [0, 0, 0, 0, 0, 0, 0, 0, 0, 0, 0, 1, 1, 1, 1, 1]
      = some (["AAAA", "AAAB", "BBBB"],
          [("AAAA", Room.fresh), ("AAAB", Room.fresh), ("BBBB", Room.fresh)], []) ∧
    ("AAAA".length = 4 ∧ ["AAAA", "AAAB", "BBBB"].length = 3 ∧
      ["AAAA", "AAAB", "BBBB"].Nodup) :=
  ⟨by decide, by decide,
   (C8_createRoom_fresh [] [0, 0, 0, 0, 0, 0, 0, 0, 0, 0, 0, 1, 1, 1, 1, 1] "AAAA"
      [("AAAA", Room.fresh)] [0, 0, 0, 0, 0, 0, 0, 1, 1, 1, 1, 1] (by decide)).1,
   ((C8_createRoom_fresh [] [0, 0, 0, 0, 0, 0, 0, 0, 0, 0, 0, 1, 1, 1, 1, 1] "AAAA"
      [("AAAA", Room.fresh)] [0, 0, 0, 0, 0, 0, 0, 1, 1, 1, 1, 1] (by decide)).2.2.2.2.2.2
      3 ["AAAA", "AAAB", "BBBB"]
      [("AAAA", Room.fresh), ("AAAB", Room.fresh), ("BBBB", Room.fresh)] [] (by decide)).1,
   ((C8_createRoom_fresh [] [0, 0, 0, 0, 0, 0, 0, 0, 0, 0, 0, 1, 1, 1, 1, 1] "AAAA"
      [("AAAA", Room.fresh)] [0, 0, 0, 0, 0, 0, 0, 1, 1, 1, 1, 1] (by decide)).2.2.2.2.2.2
      3 ["AAAA", "AAAB", "BBBB"]
      [("AAAA", Room.fresh), ("AAAB", Room.fresh), ("BBBB", Room.fresh)] [] (by decide)).2.1⟩

/-! ## Submitting an answer (C9) -/

/-- Outside an active round `submitAnswer` leaves the state as it is and
signals `answerRejected` to the caller only. -/
theorem submitAnswer_rejected (sid code : String) (answer : JSVal) (s : State) (room : Room)
    (hc : code ≠ "") (hr : s.rooms.get code = some room) (ha : room.roundActive = false) :
    submitAnswer sid code answer s
      = { state := s, emits := [⟨.caller sid, .answerRejected⟩], fault := false } :=
  submitAnswer_inactive sid code answer s room (by rw [lookupRoom_eq_get s code hc, hr]) ha

/-- In an active round, for a caller that has an entry in `room.players`,
`submitAnswer` records the answer under the caller, changes nothing else and
broadcasts `playerAnsweredLive` with the caller's id and name only. -/
theorem submitAnswer_of_player (sid code : String) (answer : JSVal) (s : State) (room : Room)
    (p : Player) (hc : code ≠ "") (hr : s.rooms.get code = some room)
    (ha : room.roundActive = true) (hp : room.players.get sid = some p) :
    submitAnswer sid code answer s =
      { state := { s with
          rooms := s.rooms.set code { room with answers := room.answers.set sid answer } },
        emits := [⟨.room code, .playerAnsweredLive sid p.name⟩],
        fault := false } := by
  have hl : lookupRoom s code = some room := by rw [lookupRoom_eq_get s code hc, hr]
  simp [submitAnswer, hl, ha, hp]

/-- C9 fails for a caller without an entry in `room.players`: in `demoState`
the host `H` of the active room `ABCD` is not a player; its `submitAnswer` is
recorded in the answers, after which the handler throws on
`room.players[socket.id].name` and emits nothing, so no `playerAnsweredLive` is
broadcast. -/
theorem C9_submitAnswer_by_non_player :
    (demoState.rooms.get "ABCD").map Room.roundActive = some true ∧
    (demoState.rooms.get "ABCD").map (fun r => r.players.get "H") = some none ∧
    (submitAnswer "H" "ABCD" (.num (.fin 0)) demoState).fault = true ∧
    (submitAnswer "H" "ABCD" (.num (.fin 0)) demoState).emits = [] ∧
    ((submitAnswer "H" "ABCD" (.num (.fin 0)) demoState).state.rooms.get "ABCD").map Room.answers
      = some [("A", .num (.fin 1)), ("H", .num (.fin 0))] := by
  decide

/-! ## Unknown room codes (C10) -/

theorem lookupRoom_none_of_get (s : State) (code : String) (h : s.rooms.get code = none) :
    lookupRoom s code = none := by
  unfold lookupRoom
  split
  · rfl
  · exact h

theorem inherited_eq_false (s : State) (code : String) (h : code ∉ inheritedNames) :
    inherited s code = false := by
  simp [inherited, h]

/-- When the code is not a key of the registry and is not the name of an
inherited member, each of hostJoin, playerJoin, startQuiz, submitAnswer,
nextQuestion, showLeaderboard and hostSetPrefs leaves the whole state
unchanged, completes without a fault and broadcasts nothing to any room;
hostJoin emits `errorRoom` and playerJoin emits `joinRejected`, to the caller
only, and the other five emit nothing. -/
theorem unknown_code_rejected (qs : Catalog) (s : State) (sid code : String)
    (name avatar answer timer autoLb : JSVal) (h : s.rooms.get code = none)
    (hi : code ∉ inheritedNames) :
    hostJoin sid code s
      = { state := s, emits := [⟨.caller sid, .errorRoom⟩], fault := false } ∧
    playerJoin sid code name avatar s
      = { state := s, emits := [⟨.caller sid, .joinRejected⟩], fault := false } ∧
    startQuiz qs sid code s = { state := s, emits := [], fault := false } ∧
    submitAnswer sid code answer s = { state := s, emits := [], fault := false } ∧
    nextQuestion qs sid code s = { state := s, emits := [], fault := false } ∧
    showLeaderboard sid code s = { state := s, emits := [], fault := false } ∧
    hostSetPrefs sid code timer autoLb s = { state := s, emits := [], fault := false } := by
  have hl := lookupRoom_none_of_get s code h
  have hn := inherited_eq_false s code hi
  simp [hostJoin, playerJoin, startQuiz, submitAnswer, nextQuestion, showLeaderboard,
    hostSetPrefs, hl, hn, Step.skip]

/-- The rejection at `demoState`, whose only room is `ABCD`, with the code
`ZZZZ`. -/
theorem unknown_code_rejected_example :
    demoState.rooms.get "ZZZZ" = none ∧
    hostJoin "X" "ZZZZ" demoState
      = { state := demoState, emits := [⟨.caller "X", .errorRoom⟩], fault := false } ∧
    playerJoin "X" "ZZZZ" (.str (utf16 "Xi")) .null demoState
      = { state := demoState, emits := [⟨.caller "X", .joinRejected⟩], fault := false } ∧
    startQuiz demoCatalog "X" "ZZZZ" demoState
      = { state := demoState, emits := [], fault := false } ∧
    submitAnswer "X" "ZZZZ" (.num (.fin 1)) demoState
      = { state := demoState, emits := [], fault := false } ∧
    nextQuestion demoCatalog "X" "ZZZZ" demoState
      = { state := demoState, emits := [], fault := false } ∧
    showLeaderboard "X" "ZZZZ" demoState
      = { state := demoState, emits := [], fault := false } ∧
    hostSetPrefs "X" "ZZZZ" (.num (.fin 9)) (.bool true) demoState
      = { state := demoState, emits := [], fault := false } :=
  ⟨by decide,
   unknown_code_rejected demoCatalog demoState "X" "ZZZZ" (.str (utf16 "Xi")) .null (.num (.fin 1))
     (.num (.fin 9)) (.bool true) (by decide) (by decide)⟩

/-- A step is marked `escaped` only when it is a `hostJoin` with a code that
names an inherited member, and it leaves the state as it was. -/
theorem escaped_step (qs : Catalog) (s : State) (a : Action) (st : Step)
    (hp : perform qs a s = some st) (he : st.escaped = true) :
    st.state = s ∧ ∃ sid code, a = .hostJoin sid code ∧ inherited s code = true := by
  cases a with
  | createRoom sid draws =>
    simp only [perform, onCreateRoom] at hp
    cases hc : createRoom s.rooms draws with
    | none => simp [hc] at hp
    | some r =>
      obtain ⟨c, rooms, rest⟩ := r
      simp [hc] at hp
      subst hp
      cases he
  | hostJoin sid c =>
    simp only [perform, Option.some.injEq] at hp
    subst hp
    unfold hostJoin at he ⊢
    cases hl : lookupRoom s c with
    | none =>
      simp only [hl] at he ⊢
      split at he
      · rename_i hi
        rw [if_pos hi]
        exact ⟨rfl, sid, c, rfl, hi⟩
      · cases he
    | some room0 => simp [hl] at he
  | playerJoin sid c name avatar =>
    simp only [perform, Option.some.injEq] at hp
    subst hp
    unfold playerJoin at he
    cases hl : lookupRoom s c with
    | none =>
      simp only [hl] at he
      split at he <;> cases he
    | some room0 => simp [hl] at he
  | startQuiz sid c =>
    simp only [perform, Option.some.injEq] at hp
    subst hp
    unfold startQuiz at he
    cases hl : lookupRoom s c with
    | none => simp [hl, Step.skip] at he
    | some room0 =>
      by_cases hh : room0.hostId = some sid <;> simp [hl, hh, Step.skip] at he
  | submitAnswer sid c answer =>
    simp only [perform, Option.some.injEq] at hp
    subst hp
    unfold submitAnswer at he
    cases hl : lookupRoom s c with
    | none =>
      simp only [hl] at he
      split at he <;> cases he
    | some room0 =>
      simp only [hl] at he
      split at he
      · cases he
      · split at he <;> cases he
  | nextQuestion sid c =>
    simp only [perform, Option.some.injEq] at hp
    subst hp
    unfold nextQuestion at he
    cases hl : lookupRoom s c with
    | none =>
      simp only [hl] at he
      split at he <;> cases he
    | some room0 =>
      simp only [hl] at he
      split at he <;> cases he
  | showLeaderboard sid c =>
    simp only [perform, Option.some.injEq] at hp
    subst hp
    unfold showLeaderboard at he
    cases hl : lookupRoom s c with
    | none =>
      simp only [hl] at he
      split at he <;> cases he
    | some room0 => simp [hl] at he
  | hostSetPrefs sid c timer autoLb =>
    simp only [perform, Option.some.injEq] at hp
    subst hp
    unfold hostSetPrefs at he
    cases hl : lookupRoom s c with
    | none => simp [hl, Step.skip] at he
    | some room0 =>
      by_cases hh : room0.hostId = some sid <;> simp [hl, hh, Step.skip] at he
  | disconnect sid =>
    simp only [perform, Option.some.injEq] at hp
    subst hp
    simp [disconnect] at he
  | timer c =>
    simp only [perform, timerFire] at hp
    by_cases ht : c ∈ s.timers
    · simp only [ht, if_true, Option.some.injEq] at hp
      subst hp
      unfold advance at he
      cases hl : s.rooms.get c with
      | none => simp [hl, Step.skip] at he
      | some room0 =>
        simp only [hl] at he
        split at he <;> cases he
    · simp [ht] at hp

/-- Following the steps that are marked `escaped` as well reaches no further
state. -/
theorem reachable_of_step (qs : Catalog) (s : State) (a : Action) (st : Step)
    (hs : Reachable qs s) (hp : perform qs a s = some st) : Reachable qs st.state := by
  cases he : st.escaped with
  | false => exact Reachable.step hs hp he
  | true => rw [(escaped_step qs s a st hp he).1]; exact hs

/-- C10 fails for a code that names a member the registry object inherits.  On
a process that has just started no room exists, so `constructor` does not
resolve to a room; yet `hostJoin` with that code is accepted (`hostAccepted`
to the caller and a `state` broadcast to the room `constructor`, after a write
to the object found), `playerJoin`, `nextQuestion` and `showLeaderboard` stop
with a `TypeError` (`nextQuestion` after it has broadcast `answerResults`),
and `submitAnswer` answers `answerRejected`.  Only `startQuiz` and
`hostSetPrefs` return as the claim says. -/
theorem C10_inherited_code :
    State.init.rooms.get "constructor" = none ∧
    hostJoin "X" "constructor" State.init
      = { state := State.init,
          emits := [⟨.caller "X", .hostAccepted "constructor"⟩,
                    ⟨.room "constructor", .stateOther⟩],
          fault := false, escaped := true } ∧
    playerJoin "X" "constructor" (.str (utf16 "Xi")) .null State.init
      = { state := State.init, emits := [], fault := true } ∧
    submitAnswer "X" "constructor" (.num (.fin 1)) State.init
      = { state := State.init, emits := [⟨.caller "X", .answerRejected⟩], fault := false } ∧
    nextQuestion demoCatalog "X" "constructor" State.init
      = { state := State.init, emits := [⟨.room "constructor", .answerResults []⟩],
          fault := true } ∧
    showLeaderboard "X" "constructor" State.init
      = { state := State.init, emits := [], fault := true } ∧
    startQuiz demoCatalog "X" "constructor" State.init
      = { state := State.init, emits := [], fault := false } ∧
    hostSetPrefs "X" "constructor" (.num (.fin 9)) (.bool true) State.init
      = { state := State.init, emits := [], fault := false } := by
  decide

/-! ## The effect of a step on one room -/

/-- Reading the registry after one room was written, with the room read known
to be the room written when the codes agree. -/
theorem Dict.get_set_at {d : Dict Room} {k code : String} {room room0 room2 : Room}
    (hr : d.get code = some room) (h0 : d.get k = some room0) (P : Room → Prop)
    (hsame : P room) (hP : code = k → room0 = room → P room2) :
    ∃ room1, (d.set k room2).get code = some room1 ∧ P room1 := by
  refine Dict.get_set_rel hr P hsame ?_
  rintro rfl
  rw [hr] at h0
  exact hP rfl (Option.some.inj h0).symm

/-- What `startQuiz` issued by the host of the room does, whatever the state
of the room: index 0, an active round, no answers, the events `roundStarted`
and `state`, and, unless the catalog is empty, `questionShown` and one more
pending timer. -/
theorem startQuiz_of_host (qs : Catalog) (sid code : String) (s : State) (room : Room)
    (hl : lookupRoom s code = some room) (hh : room.hostId = some sid) :
    startQuiz qs sid code s =
      { state :=
          { rooms := s.rooms.set code
              { room with currentQuestionIndex := 0, roundActive := true, answers := [] },
            timers := if qs.length = 0 then s.timers else s.timers ++ [code] },
        emits :=
          [⟨.room code, .roundStarted 0⟩,
           ⟨.room code, .state
              { room with currentQuestionIndex := 0, roundActive := true, answers := [] }⟩] ++
          (if qs.length = 0 then []
           else [⟨.room code, .questionShown 0 (qs.at 0) room.autoQuestionTimer⟩]),
        fault := false } := by
  simp only [startQuiz, hl, scheduleQuestionFlow, Dict.get_set_self]
  rw [if_neg (not_not.mpr hh)]
  by_cases hq : qs.length = 0 <;> simp [hq]

/-- Every step rewrites a room already present as described by `RoomStep`. -/
theorem step_room (qs : Catalog) (s : State) (a : Action) (st : Step) (code : String)
    (room : Room) (hp : perform qs a s = some st) (hr : s.rooms.get code = some room) :
    ∃ room1, st.state.rooms.get code = some room1 ∧ RoomStep qs a code room room1 := by
  cases a with
  | createRoom sid draws =>
    simp only [perform] at hp
    cases hc : onCreateRoom sid draws s with
    | none => simp [hc] at hp
    | some r =>
      obtain ⟨st1, rest⟩ := r
      simp [hc] at hp
      subst hp
      obtain ⟨c, h1, _, _, h4, _⟩ := onCreateRoom_spec sid draws s st1 rest hc
      rw [h4]
      refine Dict.get_set_rel hr _ RoomStep.same ?_
      rintro rfl
      rw [h1] at hr
      cases hr
  | hostJoin sid c =>
    simp only [perform, Option.some.injEq] at hp
    subst hp
    unfold hostJoin
    cases hl : lookupRoom s c with
    | none => simp only []; split <;> exact ⟨room, hr, RoomStep.same⟩
    | some room0 =>
      refine Dict.get_set_at hr (lookupRoom_some s c room0 hl).2 _ RoomStep.same ?_
      rintro rfl rfl
      exact RoomStep.hostJoin sid rfl
  | playerJoin sid c name avatar =>
    simp only [perform, Option.some.injEq] at hp
    subst hp
    unfold playerJoin
    cases hl : lookupRoom s c with
    | none => simp only []; split <;> exact ⟨room, hr, RoomStep.same⟩
    | some room0 =>
      refine Dict.get_set_at hr (lookupRoom_some s c room0 hl).2 _ RoomStep.same ?_
      rintro rfl rfl
      exact RoomStep.playerJoin sid name avatar rfl
  | startQuiz sid c =>
    simp only [perform, Option.some.injEq] at hp
    subst hp
    cases hl : lookupRoom s c with
    | none =>
      simp only [startQuiz, hl]
      exact ⟨room, hr, RoomStep.same⟩
    | some room0 =>
      by_cases hh : room0.hostId = some sid
      · rw [startQuiz_of_host qs sid c s room0 hl hh]
        refine Dict.get_set_at hr (lookupRoom_some s c room0 hl).2 _ RoomStep.same ?_
        rintro rfl rfl
        exact RoomStep.startQuiz sid rfl hh
      · simp only [startQuiz, hl, ne_eq, hh, not_false_eq_true, if_true]
        exact ⟨room, hr, RoomStep.same⟩
  | submitAnswer sid c answer =>
    simp only [perform, Option.some.injEq] at hp
    subst hp
    cases hl : lookupRoom s c with
    | none =>
      simp only [submitAnswer, hl]
      split <;> exact ⟨room, hr, RoomStep.same⟩
    | some room0 =>
      by_cases ha : room0.roundActive = true
      · rw [(submitAnswer_rooms sid c answer s room0 hl ha).1]
        refine Dict.get_set_at hr (lookupRoom_some s c room0 hl).2 _ RoomStep.same ?_
        rintro rfl rfl
        exact RoomStep.submitAnswer sid answer rfl ha
      · rw [submitAnswer_inactive sid c answer s room0 hl (by simpa using ha)]
        exact ⟨room, hr, RoomStep.same⟩
  | nextQuestion sid c =>
    simp only [perform, Option.some.injEq] at hp
    subst hp
    cases hl : lookupRoom s c with
    | none =>
      simp only [nextQuestion, hl]
      split <;> exact ⟨room, hr, RoomStep.same⟩
    | some room0 =>
      rw [(nextQuestion_rooms qs sid c s room0 hl).1]
      refine Dict.get_set_at hr (lookupRoom_some s c room0 hl).2 _ RoomStep.same ?_
      rintro rfl rfl
      exact RoomStep.advance (Or.inl ⟨sid, rfl⟩)
  | showLeaderboard sid c =>
    simp only [perform, Option.some.injEq] at hp
    subst hp
    unfold showLeaderboard
    cases hl : lookupRoom s c with
    | none => simp only []; split <;> exact ⟨room, hr, RoomStep.same⟩
    | some room0 => exact ⟨room, hr, RoomStep.same⟩
  | hostSetPrefs sid c timer autoLb =>
    simp only [perform, Option.some.injEq] at hp
    subst hp
    unfold hostSetPrefs
    cases hl : lookupRoom s c with
    | none => exact ⟨room, hr, RoomStep.same⟩
    | some room0 =>
      by_cases hh : room0.hostId = some sid
      · simp only [hh, ne_eq, not_true_eq_false, if_false]
        refine Dict.get_set_at hr (lookupRoom_some s c room0 hl).2 _ RoomStep.same ?_
        rintro rfl rfl
        exact RoomStep.prefs sid timer autoLb rfl hh
      · simp only [ne_eq, hh, not_false_eq_true, if_true]
        exact ⟨room, hr, RoomStep.same⟩
  | disconnect sid =>
    simp only [perform, Option.some.injEq] at hp
    subst hp
    refine ⟨(disconnectRoom sid code room).1, ?_, RoomStep.disconnect sid rfl⟩
    simp only [disconnect]
    rw [Dict.get_map_snd s.rooms (fun c r => (disconnectRoom sid c r).1) code, hr]
    rfl
  | timer c =>
    simp only [perform, timerFire] at hp
    by_cases ht : c ∈ s.timers
    · simp only [ht, if_true, Option.some.injEq] at hp
      subst hp
      cases hl : s.rooms.get c with
      | none =>
        simp only [advance, hl]
        exact ⟨room, hr, RoomStep.same⟩
      | some room0 =>
        rw [(advance_rooms qs c { s with timers := s.timers.erase c } room0 hl).1]
        refine Dict.get_set_at hr hl _ RoomStep.same ?_
        rintro rfl rfl
        exact RoomStep.advance (Or.inr rfl)
    · simp [ht] at hp

/-- A property of rooms that holds of the room `createRoom` makes and is kept
by every rewriting of a room holds of every room of every reachable state. -/
theorem reachable_rooms_inv (qs : Catalog) (P : Room → Prop)
    (hfresh : ∀ sid, P { Room.fresh with hostId := some sid })
    (hstep : ∀ a code room room1, P room → RoomStep qs a code room room1 → P room1)
    (s : State) (hs : Reachable qs s) :
    ∀ (code : String) (room : Room), s.rooms.get code = some room → P room := by
  induction hs with
  | init => intro code room h; simp [State.init, Dict.get] at h
  | @step s0 a st _ hp _ ih =>
    intro code room1 h1
    cases h0 : s0.rooms.get code with
    | none =>
      obtain ⟨sid, rfl⟩ := step_new_room qs s0 a st code room1 hp h0 h1
      exact hfresh sid
    | some room0 =>
      obtain ⟨r, hr, hm⟩ := step_room qs s0 a st code room0 hp h0
      rw [h1] at hr
      cases hr
      exact hstep a code room0 _ (ih code room0 h0) hm

/-! ## Faults (C11) -/

/-- A handler stops with an uncaught `TypeError` in two situations only:
`submitAnswer` when the round is active and the caller has no entry in
`room.players`; and `playerJoin`, `nextQuestion` or `showLeaderboard` with a
code that names an inherited member of the registry object. -/
theorem fault_cases (qs : Catalog) (s : State) (a : Action) (st : Step)
    (hp : perform qs a s = some st) (hf : st.fault = true) :
    (∃ sid code answer room, a = .submitAnswer sid code answer ∧
      lookupRoom s code = some room ∧ room.roundActive = true ∧
      room.players.get sid = none) ∨
    (∃ code, inherited s code = true ∧
      ((∃ sid name avatar, a = .playerJoin sid code name avatar) ∨
       (∃ sid, a = .nextQuestion sid code) ∨ (∃ sid, a = .showLeaderboard sid code))) := by
  cases a with
  | createRoom sid draws =>
    simp only [perform] at hp
    cases hc : onCreateRoom sid draws s with
    | none => simp [hc] at hp
    | some r =>
      obtain ⟨st1, rest⟩ := r
      simp [hc] at hp
      subst hp
      obtain ⟨c, _, _, _, _, _, h6, _⟩ := onCreateRoom_spec sid draws s st1 rest hc
      rw [h6] at hf
      cases hf
  | hostJoin sid c =>
    simp only [perform, Option.some.injEq] at hp
    subst hp
    unfold hostJoin at hf
    cases hl : lookupRoom s c with
    | none =>
      simp only [hl] at hf
      split at hf <;> cases hf
    | some room0 => simp [hl] at hf
  | playerJoin sid c name avatar =>
    simp only [perform, Option.some.injEq] at hp
    subst hp
    unfold playerJoin at hf
    cases hl : lookupRoom s c with
    | none =>
      simp only [hl] at hf
      split at hf
      · rename_i hi
        exact Or.inr ⟨c, hi, Or.inl ⟨sid, name, avatar, rfl⟩⟩
      · cases hf
    | some room0 => simp [hl] at hf
  | startQuiz sid c =>
    simp only [perform, Option.some.injEq] at hp
    subst hp
    unfold startQuiz at hf
    cases hl : lookupRoom s c with
    | none => simp [hl, Step.skip] at hf
    | some room0 =>
      by_cases hh : room0.hostId = some sid <;> simp [hl, hh, Step.skip] at hf
  | submitAnswer sid c answer =>
    simp only [perform, Option.some.injEq] at hp
    subst hp
    cases hl : lookupRoom s c with
    | none =>
      simp only [submitAnswer, hl] at hf
      split at hf <;> cases hf
    | some room0 =>
      by_cases ha : room0.roundActive = true
      · cases hg : room0.players.get sid with
        | none => exact Or.inl ⟨sid, c, answer, room0, rfl, hl, ha, hg⟩
        | some p => simp [submitAnswer, hl, ha, hg] at hf
      · rw [submitAnswer_inactive sid c answer s room0 hl (by simpa using ha)] at hf
        cases hf
  | nextQuestion sid c =>
    simp only [perform, Option.some.injEq] at hp
    subst hp
    cases hl : lookupRoom s c with
    | none =>
      simp only [nextQuestion, hl] at hf
      split at hf
      · rename_i hi
        exact Or.inr ⟨c, hi, Or.inr (Or.inl ⟨sid, rfl⟩)⟩
      · cases hf
    | some room0 =>
      rw [(nextQuestion_rooms qs sid c s room0 hl).2.2] at hf
      cases hf
  | showLeaderboard sid c =>
    simp only [perform, Option.some.injEq] at hp
    subst hp
    unfold showLeaderboard at hf
    cases hl : lookupRoom s c with
    | none =>
      simp only [hl] at hf
      split at hf
      · rename_i hi
        exact Or.inr ⟨c, hi, Or.inr (Or.inr ⟨sid, rfl⟩)⟩
      · cases hf
    | some room0 => simp [hl] at hf
  | hostSetPrefs sid c timer autoLb =>
    simp only [perform, Option.some.injEq] at hp
    subst hp
    unfold hostSetPrefs at hf
    cases hl : lookupRoom s c with
    | none => simp [hl, Step.skip] at hf
    | some room0 =>
      by_cases hh : room0.hostId = some sid <;> simp [hl, hh, Step.skip] at hf
  | disconnect sid =>
    simp only [perform, Option.some.injEq] at hp
    subst hp
    simp [disconnect] at hf
  | timer c =>
    simp only [perform, timerFire] at hp
    by_cases ht : c ∈ s.timers
    · simp only [ht, if_true, Option.some.injEq] at hp
      subst hp
      cases hl : s.rooms.get c with
      | none => simp [advance, hl, Step.skip] at hf
      | some room0 =>
        rw [(advance_rooms qs c { s with timers := s.timers.erase c } room0 hl).2] at hf
        cases hf
    · simp [ht] at hp

/-- C11 fails: in the reachable state `scenarioStarted` (room `AAAA` created
by `H`, joined by `A`, started by `H`) the round is active and the host `H`
has no entry in the players; `submitAnswer` issued by `H` stops with an
uncaught `TypeError`. -/
theorem C11_submitAnswer_fault :
    Reachable demoCatalog scenarioStarted ∧
    (scenarioStarted.rooms.get "AAAA").map Room.roundActive = some true ∧
    (scenarioStarted.rooms.get "AAAA").map (fun r => r.players.get "H") = some none ∧
    (perform demoCatalog (.submitAnswer "H" "AAAA" (.num (.fin 0))) scenarioStarted).map
      Step.fault = some true :=
  ⟨reachable_run demoCatalog _ State.init Reachable.init, by decide, by decide, by decide⟩

/-! ## Joining as a player (C12) -/

theorem playerName_length (name : JSVal) : (playerName name).length ≤ 40 :=
  List.length_take_le 40 _

/-- The units of a string of the basic plane are its characters; a character
above it takes two units, so 40 units can end in the middle of a character. -/
theorem utf16_examples :
    utf16 "Amy" = [65, 109, 121] ∧
    utf16 "é" = [233] ∧
    (utf16 (String.mk [Char.ofNat 128512])).length = 2 ∧
    utf16 (String.mk [Char.ofNat 128512]) = [55357, 56832] ∧
    playerName (.str (utf16 (String.mk (List.replicate 41 (Char.ofNat 128512)))))
      = utf16 (String.mk (List.replicate 20 (Char.ofNat 128512))) ∧
    playerName (.str (List.replicate 39 97 ++ [55357, 56832]))
      = List.replicate 39 97 ++ [55357] := by
  decide

/-- The strings of numbers: whole numbers in full up to 21 digits, the
exponent form beyond, fractions by their shortest digits. -/
theorem numToString_examples :
    numToString (.fin 100) = utf16 "100" ∧
    numToString (.fin (5 / 2)) = utf16 "2.5" ∧
    numToString (.fin (-7)) = utf16 "-7" ∧
    numToString (.fin 1000000000000000000000) = utf16 "1e+21" ∧
    numToString (.fin 100000000000000000000) = utf16 "100000000000000000000" ∧
    numToString (roundDouble (1 / 10)) = utf16 "0.1" ∧
    numToString (.fin (1 / 8)) = utf16 "0.125" ∧
    numToString (.fin (1 / 1048576)) = utf16 "9.5367431640625e-7" ∧
    numToString .nan = utf16 "NaN" ∧
    numToString (.inf true) = utf16 "-Infinity" := by
  decide!

/-- C12: on an existing room `playerJoin` completes and stores under the
caller a Player with score 0, the given avatar (null when it is unset or
falsy) and a name of at most 40 characters (UTF-16 code units, which is what
the length of a JavaScript string counts): the default `Player` when the given
name is blank (unset or empty, that is falsy), otherwise the first 40 units of
the given name (of `String(name)` when it is not a string), which are a prefix
of it.  A Player stored under the caller before is overwritten; every other
player and every other field of the room is unchanged. -/
theorem C12_playerJoin (s : State) (sid code : String) (name avatar : JSVal) (room : Room)
    (hc : code ≠ "") (hr : s.rooms.get code = some room) :
    (playerJoin sid code name avatar s).fault = false ∧
    (playerJoin sid code name avatar s).state.timers = s.timers ∧
    ∃ room1 p, (playerJoin sid code name avatar s).state.rooms.get code = some room1 ∧
      room1.players.get sid = some p ∧
      p.id = sid ∧ p.score = 0 ∧
      (avatar.truthy = true → p.avatar = avatar) ∧
      (avatar.truthy = false → p.avatar = .null) ∧
      p.name.length ≤ 40 ∧
      (name.truthy = false → p.name = utf16 "Player") ∧
      (name.truthy = true →
        p.name = (toJSString name).take 40 ∧ p.name <+: toJSString name) ∧
      (∀ str, name = .str str → str ≠ [] → p.name = str.take 40 ∧ p.name <+: str) ∧
      (∀ str, name = .str str → str ≠ [] → str.length ≤ 40 → p.name = str) ∧
      (∀ k, k ≠ sid → room1.players.get k = room.players.get k) ∧
      room1 = { room with players := room1.players } := by
  have hl : lookupRoom s code = some room := by rw [lookupRoom_eq_get s code hc, hr]
  refine ⟨by simp [playerJoin, hl], by simp [playerJoin, hl],
    { room with players := room.players.set sid ⟨sid, playerName name, orNull avatar, 0⟩ },
    Player.mk sid (playerName name) (orNull avatar) 0, ?_, ?_, rfl, rfl, ?_, ?_,
    playerName_length name, ?_, ?_, ?_, ?_, ?_, rfl⟩
  · simp only [playerJoin, hl]
    exact Dict.get_set_self _ _ _
  · exact Dict.get_set_self _ _ _
  · intro h; simp [orNull, h]
  · intro h; simp [orNull, h]
  · intro h
    show playerName name = utf16 "Player"
    simp only [playerName, h, Bool.false_eq_true, if_false]
    decide
  · intro h
    have e : playerName name = (toJSString name).take 40 := by simp [playerName, h]
    exact ⟨e, by rw [e]; exact List.take_prefix _ _⟩
  · rintro str rfl hne
    have ht : (JSVal.str str).truthy = true := by simp [JSVal.truthy, hne]
    have e : playerName (.str str) = str.take 40 := by simp [playerName, ht, toJSString]
    exact ⟨e, by rw [e]; exact List.take_prefix _ _⟩
  · rintro str rfl hne hlen
    have ht : (JSVal.str str).truthy = true := by simp [JSVal.truthy, hne]
    show playerName (.str str) = str
    simp only [playerName, ht, if_true, toJSString]
    exact List.take_of_length_le hlen
  · intro k hk
    exact Dict.get_set_other _ _ _ _ hk

/-- C12 at `demoState`: a name of 39 letters followed by a character that
takes two units is cut to 40 units, the last of which is the first half of
that character. -/
theorem C12_playerJoin_witness :
    "ABCD" ≠ "" ∧
    demoState.rooms.get "ABCD" = some { oneAnswerRoom with hostId := some "H" } ∧
    ((playerJoin "B" "ABCD" (.str (List.replicate 39 97 ++ [55357, 56832])) .undefined
        demoState).state.rooms.get "ABCD").map (fun r => r.players.get "B")
      = some (some { id := "B", name := List.replicate 39 97 ++ [55357],
                     avatar := .null, score := 0 }) ∧
    (playerJoin "B" "ABCD" (.str (List.replicate 39 97 ++ [55357, 56832])) .undefined
        demoState).fault = false :=
  ⟨by decide, by decide, by decide!,
   (C12_playerJoin demoState "B" "ABCD" (.str (List.replicate 39 97 ++ [55357, 56832]))
      .undefined { oneAnswerRoom with hostId := some "H" } (by decide) (by decide)).1⟩

/-! ## Host preferences (C13) -/

/-- A value whose `Number` is positive is truthy, so the test `timer &&` of
`hostSetPrefs` never decides. -/
theorem truthy_of_isPos (t : JSVal) (h : (Number t).isPos = true) : t.truthy = true := by
  cases t with
  | undefined => simp [Number, JSNum.isPos] at h
  | null => simp [Number, JSNum.isPos] at h
  | bool b => cases b <;> simp [Number, JSNum.isPos, JSVal.truthy] at h ⊢
  | num n =>
    cases n with
    | nan => simp [Number, JSNum.isPos] at h
    | inf b => rfl
    | fin v =>
      simp [Number, JSNum.isPos] at h
      simp [JSVal.truthy, JSNum.truthy]
      exact ne_of_gt h
  | str str =>
    by_cases he : str = []
    · subst he
      revert h
      decide
    · simp [JSVal.truthy, he]

theorem applyPrefs_timer (timer autoLb : JSVal) (room : Room) :
    ((Number timer).isPos = true →
      (applyPrefs timer autoLb room).autoQuestionTimer = Number timer) ∧
    ((Number timer).isPos = false →
      (applyPrefs timer autoLb room).autoQuestionTimer = room.autoQuestionTimer) := by
  refine ⟨?_, ?_⟩
  · intro hp
    have ht := truthy_of_isPos timer hp
    unfold applyPrefs
    cases autoLb <;> simp [ht, hp]
  · intro hp
    unfold applyPrefs
    cases autoLb <;> simp [hp]

theorem applyPrefs_leaderboard (timer autoLb : JSVal) (room : Room) :
    (∀ b, autoLb = .bool b → (applyPrefs timer autoLb room).autoLeaderboard = b) ∧
    ((∀ b, autoLb ≠ .bool b) →
      (applyPrefs timer autoLb room).autoLeaderboard = room.autoLeaderboard) := by
  refine ⟨?_, ?_⟩
  · rintro b rfl
    simp [applyPrefs]
  · intro hb
    unfold applyPrefs
    cases autoLb with
    | bool b => exact absurd rfl (hb b)
    | undefined => simp only []; split <;> rfl
    | null => simp only []; split <;> rfl
    | num n => simp only []; split <;> rfl
    | str x => simp only []; split <;> rfl

theorem applyPrefs_timer_pos (timer autoLb : JSVal) (room : Room)
    (h : room.autoQuestionTimer.isPos = true) :
    (applyPrefs timer autoLb room).autoQuestionTimer.isPos = true := by
  obtain ⟨h1, h2⟩ := applyPrefs_timer timer autoLb room
  cases hn : (Number timer).isPos with
  | true => rw [h1 hn]; exact hn
  | false => rw [h2 hn]; exact h

/-- An advance touches the players (through `evaluateAnswers`), the answers,
the index and `roundActive` only; it can end a round but not start one. -/
theorem advanced_fields (qs : Catalog) (room : Room) :
    (advanced qs room).hostId = room.hostId ∧
    (advanced qs room).autoLeaderboard = room.autoLeaderboard ∧
    (advanced qs room).autoQuestionTimer = room.autoQuestionTimer ∧
    (advanced qs room).players = (evaluateRoom qs room).1.players ∧
    (advanced qs room).roundActive
      = (room.roundActive && decide (room.currentQuestionIndex < (qs.length : Int) - 1)) := by
  obtain ⟨h1, h2, h3, h4, h5⟩ := evaluateRoom_index qs room
  unfold advanced
  by_cases h : (evaluateRoom qs room).1.currentQuestionIndex < (qs.length : Int) - 1
  · simp only [h, if_true]
    rw [h1] at h
    simp [h, h2, h3, h4, h5]
  · simp only [h, if_false]
    rw [h1] at h
    simp [h, h3, h4, h5]

/-- In every reachable state the timer preference of every room is positive. -/
theorem reachable_timer_pos (qs : Catalog) (s : State) (hs : Reachable qs s) (code : String)
    (room : Room) (hr : s.rooms.get code = some room) : room.autoQuestionTimer.isPos = true := by
  refine reachable_rooms_inv qs (fun r => r.autoQuestionTimer.isPos = true) ?_ ?_ s hs code room hr
  · intro sid
    show (5 : JSNum).isPos = true
    decide!
  · intro a c r r1 hP hstep
    cases hstep with
    | same => exact hP
    | hostJoin sid _ => exact hP
    | playerJoin sid name avatar _ => exact hP
    | startQuiz sid _ _ => exact hP
    | submitAnswer sid answer _ _ => exact hP
    | advance _ =>
      rw [(advanced_fields qs r).2.2.1]
      exact hP
    | prefs sid timer autoLb _ _ => exact applyPrefs_timer_pos timer autoLb r hP
    | disconnect sid _ => rw [disconnectRoom_eq]; exact hP

/-- What `Number` makes of a timer given as a string: decimal literals with a
fraction or an exponent, radix prefixes and `Infinity` are numbers; a string
that is no numeric literal is `NaN`. -/
theorem strToNumber_examples :
    strToNumber (utf16 "7") = .fin 7 ∧
    strToNumber (utf16 "1.0") = .fin 1 ∧
    strToNumber (utf16 "1e1") = .fin 10 ∧
    strToNumber (utf16 "2e2") = .fin 200 ∧
    strToNumber (utf16 "-1e2") = .fin (-100) ∧
    strToNumber (utf16 "2.5") = .fin (5 / 2) ∧
    strToNumber (utf16 " .5 ") = .fin (1 / 2) ∧
    strToNumber (utf16 "0x10") = .fin 16 ∧
    strToNumber (utf16 "0b101") = .fin 5 ∧
    strToNumber (utf16 "") = .fin 0 ∧
    strToNumber (utf16 "Infinity") = .inf false ∧
    strToNumber (utf16 "-Infinity") = .inf true ∧
    strToNumber (utf16 "1e400") = .inf false ∧
    strToNumber (utf16 "9007199254740993") = .fin 9007199254740992 ∧
    strToNumber (utf16 "0.1") = .fin (3602879701896397 / 36028797018963968) ∧
    strToNumber (utf16 "12px") = .nan ∧
    strToNumber (utf16 "1e") = .nan ∧
    strToNumber (utf16 "-0x10") = .nan := by
  decide!

/-- C13, as stated, fails: a timer given as the string `7`, as the string
`1e1` or as `true` is not a number, yet `hostSetPrefs` issued by the host
changes autoQuestionTimer from 5 to `Number(timer)`, that is to 7, to 10 and
to 1. -/
theorem C13_coerced_timer_counterexample :
    (demoState.rooms.get "ABCD").map Room.autoQuestionTimer = some 5 ∧
    ((hostSetPrefs "H" "ABCD" (.str (utf16 "7")) .undefined demoState).state.rooms.get
      "ABCD").map Room.autoQuestionTimer = some 7 ∧
    ((hostSetPrefs "H" "ABCD" (.str (utf16 "1e1")) .undefined demoState).state.rooms.get
      "ABCD").map Room.autoQuestionTimer = some 10 ∧
    ((hostSetPrefs "H" "ABCD" (.bool true) .undefined demoState).state.rooms.get "ABCD").map
      Room.autoQuestionTimer = some 1 := by
  decide!

/-- C13, amended: for a room of a reachable state and `hostSetPrefs` issued by
its host, autoQuestionTimer becomes `Number(timer)` when that is a positive
number (the timer given as a positive number, or as a string or boolean that
coerces to one; `Infinity` counts as positive) and is otherwise unchanged;
autoLeaderboard becomes the given value when it is a boolean and is otherwise
unchanged; either field is decided whatever the other; no other field of the
room changes.  autoQuestionTimer is positive before and after. -/
theorem C13_hostSetPrefs (qs : Catalog) (s : State) (hs : Reachable qs s) (sid code : String)
    (timer autoLb : JSVal) (room : Room) (hc : code ≠ "")
    (hr : s.rooms.get code = some room) (hh : room.hostId = some sid) :
    ((∃ q : ℚ, 0 < q ∧ room.autoQuestionTimer = .fin q) ∨ room.autoQuestionTimer = .inf false) ∧
    ∃ room1, (hostSetPrefs sid code timer autoLb s).state.rooms.get code = some room1 ∧
      (∀ q : ℚ, timer = .num (.fin q) → 0 < q → room1.autoQuestionTimer = .fin q) ∧
      (∀ q : ℚ, Number timer = .fin q → 0 < q → room1.autoQuestionTimer = .fin q) ∧
      (Number timer = .inf false → room1.autoQuestionTimer = .inf false) ∧
      (Number timer = .nan ∨ Number timer = .inf true ∨ (∃ q : ℚ, Number timer = .fin q ∧ q ≤ 0) →
        room1.autoQuestionTimer = room.autoQuestionTimer) ∧
      (∀ b, autoLb = .bool b → room1.autoLeaderboard = b) ∧
      ((∀ b, autoLb ≠ .bool b) → room1.autoLeaderboard = room.autoLeaderboard) ∧
      room1.hostId = room.hostId ∧ room1.players = room.players ∧
      room1.answers = room.answers ∧ room1.roundActive = room.roundActive ∧
      room1.currentQuestionIndex = room.currentQuestionIndex ∧
      ((∃ q : ℚ, 0 < q ∧ room1.autoQuestionTimer = .fin q) ∨
        room1.autoQuestionTimer = .inf false) := by
  have hl : lookupRoom s code = some room := by rw [lookupRoom_eq_get s code hc, hr]
  have hpos := reachable_timer_pos qs s hs code room hr
  obtain ⟨t1, t2⟩ := applyPrefs_timer timer autoLb room
  obtain ⟨l1, l2⟩ := applyPrefs_leaderboard timer autoLb room
  obtain ⟨f1, f2, f3, f4, f5⟩ := applyPrefs_fields timer autoLb room
  have tfin : ∀ q : ℚ, Number timer = .fin q → 0 < q →
      (applyPrefs timer autoLb room).autoQuestionTimer = .fin q := by
    intro q hq h0
    rw [t1 (by rw [hq]; simp [JSNum.isPos, h0]), hq]
  refine ⟨(JSNum.isPos_iff _).mp hpos, applyPrefs timer autoLb room, ?_, ?_, tfin, ?_, ?_,
    l1, l2, f1, f2, f3, f4, f5,
    (JSNum.isPos_iff _).mp (applyPrefs_timer_pos timer autoLb room hpos)⟩
  · simp only [hostSetPrefs, hl]
    rw [if_neg (not_not.mpr hh)]
    exact Dict.get_set_self _ _ _
  · rintro q rfl hq
    exact tfin q rfl hq
  · intro hi
    rw [t1 (by rw [hi]; rfl), hi]
  · intro hn
    apply t2
    rcases hn with hn | hn | ⟨q, hn, hq⟩
    · rw [hn]; rfl
    · rw [hn]; rfl
    · rw [hn]; simp [JSNum.isPos, hq]

/-- C13 at the state after `quizTrace`: the host sets the timer to the string
`2.5` with a leaderboard flag that is not a boolean. -/
theorem C13_hostSetPrefs_witness :
    Reachable demoCatalog (run demoCatalog quizTrace State.init) ∧
    "AAAA" ≠ "" ∧
    (run demoCatalog quizTrace State.init).rooms.get "AAAA" = some quizRoom ∧
    quizRoom.hostId = some "H" ∧
    Number (.str (utf16 "2.5")) = .fin (5 / 2) ∧
    ∃ room1, (hostSetPrefs "H" "AAAA" (.str (utf16 "2.5")) (.str (utf16 "yes"))
        (run demoCatalog quizTrace State.init)).state.rooms.get "AAAA" = some room1 ∧
      room1.autoQuestionTimer = .fin (5 / 2) ∧
      room1.autoLeaderboard = quizRoom.autoLeaderboard ∧
      room1.players = quizRoom.players :=
  ⟨reachable_run demoCatalog quizTrace State.init Reachable.init, by decide, by decide!,
   by decide, by decide!, by
    obtain ⟨_, room1, h1, _, h3, _, _, _, h7, _, h9, _⟩ :=
      C13_hostSetPrefs demoCatalog (run demoCatalog quizTrace State.init)
        (reachable_run demoCatalog quizTrace State.init Reachable.init) "H" "AAAA"
        (.str (utf16 "2.5")) (.str (utf16 "yes")) quizRoom (by decide) (by decide!) (by decide)
    exact ⟨room1, h1, h3 (5 / 2) (by decide!) (by norm_num), h7 (by intro b; simp), h9⟩⟩

/-! ## The states of a room (C14) -/

/-- In every reachable state a room in an active round is on an index that is
at least 0. -/
theorem reachable_active_index (qs : Catalog) (s : State) (hs : Reachable qs s) (code : String)
    (room : Room) (hr : s.rooms.get code = some room) :
    room.roundActive = true → 0 ≤ room.currentQuestionIndex := by
  refine reachable_rooms_inv qs (fun r => r.roundActive = true → 0 ≤ r.currentQuestionIndex)
    ?_ ?_ s hs code room hr
  · intro sid h; simp [Room.fresh] at h
  · intro a c r r1 hP hstep
    cases hstep with
    | same => exact hP
    | hostJoin sid _ => exact hP
    | playerJoin sid name avatar _ => exact hP
    | startQuiz sid _ _ => intro _; exact le_refl 0
    | submitAnswer sid answer _ _ => exact hP
    | advance _ =>
      intro h
      rw [(advanced_fields qs r).2.2.2.2] at h
      have hr : r.roundActive = true := by
        cases hra : r.roundActive <;> simp [hra] at h ⊢
      have := hP hr
      rcases advanced_index qs r with h1 | ⟨h1, _⟩ <;> rw [h1] <;> omega
    | prefs sid timer autoLb _ _ =>
      obtain ⟨_, _, _, f4, f5⟩ := applyPrefs_fields timer autoLb r
      rw [f4, f5]; exact hP
    | disconnect sid _ => rw [disconnectRoom_eq]; exact hP

/-- C14, as stated, fails: `nextQuestion`, which any caller may issue, advances
a room that is still in the lobby.  On `demoCatalog` (two questions) the room
is then on index 0 with roundActive false: it is not in the lobby, not active,
and not ended on the last index 1. -/
theorem C14_lobby_advance_counterexample :
    ((run demoCatalog [.createRoom "H" [0, 0, 0, 0], .nextQuestion "X" "AAAA"]
        State.init).rooms.get "AAAA").map Room.currentQuestionIndex = some 0 ∧
    ((run demoCatalog [.createRoom "H" [0, 0, 0, 0], .nextQuestion "X" "AAAA"]
        State.init).rooms.get "AAAA").map Room.roundActive = some false ∧
    ((demoCatalog.length : Int) - 1 = 1) := by
  decide

/-- C14, amended: for a non-empty catalog every room of every reachable state
is in the lobby (index -1, not active), or active on an index between 0 and
catalog length - 1, or not active on an index between 0 and catalog length - 1
(the round has ended when that index is the last one; an earlier index arises
when a room that is not in a round is advanced).  No step leads from an index
at least 0 back to the lobby; only `startQuiz` of the host of the room makes
roundActive true, and only an advance (nextQuestion or timer) on the last
index makes it false. -/
theorem C14_room_states (qs : Catalog) (hq : qs ≠ []) (s : State) (hs : Reachable qs s)
    (code : String) (room : Room) (hr : s.rooms.get code = some room) :
    ((room.currentQuestionIndex = -1 ∧ room.roundActive = false) ∨
     (room.roundActive = true ∧ 0 ≤ room.currentQuestionIndex ∧
        room.currentQuestionIndex ≤ (qs.length : Int) - 1) ∨
     (room.roundActive = false ∧ 0 ≤ room.currentQuestionIndex ∧
        room.currentQuestionIndex ≤ (qs.length : Int) - 1)) ∧
    ∀ (a : Action) (st : Step), perform qs a s = some st →
      ∃ room1, st.state.rooms.get code = some room1 ∧
        (0 ≤ room.currentQuestionIndex → 0 ≤ room1.currentQuestionIndex) ∧
        (room.roundActive = false → room1.roundActive = true →
          ∃ sid, a = .startQuiz sid code ∧ room.hostId = some sid) ∧
        (room.roundActive = true → room1.roundActive = false →
          ((∃ sid, a = .nextQuestion sid code) ∨ a = .timer code) ∧
          room.currentQuestionIndex = (qs.length : Int) - 1) := by
  obtain ⟨hlo, hhi⟩ := reachable_index_bounds qs s hs code room hr
  have hhi := hhi hq
  have hact := reachable_active_index qs s hs code room hr
  refine ⟨?_, ?_⟩
  · cases hra : room.roundActive with
    | true => exact Or.inr (Or.inl ⟨rfl, hact hra, hhi⟩)
    | false =>
      by_cases h0 : 0 ≤ room.currentQuestionIndex
      · exact Or.inr (Or.inr ⟨rfl, h0, hhi⟩)
      · exact Or.inl ⟨by omega, rfl⟩
  · intro a st hp
    obtain ⟨room1, h1, hstep⟩ := step_room qs s a st code room hp hr
    refine ⟨room1, h1, ?_⟩
    have keep : ∀ r1 : Room, r1.roundActive = room.roundActive →
        r1.currentQuestionIndex = room.currentQuestionIndex →
        (0 ≤ room.currentQuestionIndex → 0 ≤ r1.currentQuestionIndex) ∧
        (room.roundActive = false → r1.roundActive = true →
          ∃ sid, a = .startQuiz sid code ∧ room.hostId = some sid) ∧
        (room.roundActive = true → r1.roundActive = false →
          ((∃ sid, a = .nextQuestion sid code) ∨ a = .timer code) ∧
          room.currentQuestionIndex = (qs.length : Int) - 1) := by
      intro r1 e1 e2
      rw [e1, e2]
      refine ⟨id, ?_, ?_⟩
      · intro h h2; rw [h] at h2; cases h2
      · intro h h2; rw [h] at h2; cases h2
    cases hstep with
    | same => exact keep _ rfl rfl
    | hostJoin sid _ =>
      exact keep _ rfl rfl
    | playerJoin sid name avatar _ =>
      exact keep _ rfl rfl
    | startQuiz sid ha hh =>
      exact ⟨fun _ => le_refl 0, fun _ _ => ⟨sid, ha, hh⟩, fun _ h2 => Bool.noConfusion h2⟩
    | submitAnswer sid answer _ _ =>
      exact keep _ rfl rfl
    | advance ha =>
      have hra := (advanced_fields qs room).2.2.2.2
      refine ⟨?_, ?_, ?_⟩
      · intro h0
        rcases advanced_index qs room with h1 | ⟨h1, _⟩ <;> rw [h1] <;> omega
      · intro h h1
        rw [hra, h] at h1
        simp at h1
      · intro h h1
        rw [hra, h] at h1
        simp at h1
        exact ⟨ha, by omega⟩
    | prefs sid timer autoLb _ _ =>
      obtain ⟨_, _, _, f4, f5⟩ := applyPrefs_fields timer autoLb room
      exact keep _ f4 f5
    | disconnect sid _ =>
      rw [disconnectRoom_eq]
      exact keep _ rfl rfl

/-- C14 at the state after `quizTrace`: the room is active on index 1, the
last index, and `nextQuestion` ends the round there. -/
theorem C14_room_states_witness :
    demoCatalog ≠ [] ∧
    Reachable demoCatalog (run demoCatalog quizTrace State.init) ∧
    (run demoCatalog quizTrace State.init).rooms.get "AAAA" = some quizRoom ∧
    ((quizRoom.currentQuestionIndex = -1 ∧ quizRoom.roundActive = false) ∨
     (quizRoom.roundActive = true ∧ 0 ≤ quizRoom.currentQuestionIndex ∧
        quizRoom.currentQuestionIndex ≤ (demoCatalog.length : Int) - 1) ∨
     (quizRoom.roundActive = false ∧ 0 ≤ quizRoom.currentQuestionIndex ∧
        quizRoom.currentQuestionIndex ≤ (demoCatalog.length : Int) - 1)) ∧
    ∃ room1,
      (nextQuestion demoCatalog "H" "AAAA" (run demoCatalog quizTrace State.init)).state.rooms.get
        "AAAA" = some room1 ∧
      (0 ≤ quizRoom.currentQuestionIndex → 0 ≤ room1.currentQuestionIndex) ∧
      (quizRoom.roundActive = false → room1.roundActive = true →
        ∃ sid, Action.nextQuestion "H" "AAAA" = .startQuiz sid "AAAA" ∧
          quizRoom.hostId = some sid) ∧
      (quizRoom.roundActive = true → room1.roundActive = false →
        ((∃ sid, Action.nextQuestion "H" "AAAA" = .nextQuestion sid "AAAA") ∨
          Action.nextQuestion "H" "AAAA" = .timer "AAAA") ∧
        quizRoom.currentQuestionIndex = (demoCatalog.length : Int) - 1) :=
  ⟨by decide, reachable_run demoCatalog quizTrace State.init Reachable.init, by decide!,
   (C14_room_states demoCatalog (by decide) (run demoCatalog quizTrace State.init)
      (reachable_run demoCatalog quizTrace State.init Reachable.init) "AAAA" quizRoom
      (by decide!)).1,
   (C14_room_states demoCatalog (by decide) (run demoCatalog quizTrace State.init)
      (reachable_run demoCatalog quizTrace State.init Reachable.init) "AAAA" quizRoom
      (by decide!)).2 (.nextQuestion "H" "AAAA") _ rfl⟩

/-! ## Starting the quiz (C15) -/

/-- C15, as stated, fails: after `quizTrace` the room `AAAA` is active on
index 1 with one timer pending; `startQuiz` issued again by the host `H` puts
it back on index 0 and arms a second timer. -/
theorem C15_restart_counterexample :
    (run demoCatalog quizTrace State.init).rooms.get "AAAA" = some quizRoom ∧
    quizRoom.roundActive = true ∧ quizRoom.currentQuestionIndex = 1 ∧
    (run demoCatalog quizTrace State.init).timers = ["AAAA"] ∧
    ((startQuiz demoCatalog "H" "AAAA" (run demoCatalog quizTrace State.init)).state.rooms.get
      "AAAA").map Room.currentQuestionIndex = some 0 ∧
    (startQuiz demoCatalog "H" "AAAA" (run demoCatalog quizTrace State.init)).state.timers
      = ["AAAA", "AAAA"] := by
  decide!

/-- C15, amended: `startQuiz` issued by the host of a room is effective from
every state of the room, the lobby, an active round or an ended one alike: it
completes, sets currentQuestionIndex = 0, roundActive = true and answers = {}
and changes nothing else in the room (players, scores, hostId, preferences)
nor any other room; when the catalog is not empty it arms one more timer for
the room, and none when the catalog is empty. -/
theorem C15_startQuiz_host (qs : Catalog) (s : State) (sid code : String) (room : Room)
    (hc : code ≠ "") (hr : s.rooms.get code = some room) (hh : room.hostId = some sid) :
    (startQuiz qs sid code s).fault = false ∧
    (startQuiz qs sid code s).state.rooms.get code
      = some { room with currentQuestionIndex := 0, roundActive := true, answers := [] } ∧
    (∀ k, k ≠ code → (startQuiz qs sid code s).state.rooms.get k = s.rooms.get k) ∧
    (qs ≠ [] → (startQuiz qs sid code s).state.timers = s.timers ++ [code]) ∧
    (qs = [] → (startQuiz qs sid code s).state.timers = s.timers) := by
  have hl : lookupRoom s code = some room := by rw [lookupRoom_eq_get s code hc, hr]
  rw [startQuiz_of_host qs sid code s room hl hh]
  refine ⟨rfl, Dict.get_set_self _ _ _, fun k hk => Dict.get_set_other _ _ _ _ hk, ?_, ?_⟩
  · intro hq
    have : qs.length ≠ 0 := fun h => hq (List.length_eq_zero.mp h)
    simp [this]
  · intro hq
    simp [hq]

/-- C15 at `lobbyState`: the host starts the quiz from the lobby. -/
theorem C15_startQuiz_host_witness :
    "AAAA" ≠ "" ∧ lobbyState.rooms.get "AAAA" = some lobbyRoom ∧
    lobbyRoom.hostId = some "H" ∧
    (startQuiz demoCatalog "H" "AAAA" lobbyState).fault = false ∧
    (startQuiz demoCatalog "H" "AAAA" lobbyState).state.rooms.get "AAAA"
      = some { lobbyRoom with currentQuestionIndex := 0, roundActive := true, answers := [] } ∧
    (startQuiz demoCatalog "H" "AAAA" lobbyState).state.timers = lobbyState.timers ++ ["AAAA"] :=
  ⟨by decide, by decide, by decide,
   (C15_startQuiz_host demoCatalog lobbyState "H" "AAAA" lobbyRoom (by decide) (by decide)
      (by decide)).1,
   (C15_startQuiz_host demoCatalog lobbyState "H" "AAAA" lobbyRoom (by decide) (by decide)
      (by decide)).2.1,
   (C15_startQuiz_host demoCatalog lobbyState "H" "AAAA" lobbyRoom (by decide) (by decide)
      (by decide)).2.2.2.1 (by decide)⟩

/-! ## The result of `evaluateAnswers` (C16) -/

/-- The loop of `evaluateAnswers` adds the points of the question to a score a
number of times, and does nothing else to a player. -/
theorem evalLoop_bump (q : Question) (ans : List (String × JSVal)) :
    ∀ (players : Dict Player) (per : Dict PerPlayer) (sid : String),
      ∃ n : Nat, (evalLoop q ans players per).1.get sid
        = (players.get sid).map (fun p =>
            { p with score := (fun x => (scoreOrZero x).add (pointsOf q))^[n] p.score }) := by
  induction ans with
  | nil =>
    intro players per sid
    refine ⟨0, ?_⟩
    simp only [evalLoop]
    cases players.get sid <;> simp
  | cons e rest ih =>
    obtain ⟨k, raw⟩ := e
    intro players per sid
    unfold evalLoop
    cases hp : players.get k with
    | none => simp only []; exact ih _ _ _
    | some p0 =>
      simp only []
      split
      · obtain ⟨n, hn⟩ := ih (players.set k
            { p0 with score := (scoreOrZero p0.score).add (pointsOf q) })
          (per.set k { id := k, name := p0.name, avatar := orNull p0.avatar, correct := true }) sid
        by_cases hk : sid = k
        · subst hk
          refine ⟨n + 1, ?_⟩
          rename_i hgot
          simp only [hgot] at hn ⊢
          rw [hn, Dict.get_set_self, hp]
          simp only [Option.map_some', Function.iterate_succ_apply]
        · refine ⟨n, ?_⟩
          rename_i hgot
          simp only [hgot] at hn ⊢
          rw [hn, Dict.get_set_other _ _ _ _ hk]
      · exact ih _ _ _

theorem JSNum.strictEq_eq_decide (a b : JSNum) :
    a.strictEq b = decide (a = b ∧ a ≠ .nan) := by
  cases a <;> cases b <;> simp [JSNum.strictEq]

theorem evalLoop_per_of_not_mem (q : Question) (ans : List (String × JSVal)) :
    ∀ (players : Dict Player) (per : Dict PerPlayer) (sid : String),
      sid ∉ Dict.keys ans → (evalLoop q ans players per).2.get sid = per.get sid := by
  induction ans with
  | nil => intro players per sid _; rfl
  | cons e rest ih =>
    obtain ⟨k, raw⟩ := e
    intro players per sid hn
    have hk : sid ≠ k := by
      intro h; apply hn; simp [Dict.keys, h]
    have hr : sid ∉ Dict.keys rest := by
      intro h; apply hn; simp [Dict.keys] at h ⊢; exact Or.inr h
    unfold evalLoop
    cases hp : players.get k with
    | none => simp only []; exact ih _ _ _ hr
    | some p =>
      simp only []
      split
      · rw [ih _ _ _ hr, Dict.get_set_other _ _ _ _ hk]
      · rw [ih _ _ _ hr, Dict.get_set_other _ _ _ _ hk]

theorem evalLoop_per_of_mem (q : Question) (ans : List (String × JSVal)) :
    ∀ (players : Dict Player) (per : Dict PerPlayer) (sid : String) (a : JSVal),
      (Dict.keys ans).Nodup → (sid, a) ∈ ans →
      (evalLoop q ans players per).2.get sid =
        match players.get sid with
        | none => per.get sid
        | some p => some { id := sid, name := p.name, avatar := orNull p.avatar,
                           correct := (Number a).strictEq (Number q.correct) } := by
  induction ans with
  | nil => intro players per sid a _ h; simp at h
  | cons e rest ih =>
    obtain ⟨k, raw⟩ := e
    intro players per sid a hnd hmem
    have hnd1 : k ∉ Dict.keys rest ∧ (Dict.keys rest).Nodup := by
      simpa [Dict.keys] using hnd
    rcases List.mem_cons.mp hmem with heq | hin
    · obtain ⟨rfl, rfl⟩ := Prod.mk.inj heq
      unfold evalLoop
      cases hp : players.get sid with
      | none => simp only []; exact evalLoop_per_of_not_mem q rest _ _ _ hnd1.1
      | some p =>
        simp only []
        split
        · rw [evalLoop_per_of_not_mem q rest _ _ _ hnd1.1, Dict.get_set_self]
        · rw [evalLoop_per_of_not_mem q rest _ _ _ hnd1.1, Dict.get_set_self]
    · have hk : sid ≠ k := by
        rintro rfl
        exact hnd1.1 (by simpa [Dict.keys] using ⟨a, hin⟩)
      unfold evalLoop
      cases hp : players.get k with
      | none => simp only []; exact ih _ _ _ _ hnd1.2 hin
      | some p =>
        simp only []
        split
        · rw [ih _ _ _ _ hnd1.2 hin, Dict.get_set_other _ _ _ _ hk,
            Dict.get_set_other _ _ _ _ hk]
        · rw [ih _ _ _ _ hnd1.2 hin, Dict.get_set_other _ _ _ _ hk]

/-- In every reachable state the avatar of a player is what `avatar||null`
gives, so `p.avatar||null` is the avatar itself. -/
theorem reachable_avatar_stored (qs : Catalog) (s : State) (hs : Reachable qs s) (code : String)
    (room : Room) (hr : s.rooms.get code = some room) :
    ∀ sid p, room.players.get sid = some p → orNull p.avatar = p.avatar := by
  have idem : ∀ v, orNull (orNull v) = orNull v := by
    intro v
    by_cases h : v.truthy = true
    · have e : orNull v = v := by simp [orNull, h]
      rw [e, e]
    · have e : orNull v = .null := by simp [orNull, h]
      rw [e]
      rfl
  refine reachable_rooms_inv qs
    (fun r => ∀ sid p, r.players.get sid = some p → orNull p.avatar = p.avatar)
    ?_ ?_ s hs code room hr
  · intro sid k p h
    simp [Room.fresh, Dict.get] at h
  · intro a c r r1 hP hstep sid p1 h1
    cases hstep with
    | same => exact hP sid p1 h1
    | hostJoin s0 _ => exact hP sid p1 h1
    | playerJoin s0 name avatar _ =>
      by_cases hk : sid = s0
      · subst hk
        simp only [Dict.get_set_self, Option.some.injEq] at h1
        subst h1
        exact idem avatar
      · simp only [Dict.get_set_other _ _ _ _ hk] at h1
        exact hP sid p1 h1
    | startQuiz s0 _ _ => exact hP sid p1 h1
    | submitAnswer s0 answer _ _ => exact hP sid p1 h1
    | advance _ =>
      rw [(advanced_fields qs r).2.2.2.1] at h1
      unfold evaluateRoom at h1
      cases hq : qs.at r.currentQuestionIndex with
      | none =>
        simp only [hq] at h1
        exact hP sid p1 h1
      | some q =>
        simp only [hq] at h1
        obtain ⟨n, hn⟩ := evalLoop_bump q r.answers r.players [] sid
        rw [hn] at h1
        cases hp : r.players.get sid with
        | none => rw [hp] at h1; cases h1
        | some p =>
          rw [hp] at h1
          simp only [Option.map_some', Option.some.injEq] at h1
          subst h1
          exact hP sid p hp
    | prefs s0 timer autoLb _ _ =>
      rw [(applyPrefs_fields timer autoLb r).2.1] at h1
      exact hP sid p1 h1
    | disconnect s0 _ =>
      rw [disconnectRoom_eq] at h1
      by_cases hk : sid = s0
      · subst hk
        simp only [Dict.get_del_self] at h1
        cases h1
      · simp only [Dict.get_del_other _ _ _ hk] at h1
        exact hP sid p1 h1

/-- C16: at a valid question index the mapping returned by `evaluateAnswers`
has an entry for an identity exactly when the identity has a recorded answer
and is a player of the room.  The entry carries the identity, the player's
name and avatar (`p.avatar||null`, which is the player's avatar as
`playerJoin` stores it, see `reachable_avatar_stored`), and `correct` is true
iff the submitted answer and the question's correct index are the same number
after both are coerced by `Number`, `NaN` being equal to nothing; so the
strings `1` and `1.0` and the number 1 are treated as equal.  An identity
without a recorded answer, or that is not a player, gets no entry. -/
theorem C16_perPlayer (qs : Catalog) (room : Room) (q : Question) (sid : String)
    (hq : qs.at room.currentQuestionIndex = some q) (hnd : (Dict.keys room.answers).Nodup) :
    (∀ a p, room.answers.get sid = some a → room.players.get sid = some p →
      (evaluateRoom qs room).2.get sid
        = some { id := sid, name := p.name, avatar := orNull p.avatar,
                 correct := decide (Number a = Number q.correct ∧ Number a ≠ .nan) }) ∧
    (∀ a p, room.answers.get sid = some a → room.players.get sid = some p →
      orNull p.avatar = p.avatar →
      (evaluateRoom qs room).2.get sid
        = some { id := sid, name := p.name, avatar := p.avatar,
                 correct := decide (Number a = Number q.correct ∧ Number a ≠ .nan) }) ∧
    (room.answers.get sid = none ∨ room.players.get sid = none →
      (evaluateRoom qs room).2.get sid = none) ∧
    (∀ v, orNull (orNull v) = orNull v) ∧
    Number (.str (utf16 "1")) = Number (.num (.fin 1)) ∧
    Number (.str (utf16 "1.0")) = Number (.num (.fin 1)) ∧
    Number (.num (.fin 1)) = .fin 1 ∧
    Number (.str (utf16 "2")) ≠ Number (.num (.fin 1)) := by
  have first : ∀ a p, room.answers.get sid = some a → room.players.get sid = some p →
      (evaluateRoom qs room).2.get sid
        = some { id := sid, name := p.name, avatar := orNull p.avatar,
                 correct := decide (Number a = Number q.correct ∧ Number a ≠ .nan) } := by
    intro a p ha hp
    simp only [evaluateRoom, hq]
    rw [evalLoop_per_of_mem q _ _ _ _ _ hnd (Dict.mem_of_get _ _ _ ha), hp,
      JSNum.strictEq_eq_decide]
  refine ⟨first, ?_, ?_, ?_, by decide!, by decide!, by decide!, by decide!⟩
  · intro a p ha hp hav
    rw [first a p ha hp, hav]
  · intro h
    simp only [evaluateRoom, hq]
    cases ha : room.answers.get sid with
    | none =>
      rw [evalLoop_per_of_not_mem q _ _ _ _ (Dict.not_mem_keys_of_get _ _ ha)]
      rfl
    | some a =>
      have hp : room.players.get sid = none := by
        rcases h with h | h
        · rw [ha] at h; cases h
        · exact h
      rw [evalLoop_per_of_mem q _ _ _ _ _ hnd (Dict.mem_of_get _ _ _ ha), hp]
      rfl
  · intro v
    by_cases h : v.truthy = true
    · have e : orNull v = v := by simp [orNull, h]
      rw [e, e]
    · have e : orNull v = .null := by simp [orNull, h]
      rw [e]
      rfl

/-- C16 on `demoCatalog`, in the room `oneAnswerRoom` with the answer of `A`
given as the string `1.0`: it is the correct index 1 of question 0 as a
number, and `A` gets an entry marked correct. -/
theorem C16_perPlayer_witness :
    demoCatalog.at oneAnswerRoom.currentQuestionIndex
        = some { correct := .num (.fin 1), points := .num (.fin 100) } ∧
    (Dict.keys [("A", JSVal.str (utf16 "1.0"))]).Nodup ∧
    Dict.get [("A", JSVal.str (utf16 "1.0"))] "A" = some (.str (utf16 "1.0")) ∧
    oneAnswerRoom.players.get "A" = some { id := "A", name := utf16 "Amy", avatar := .null, score := 0 } ∧
    (evaluateRoom demoCatalog { oneAnswerRoom with answers := [("A", .str (utf16 "1.0"))] }).2.get "A"
      = some { id := "A", name := utf16 "Amy", avatar := orNull .null,
               correct := decide (Number (.str (utf16 "1.0")) = Number (.num (.fin 1)) ∧
                 Number (.str (utf16 "1.0")) ≠ .nan) } ∧
    decide (Number (.str (utf16 "1.0")) = Number (.num (.fin 1)) ∧
      Number (.str (utf16 "1.0")) ≠ .nan) = true :=
  ⟨by decide, by decide, by decide, by decide!,
   (C16_perPlayer demoCatalog { oneAnswerRoom with answers := [("A", .str (utf16 "1.0"))] }
      { correct := .num (.fin 1), points := .num (.fin 100) } "A" (by decide) (by decide)).1
      (.str (utf16 "1.0")) { id := "A", name := utf16 "Amy", avatar := .null, score := 0 }
      (by decide) (by decide!),
   by decide!⟩

/-! ## Manual and automatic advance (C17) -/

theorem advance_timers_irrelevant (qs : Catalog) (code : String) (s : State)
    (timers : List String) :
    (advance qs code { s with timers := timers }).state.rooms = (advance qs code s).state.rooms ∧
    (advance qs code { s with timers := timers }).emits = (advance qs code s).emits := by
  unfold advance
  cases hr : s.rooms.get code with
  | none => simp [Step.skip]
  | some room => simp only []; split <;> simp

/-- C17: on an existing room the handler of `nextQuestion` and one firing of
the callback `advance` of the scheduler leave the same rooms (players and
scores, answers, currentQuestionIndex, roundActive, preferences, hostId of
the room, and every other room), both complete, and both emit the same events
apart from the `state` snapshots: answerResults, scoresUpdated, the optional
leaderboard, and questionChanged or roundEnded.  (The callback also arms the
next timer and sends a second `state` when the round ends.) -/
theorem C17_manual_equals_timer (qs : Catalog) (s : State) (sid code : String) (room : Room)
    (hc : code ≠ "") (hr : s.rooms.get code = some room) :
    (nextQuestion qs sid code s).state.rooms = (advance qs code s).state.rooms ∧
    (nextQuestion qs sid code s).state.rooms.get code = some (advanced qs room) ∧
    withoutState (nextQuestion qs sid code s).emits = withoutState (advance qs code s).emits ∧
    withoutState (nextQuestion qs sid code s).emits
      = resultEmits code (evaluateRoom qs room).1 (evaluateRoom qs room).2 ++
        [⟨.room code,
          if room.currentQuestionIndex < (qs.length : Int) - 1 then
            .questionChanged (room.currentQuestionIndex + 1)
              (qs.at (room.currentQuestionIndex + 1)) room.autoQuestionTimer
          else .roundEnded⟩] ∧
    (nextQuestion qs sid code s).fault = false ∧ (advance qs code s).fault = false ∧
    (∀ st, timerFire qs code s = some st →
      st.state.rooms = (nextQuestion qs sid code s).state.rooms ∧
      withoutState st.emits = withoutState (nextQuestion qs sid code s).emits ∧
      st.fault = false) := by
  have hl : lookupRoom s code = some room := by rw [lookupRoom_eq_get s code hc, hr]
  obtain ⟨hn1, _, hn3⟩ := nextQuestion_rooms qs sid code s room hl
  obtain ⟨ha1, ha2⟩ := advance_rooms qs code s room hr
  have hem : withoutState (nextQuestion qs sid code s).emits
      = withoutState (advance qs code s).emits := by
    simp only [nextQuestion, advance, hl, hr, withoutState]
    split <;> simp [List.filter_append, List.filter_cons, Event.isState]
  have hex : withoutState (nextQuestion qs sid code s).emits
      = resultEmits code (evaluateRoom qs room).1 (evaluateRoom qs room).2 ++
        [⟨.room code,
          if room.currentQuestionIndex < (qs.length : Int) - 1 then
            .questionChanged (room.currentQuestionIndex + 1)
              (qs.at (room.currentQuestionIndex + 1)) room.autoQuestionTimer
          else .roundEnded⟩] := by
    obtain ⟨i1, _, _, _, i5⟩ := evaluateRoom_index qs room
    simp only [nextQuestion, hl, withoutState, i1, i5]
    by_cases hlt : room.currentQuestionIndex < (qs.length : Int) - 1
    · simp only [hlt, if_true]
      unfold resultEmits
      split <;> simp [List.filter_append, List.filter_cons, Event.isState]
    · simp only [hlt, if_false]
      unfold resultEmits
      split <;> simp [List.filter_append, List.filter_cons, Event.isState]
  refine ⟨by rw [hn1, ha1], by rw [hn1, Dict.get_set_self], hem, hex, hn3, ha2, ?_⟩
  intro st hst
  unfold timerFire at hst
  by_cases ht : code ∈ s.timers
  · simp only [ht, if_true, Option.some.injEq] at hst
    subst hst
    obtain ⟨t1, t2⟩ := advance_timers_irrelevant qs code s (s.timers.erase code)
    refine ⟨by rw [t1, hn1, ha1], by rw [t2, hem], ?_⟩
    exact (advance_rooms qs code { s with timers := s.timers.erase code } room hr).2
  · simp [ht] at hst

/-- C17 at `demoState`: the manual advance and the firing of the pending timer
leave the same rooms and emit the same events apart from `state`. -/
theorem C17_manual_equals_timer_witness :
    "ABCD" ≠ "" ∧
    demoState.rooms.get "ABCD" = some { oneAnswerRoom with hostId := some "H" } ∧
    (nextQuestion demoCatalog "H" "ABCD" demoState).state.rooms
      = (advance demoCatalog "ABCD" demoState).state.rooms ∧
    withoutState (nextQuestion demoCatalog "H" "ABCD" demoState).emits
      = withoutState (advance demoCatalog "ABCD" demoState).emits :=
  ⟨by decide, by decide,
   (C17_manual_equals_timer demoCatalog demoState "H" "ABCD"
      { oneAnswerRoom with hostId := some "H" } (by decide) (by decide)).1,
   (C17_manual_equals_timer demoCatalog demoState "H" "ABCD"
      { oneAnswerRoom with hostId := some "H" } (by decide) (by decide)).2.2.1⟩

/-! ## Scores along a run (C18) -/

theorem JSNum.ne_nan_of_zero_le (x : JSNum) (h : JSNum.le 0 x = true) : x ≠ .nan := by
  rcases (JSNum.zero_le_iff x).mp h with ⟨q, _, rfl⟩ | rfl <;> simp

theorem JSNum.le_self (a : JSNum) (h : a ≠ .nan) : a.le a = true := by
  cases a with
  | nan => exact absurd rfl h
  | fin q => simp [JSNum.le]
  | inf b => cases b <;> rfl

theorem JSNum.le_trans (a b c : JSNum) (h1 : a.le b = true) (h2 : b.le c = true) :
    a.le c = true := by
  cases a with
  | nan => simp [JSNum.le] at h1
  | fin x =>
    cases b with
    | nan => simp [JSNum.le] at h1
    | fin y =>
      cases c with
      | nan => simp [JSNum.le] at h2
      | fin z =>
        simp only [JSNum.le, decide_eq_true_eq] at h1 h2 ⊢
        exact h1.trans h2
      | inf n => exact h2
    | inf m =>
      cases c with
      | nan => simp [JSNum.le] at h2
      | fin z => cases m <;> simp [JSNum.le] at h1 h2
      | inf n => cases m <;> cases n <;> simp [JSNum.le] at h1 h2 ⊢
  | inf l =>
    cases b with
    | nan => simp [JSNum.le] at h1
    | fin y =>
      cases c with
      | nan => simp [JSNum.le] at h2
      | fin z => exact h1
      | inf n => cases l <;> cases n <;> simp [JSNum.le] at h1 h2 ⊢
    | inf m =>
      cases c with
      | nan => simp [JSNum.le] at h2
      | fin z => cases l <;> cases m <;> simp [JSNum.le] at h1 h2 ⊢
      | inf n => cases l <;> cases m <;> cases n <;> simp [JSNum.le] at h1 h2 ⊢

/-- What `a <= b` says of two finite numbers, and above `Infinity`. -/
theorem JSNum.le_cases (a b : JSNum) (h : a.le b = true) :
    (∀ x y : ℚ, a = .fin x → b = .fin y → x ≤ y) ∧ (a = .inf false → b = .inf false) := by
  refine ⟨?_, ?_⟩
  · rintro x y rfl rfl
    simpa [JSNum.le] using h
  · rintro rfl
    cases b with
    | nan => simp [JSNum.le] at h
    | fin y => simp [JSNum.le] at h
    | inf n => cases n <;> simp [JSNum.le] at h ⊢

/-- The points of a question whose points value is not negative are not
below 0. -/
theorem pointsOf_nonneg (q : Question)
    (h : (∀ v : ℚ, Number q.points = .fin v → 0 ≤ v) ∧ Number q.points ≠ .inf true) :
    JSNum.le 0 (pointsOf q) = true := by
  unfold pointsOf
  split
  · cases hn : Number q.points with
    | nan => rw [JSNum.zero_le_iff]; rename_i ht; rw [hn] at ht; cases ht
    | fin v => rw [JSNum.zero_le_iff]; exact Or.inl ⟨v, h.1 v hn, rfl⟩
    | inf b =>
      rw [JSNum.zero_le_iff]
      cases b with
      | false => exact Or.inr rfl
      | true => exact absurd hn h.2
  · decide!

theorem Catalog.mem_of_at (qs : Catalog) (i : Int) (q : Question) (h : qs.at i = some q) :
    q ∈ qs := by
  unfold Catalog.at at h
  split at h
  · cases h
  · exact List.get?_mem h

/-- Adding points that are not below 0 any number of times to a score that is
a number value not below 0 gives such a score again, and not a lower one. -/
theorem bump_iterate (pts : JSNum) (hp : JSNum.le 0 pts = true) (n : Nat) :
    ∀ x : JSNum, JSNum.le 0 x = true → x.IsValue →
      JSNum.le 0 ((fun y => (scoreOrZero y).add pts)^[n] x) = true ∧
      ((fun y => (scoreOrZero y).add pts)^[n] x).IsValue ∧
      x.le ((fun y => (scoreOrZero y).add pts)^[n] x) = true := by
  induction n with
  | zero =>
    intro x h0 hv
    exact ⟨h0, hv, JSNum.le_self x (JSNum.ne_nan_of_zero_le x h0)⟩
  | succ n ih =>
    intro x h0 hv
    rw [Function.iterate_succ_apply]
    have hx : scoreOrZero x = x := scoreOrZero_eq x (JSNum.ne_nan_of_zero_le x h0)
    simp only [hx]
    obtain ⟨i1, i2, i3⟩ := ih (x.add pts) (JSNum.add_nonneg x pts h0 hp) (JSNum.add_isValue x pts)
    exact ⟨i1, i2, JSNum.le_trans _ _ _ (JSNum.le_add x pts hv h0 hp) i3⟩

/-- When no question has negative points, `evaluateAnswers` leaves every
player in the room, and a score that is a number value not below 0 stays one
and does not get lower. -/
theorem evaluateRoom_score (qs : Catalog)
    (hpts : ∀ q ∈ qs, (∀ v : ℚ, Number q.points = .fin v → 0 ≤ v) ∧ Number q.points ≠ .inf true)
    (room : Room) (sid : String) (p1 : Player)
    (h1 : (evaluateRoom qs room).1.players.get sid = some p1) :
    ∃ p, room.players.get sid = some p ∧
      (JSNum.le 0 p.score = true → p.score.IsValue →
        JSNum.le 0 p1.score = true ∧ p1.score.IsValue ∧ p.score.le p1.score = true) := by
  unfold evaluateRoom at h1
  cases hq : qs.at room.currentQuestionIndex with
  | none =>
    simp only [hq] at h1
    exact ⟨p1, h1, fun h0 hv => ⟨h0, hv, JSNum.le_self _ (JSNum.ne_nan_of_zero_le _ h0)⟩⟩
  | some q =>
    simp only [hq] at h1
    have hq0 := pointsOf_nonneg q (hpts q (Catalog.mem_of_at qs _ q hq))
    obtain ⟨n, hn⟩ := evalLoop_bump q room.answers room.players [] sid
    rw [hn] at h1
    cases hp : room.players.get sid with
    | none => rw [hp] at h1; cases h1
    | some p =>
      rw [hp] at h1
      simp only [Option.map_some', Option.some.injEq] at h1
      subst h1
      exact ⟨p, rfl, fun h0 hv => bump_iterate (pointsOf q) hq0 n p.score h0 hv⟩

/-- How one step may change the score stored under `sid` in the room `code`,
when no question has negative points and the scores of the room are number
values not below 0: it does not lower it, unless the step is a `playerJoin` of
`sid` to that room, which stores a new player with score 0. -/
theorem roomStep_score (qs : Catalog)
    (hpts : ∀ q ∈ qs, (∀ v : ℚ, Number q.points = .fin v → 0 ≤ v) ∧ Number q.points ≠ .inf true)
    (a : Action) (code : String) (room room1 : Room)
    (hG : ∀ sid p, room.players.get sid = some p → JSNum.le 0 p.score = true ∧ p.score.IsValue)
    (hstep : RoomStep qs a code room room1) (sid : String) (p1 : Player)
    (h1 : room1.players.get sid = some p1) :
    (∃ p, room.players.get sid = some p ∧ p.score.le p1.score = true ∧
      JSNum.le 0 p1.score = true ∧ p1.score.IsValue) ∨
    ((∃ name avatar, a = .playerJoin sid code name avatar) ∧ p1.score = 0) := by
  have keep : room.players.get sid = some p1 →
      (∃ p, room.players.get sid = some p ∧ p.score.le p1.score = true ∧
        JSNum.le 0 p1.score = true ∧ p1.score.IsValue) ∨
      ((∃ name avatar, a = .playerJoin sid code name avatar) ∧ p1.score = 0) := by
    intro h
    obtain ⟨g1, g2⟩ := hG sid p1 h
    exact Or.inl ⟨p1, h, JSNum.le_self _ (JSNum.ne_nan_of_zero_le _ g1), g1, g2⟩
  cases hstep with
  | same => exact keep h1
  | hostJoin s0 _ => exact keep h1
  | playerJoin s0 name avatar ha =>
    by_cases hk : sid = s0
    · subst hk
      simp only [Dict.get_set_self, Option.some.injEq] at h1
      subst h1
      exact Or.inr ⟨⟨name, avatar, ha⟩, rfl⟩
    · simp only [Dict.get_set_other _ _ _ _ hk] at h1
      exact keep h1
  | startQuiz s0 _ _ => exact keep h1
  | submitAnswer s0 answer _ _ => exact keep h1
  | advance _ =>
    rw [(advanced_fields qs room).2.2.2.1] at h1
    obtain ⟨p, hp, hmono⟩ := evaluateRoom_score qs hpts room sid p1 h1
    obtain ⟨g1, g2⟩ := hG sid p hp
    obtain ⟨m1, m2, m3⟩ := hmono g1 g2
    exact Or.inl ⟨p, hp, m3, m1, m2⟩
  | prefs s0 timer autoLb _ _ =>
    rw [(applyPrefs_fields timer autoLb room).2.1] at h1
    exact keep h1
  | disconnect s0 _ =>
    rw [disconnectRoom_eq] at h1
    by_cases hk : sid = s0
    · subst hk
      simp only [Dict.get_del_self] at h1
      cases h1
    · simp only [Dict.get_del_other _ _ _ hk] at h1
      exact keep h1

/-- When no question has negative points, every score in every reachable
state is a number value that is not below 0. -/
theorem reachable_score_nonneg (qs : Catalog)
    (hpts : ∀ q ∈ qs, (∀ v : ℚ, Number q.points = .fin v → 0 ≤ v) ∧ Number q.points ≠ .inf true)
    (s : State) (hs : Reachable qs s) (code : String) (room : Room)
    (hr : s.rooms.get code = some room) :
    ∀ sid p, room.players.get sid = some p → JSNum.le 0 p.score = true ∧ p.score.IsValue := by
  refine reachable_rooms_inv qs
    (fun r => ∀ sid p, r.players.get sid = some p → JSNum.le 0 p.score = true ∧ p.score.IsValue)
    ?_ ?_ s hs code room hr
  · intro sid k p h
    simp [Room.fresh, Dict.get] at h
  · intro a c r r1 hP hstep sid p1 h1
    rcases roomStep_score qs hpts a c r r1 hP hstep sid p1 h1 with ⟨p, _, _, g1, g2⟩ | ⟨_, h0⟩
    · exact ⟨g1, g2⟩
    · rw [h0]
      exact ⟨by decide!, by rw [JSNum.zero_eq]; exact isDouble_zero⟩

theorem demoCatalog_points_nonneg :
    ∀ q ∈ demoCatalog, (∀ v : ℚ, Number q.points = .fin v → 0 ≤ v) ∧ Number q.points ≠ .inf true := by
  intro q hq
  simp only [demoCatalog, List.mem_cons, List.mem_singleton, List.not_mem_nil, or_false] at hq
  rcases hq with rfl | rfl
  · refine ⟨?_, by simp [Number]⟩
    intro v hv
    simp only [Number, JSNum.fin.injEq] at hv
    rw [← hv]; norm_num
  · refine ⟨?_, by simp [Number]⟩
    intro v hv
    simp only [Number, JSNum.fin.injEq] at hv
    rw [← hv]; norm_num

/-- Points given as a string are read as a number: on a catalog whose question
has the points `-1e2` a correct answer takes 100 points away. -/
theorem negative_string_points_example :
    Number (.str (utf16 "-1e2")) = .fin (-100) ∧
    ((run [{ correct := .num (.fin 1), points := .str (utf16 "-1e2") }] quizTrace
        State.init).rooms.get "AAAA").map
        (fun r => (r.players.get "A").map Player.score) = some (some (.fin (-100))) := by
  decide!

/-- C18, as stated, fails twice.  After `quizTrace` the round is active and `A`
has 100 points; a second `playerJoin` of `A` stores a new player with score 0,
so the score stored under `A` decreases within the round.  And on a catalog
whose question has -50 points a correct answer leaves `A` with -50 points,
below 0. -/
theorem C18_score_counterexample :
    ((run demoCatalog quizTrace State.init).rooms.get "AAAA").map
        (fun r => (r.players.get "A").map Player.score) = some (some 100) ∧
    ((run demoCatalog quizTrace State.init).rooms.get "AAAA").map Room.roundActive
      = some true ∧
    ((run demoCatalog (quizTrace ++ [.playerJoin "A" "AAAA" (.str (utf16 "Amy")) .undefined])
        State.init).rooms.get "AAAA").map
        (fun r => (r.players.get "A").map Player.score) = some (some 0) ∧
    ((run penaltyCatalog quizTrace State.init).rooms.get "AAAA").map
        (fun r => (r.players.get "A").map Player.score) = some (some (.fin (-50))) ∧
    JSNum.le 0 (.fin (-50)) = false := by
  decide!

/-- C18, amended: when no question of the catalog has negative points (its
points value does not coerce to a number below 0), every player's score is at
least 0 in every reachable state (a finite value that is not negative, or
`Infinity`), and no inbound action or timer firing lowers the score stored
under a player identity that remains in the room, except a `playerJoin` of
that same identity to the room, which stores a new player with score 0. -/
theorem C18_scores (qs : Catalog)
    (hpts : ∀ q ∈ qs, (∀ v : ℚ, Number q.points = .fin v → 0 ≤ v) ∧ Number q.points ≠ .inf true)
    (s : State) (hs : Reachable qs s) (code : String) (room : Room)
    (hr : s.rooms.get code = some room)
    (sid : String) (p : Player) (hp : room.players.get sid = some p) :
    ((∃ x : ℚ, 0 ≤ x ∧ p.score = .fin x) ∨ p.score = .inf false) ∧
    ∀ (a : Action) (st : Step), perform qs a s = some st →
      ∃ room1, st.state.rooms.get code = some room1 ∧
        ∀ p1, room1.players.get sid = some p1 →
          (p.score.le p1.score = true ∧
            (∀ x y : ℚ, p.score = .fin x → p1.score = .fin y → x ≤ y) ∧
            (p.score = .inf false → p1.score = .inf false)) ∨
          ((∃ name avatar, a = .playerJoin sid code name avatar) ∧ p1.score = 0) := by
  have hG := reachable_score_nonneg qs hpts s hs code room hr
  refine ⟨(JSNum.zero_le_iff _).mp (hG sid p hp).1, ?_⟩
  intro a st hst
  obtain ⟨room1, h1, hstep⟩ := step_room qs s a st code room hst hr
  refine ⟨room1, h1, ?_⟩
  intro p1 hp1
  rcases roomStep_score qs hpts a code room room1 hG hstep sid p1 hp1 with
    ⟨p0, hp0, hle, _, _⟩ | h
  · rw [hp] at hp0
    cases hp0
    exact Or.inl ⟨hle, JSNum.le_cases _ _ hle⟩
  · exact Or.inr h

/-- C18 at the state after `quizTrace`: `A` has 100 points, and the
`nextQuestion` that ends the round does not lower them. -/
theorem C18_scores_witness :
    (∀ q ∈ demoCatalog,
      (∀ v : ℚ, Number q.points = .fin v → 0 ≤ v) ∧ Number q.points ≠ .inf true) ∧
    Reachable demoCatalog (run demoCatalog quizTrace State.init) ∧
    (run demoCatalog quizTrace State.init).rooms.get "AAAA" = some quizRoom ∧
    quizRoom.players.get "A" = some { id := "A", name := utf16 "Amy", avatar := .null, score := 100 } ∧
    ((∃ x : ℚ, 0 ≤ x ∧ (100 : JSNum) = .fin x) ∨ (100 : JSNum) = .inf false) ∧
    ∃ room1,
      (nextQuestion demoCatalog "H" "AAAA" (run demoCatalog quizTrace State.init)).state.rooms.get
        "AAAA" = some room1 ∧
      ∀ p1, room1.players.get "A" = some p1 →
        ((100 : JSNum).le p1.score = true ∧
          (∀ x y : ℚ, (100 : JSNum) = .fin x → p1.score = .fin y → x ≤ y) ∧
          ((100 : JSNum) = .inf false → p1.score = .inf false)) ∨
        ((∃ name avatar, Action.nextQuestion "H" "AAAA" = .playerJoin "A" "AAAA" name avatar) ∧
          p1.score = 0) :=
  ⟨demoCatalog_points_nonneg,
   reachable_run demoCatalog quizTrace State.init Reachable.init, by decide!, by decide,
   (C18_scores demoCatalog demoCatalog_points_nonneg (run demoCatalog quizTrace State.init)
      (reachable_run demoCatalog quizTrace State.init Reachable.init) "AAAA" quizRoom
      (by decide!) "A" { id := "A", name := utf16 "Amy", avatar := .null, score := 100 }
      (by decide)).1,
   (C18_scores demoCatalog demoCatalog_points_nonneg (run demoCatalog quizTrace State.init)
      (reachable_run demoCatalog quizTrace State.init Reachable.init) "AAAA" quizRoom
      (by decide!) "A" { id := "A", name := utf16 "Amy", avatar := .null, score := 100 }
      (by decide)).2 (.nextQuestion "H" "AAAA") _ rfl⟩

/-! ## Idempotence of `evaluateAnswers` (C19) -/

/-- C19: `evaluateAnswers` is idempotent on the state: run twice in a row, on
a room or through the registry, it leaves the room (scores, answers and every
other field) and the whole state as one run leaves them; the second run
changes no score. -/
theorem C19_evaluate_idempotent (qs : Catalog) (room : Room) :
    (evaluateRoom qs (evaluateRoom qs room).1).1 = (evaluateRoom qs room).1 ∧
    (evaluateRoom qs (evaluateRoom qs room).1).1.players = (evaluateRoom qs room).1.players ∧
    ∀ (s : State) (code : String),
      (evaluateAnswers qs (evaluateAnswers qs s code).1 code).1 = (evaluateAnswers qs s code).1 := by
  have key : ∀ r : Room, (evaluateRoom qs (evaluateRoom qs r).1).1 = (evaluateRoom qs r).1 := by
    intro r
    cases hq : qs.at r.currentQuestionIndex with
    | none =>
      have e : evaluateRoom qs r = (r, []) := by simp [evaluateRoom, hq]
      rw [e]
      simp only []
      rw [e]
    | some q =>
      have ha : (evaluateRoom qs r).1.answers = [] := by
        rw [evaluateRoom_answers]; simp [hq]
      rw [evaluateRoom_no_answers qs _ ha]
  refine ⟨key room, by rw [key room], ?_⟩
  intro s code
  cases hr : s.rooms.get code with
  | none =>
    have e : evaluateAnswers qs s code = (s, []) := by simp [evaluateAnswers, hr]
    rw [e]
    simp only []
    rw [e]
  | some r =>
    have e : evaluateAnswers qs s code
        = ({ s with rooms := s.rooms.set code (evaluateRoom qs r).1 }, (evaluateRoom qs r).2) := by
      simp only [evaluateAnswers, hr]
    rw [e]
    simp only [evaluateAnswers, Dict.get_set_self, Dict.set_set, key r]

/-! ## Independence of the rooms (C20) -/

theorem perform_rooms_scoped (qs : Catalog) (s : State) (a : Action) (st : Step) (c : String)
    (hp : perform qs a s = some st) (hc : a.roomCode = some c) :
    st.state.rooms = s.rooms ∨ ∃ room2, st.state.rooms = s.rooms.set c room2 := by
  cases a with
  | createRoom sid draws => simp [Action.roomCode] at hc
  | disconnect sid => simp [Action.roomCode] at hc
  | hostJoin sid c0 =>
    simp only [Action.roomCode, Option.some.injEq] at hc
    subst hc
    simp only [perform, Option.some.injEq] at hp
    subst hp
    unfold hostJoin
    cases hl : lookupRoom s c0 with
    | none => simp only []; split <;> exact Or.inl rfl
    | some room0 => exact Or.inr ⟨_, rfl⟩
  | playerJoin sid c0 name avatar =>
    simp only [Action.roomCode, Option.some.injEq] at hc
    subst hc
    simp only [perform, Option.some.injEq] at hp
    subst hp
    unfold playerJoin
    cases hl : lookupRoom s c0 with
    | none => simp only []; split <;> exact Or.inl rfl
    | some room0 => exact Or.inr ⟨_, rfl⟩
  | startQuiz sid c0 =>
    simp only [Action.roomCode, Option.some.injEq] at hc
    subst hc
    simp only [perform, Option.some.injEq] at hp
    subst hp
    cases hl : lookupRoom s c0 with
    | none => simp only [startQuiz, hl]; exact Or.inl rfl
    | some room0 =>
      by_cases hh : room0.hostId = some sid
      · rw [startQuiz_of_host qs sid c0 s room0 hl hh]
        exact Or.inr ⟨_, rfl⟩
      · simp only [startQuiz, hl, ne_eq, hh, not_false_eq_true, if_true]
        exact Or.inl rfl
  | submitAnswer sid c0 answer =>
    simp only [Action.roomCode, Option.some.injEq] at hc
    subst hc
    simp only [perform, Option.some.injEq] at hp
    subst hp
    cases hl : lookupRoom s c0 with
    | none => simp only [submitAnswer, hl]; split <;> exact Or.inl rfl
    | some room0 =>
      by_cases ha : room0.roundActive = true
      · exact Or.inr ⟨_, (submitAnswer_rooms sid c0 answer s room0 hl ha).1⟩
      · rw [submitAnswer_inactive sid c0 answer s room0 hl (by simpa using ha)]
        exact Or.inl rfl
  | nextQuestion sid c0 =>
    simp only [Action.roomCode, Option.some.injEq] at hc
    subst hc
    simp only [perform, Option.some.injEq] at hp
    subst hp
    cases hl : lookupRoom s c0 with
    | none => simp only [nextQuestion, hl]; split <;> exact Or.inl rfl
    | some room0 => exact Or.inr ⟨_, (nextQuestion_rooms qs sid c0 s room0 hl).1⟩
  | showLeaderboard sid c0 =>
    simp only [perform, Option.some.injEq] at hp
    subst hp
    unfold showLeaderboard
    cases hl : lookupRoom s c0 with
    | none => simp only []; split <;> exact Or.inl rfl
    | some room0 => exact Or.inl rfl
  | hostSetPrefs sid c0 timer autoLb =>
    simp only [Action.roomCode, Option.some.injEq] at hc
    subst hc
    simp only [perform, Option.some.injEq] at hp
    subst hp
    unfold hostSetPrefs
    cases hl : lookupRoom s c0 with
    | none => exact Or.inl rfl
    | some room0 =>
      by_cases hh : room0.hostId = some sid
      · simp only [hh, ne_eq, not_true_eq_false, if_false]
        exact Or.inr ⟨_, rfl⟩
      · simp only [ne_eq, hh, not_false_eq_true, if_true]
        exact Or.inl rfl
  | timer c0 =>
    simp only [Action.roomCode, Option.some.injEq] at hc
    subst hc
    simp only [perform, timerFire] at hp
    by_cases ht : c0 ∈ s.timers
    · simp only [ht, if_true, Option.some.injEq] at hp
      subst hp
      cases hl : s.rooms.get c0 with
      | none => simp only [advance, hl]; exact Or.inl rfl
      | some room0 =>
        exact Or.inr ⟨_, (advance_rooms qs c0 { s with timers := s.timers.erase c0 } room0 hl).1⟩
    · simp [ht] at hp

/-- The events of `resultEmits` all go to the room of the advance. -/
theorem resultEmits_dest (code : String) (room : Room) (per : Dict PerPlayer) :
    ∀ e ∈ resultEmits code room per, e.dest = .room code := by
  unfold resultEmits
  intro e he
  split at he <;> simp at he <;> rcases he with rfl | rfl | rfl <;> rfl

/-- Every event of a room-scoped step goes to the caller or to the room the
step is addressed to. -/
theorem perform_emits_scoped (qs : Catalog) (s : State) (a : Action) (st : Step) (c : String)
    (hp : perform qs a s = some st) (hc : a.roomCode = some c) :
    ∀ e ∈ st.emits, (∃ sid, e.dest = .caller sid) ∨ e.dest = .room c := by
  cases a with
  | createRoom sid draws => simp [Action.roomCode] at hc
  | disconnect sid => simp [Action.roomCode] at hc
  | hostJoin sid c0 =>
    simp only [Action.roomCode, Option.some.injEq] at hc
    subst hc
    simp only [perform, Option.some.injEq] at hp
    subst hp
    unfold hostJoin
    cases hl : lookupRoom s c0 with
    | none => simp only []; split <;> simp
    | some room0 => simp
  | playerJoin sid c0 name avatar =>
    simp only [Action.roomCode, Option.some.injEq] at hc
    subst hc
    simp only [perform, Option.some.injEq] at hp
    subst hp
    unfold playerJoin
    cases hl : lookupRoom s c0 with
    | none => simp only []; split <;> simp
    | some room0 => simp
  | startQuiz sid c0 =>
    simp only [Action.roomCode, Option.some.injEq] at hc
    subst hc
    simp only [perform, Option.some.injEq] at hp
    subst hp
    cases hl : lookupRoom s c0 with
    | none => simp [startQuiz, hl, Step.skip]
    | some room0 =>
      by_cases hh : room0.hostId = some sid
      · rw [startQuiz_of_host qs sid c0 s room0 hl hh]
        by_cases hq : qs.length = 0 <;> simp [hq]
      · simp [startQuiz, hl, hh, Step.skip]
  | submitAnswer sid c0 answer =>
    simp only [Action.roomCode, Option.some.injEq] at hc
    subst hc
    simp only [perform, Option.some.injEq] at hp
    subst hp
    cases hl : lookupRoom s c0 with
    | none => simp only [submitAnswer, hl]; split <;> simp [Step.skip]
    | some room0 =>
      by_cases ha : room0.roundActive = true
      · cases hg : room0.players.get sid <;> simp [submitAnswer, hl, ha, hg]
      · rw [submitAnswer_inactive sid c0 answer s room0 hl (by simpa using ha)]
        simp
  | nextQuestion sid c0 =>
    simp only [Action.roomCode, Option.some.injEq] at hc
    subst hc
    simp only [perform, Option.some.injEq] at hp
    subst hp
    cases hl : lookupRoom s c0 with
    | none => simp only [nextQuestion, hl]; split <;> simp [Step.skip]
    | some room0 =>
      intro e he
      right
      simp only [nextQuestion, hl] at he
      split at he
      · rcases List.mem_append.mp he with h | h
        · exact resultEmits_dest _ _ _ e h
        · simp at h; rcases h with rfl | rfl <;> rfl
      · rcases List.mem_append.mp he with h | h
        · exact resultEmits_dest _ _ _ e h
        · simp at h; rcases h with rfl | rfl <;> rfl
  | showLeaderboard sid c0 =>
    simp only [Action.roomCode, Option.some.injEq] at hc
    subst hc
    simp only [perform, Option.some.injEq] at hp
    subst hp
    unfold showLeaderboard
    cases hl : lookupRoom s c0 with
    | none => simp only []; split <;> simp [Step.skip]
    | some room0 => simp [Step.skip]
  | hostSetPrefs sid c0 timer autoLb =>
    simp only [Action.roomCode, Option.some.injEq] at hc
    subst hc
    simp only [perform, Option.some.injEq] at hp
    subst hp
    unfold hostSetPrefs
    cases hl : lookupRoom s c0 with
    | none => simp [Step.skip]
    | some room0 =>
      by_cases hh : room0.hostId = some sid <;> simp [hh, Step.skip]
  | timer c0 =>
    simp only [Action.roomCode, Option.some.injEq] at hc
    subst hc
    simp only [perform, timerFire] at hp
    by_cases ht : c0 ∈ s.timers
    · simp only [ht, if_true, Option.some.injEq] at hp
      subst hp
      cases hl : s.rooms.get c0 with
      | none => simp [advance, hl, Step.skip]
      | some room0 =>
        intro e he
        right
        simp only [advance, hl] at he
        split at he
        · rcases List.mem_append.mp he with h | h
          · exact resultEmits_dest _ _ _ e h
          · simp at h; rcases h with rfl | rfl <;> rfl
        · rcases List.mem_append.mp he with h | h
          · exact resultEmits_dest _ _ _ e h
          · simp at h; rcases h with rfl | rfl <;> rfl
    · simp [ht] at hp

/-- C20: a room-scoped step addressed to the code `c` (hostJoin, playerJoin,
startQuiz, submitAnswer, nextQuestion, showLeaderboard, hostSetPrefs, or the
firing of a timer of `c`) leaves every room stored under another code
unchanged, adds and removes no room under another code, and broadcasts
nothing to another room: each of its events goes to the caller or to the room
`c`. -/
theorem C20_rooms_independent (qs : Catalog) (s : State) (a : Action) (st : Step) (c : String)
    (hp : perform qs a s = some st) (hc : a.roomCode = some c) :
    ∀ k, k ≠ c →
      st.state.rooms.get k = s.rooms.get k ∧
      ∀ e ∈ st.emits, e.dest ≠ .room k := by
  intro k hk
  refine ⟨?_, ?_⟩
  · rcases perform_rooms_scoped qs s a st c hp hc with h | ⟨room2, h⟩
    · rw [h]
    · rw [h, Dict.get_set_other _ _ _ _ hk]
  · intro e he hd
    rcases perform_emits_scoped qs s a st c hp hc e he with ⟨sid, h⟩ | h
    · rw [h] at hd; cases hd
    · rw [h] at hd
      exact hk (Target.room.inj hd).symm

/-- C20 at `twoRoomState`: `nextQuestion` addressed to `AAAA` leaves the room
`BBBB` as it is and sends nothing to it. -/
theorem C20_rooms_independent_witness :
    perform demoCatalog (.nextQuestion "H" "AAAA") twoRoomState
      = some (nextQuestion demoCatalog "H" "AAAA" twoRoomState) ∧
    (Action.nextQuestion "H" "AAAA").roomCode = some "AAAA" ∧
    "BBBB" ≠ "AAAA" ∧
    (twoRoomState.rooms.get "BBBB").isSome = true ∧
    (nextQuestion demoCatalog "H" "AAAA" twoRoomState).state.rooms.get "BBBB"
      = twoRoomState.rooms.get "BBBB" ∧
    ∀ e ∈ (nextQuestion demoCatalog "H" "AAAA" twoRoomState).emits, e.dest ≠ .room "BBBB" :=
  ⟨rfl, rfl, by decide, by decide,
   C20_rooms_independent demoCatalog twoRoomState (.nextQuestion "H" "AAAA")
     (nextQuestion demoCatalog "H" "AAAA" twoRoomState) "AAAA" rfl rfl "BBBB" (by decide)⟩

end Quiz
